import Mathlib

/-!
Distributed (top) transactions of `lustre/target/update_trans.c`.

A shallow embedding of the top-transaction API (`top_trans_create`,
`top_trans_start`, `top_trans_stop`, `thandle_get_sub_by_dt`,
`top_thandle_destroy`) and theorems about the order of the calls it makes on
the per-device transaction backend and about the result it aggregates.

Memory is explicit: addresses are natural numbers, `0` being `NULL`;
device-local handles live in `World.mem`, indexed by address, and the C
assignments through `lst->st_sub_th->...` are stores into that memory.  The
top handle and its registry are passed and returned as values.  Everything
outside the file (the allocator, `dt_trans_create`,
`dt_trans_start`, `dt_trans_stop`) answers from a script `Env`, indexed by the
number of events logged so far, and every such interaction is appended to
`World.trace` with its arguments and its answer.
-/

namespace UpdateTrans

/-- The identity of a `struct dt_device` (its address). -/
abbrev Dev := Nat

/-- Modelled from the spec: the declaration of `struct thandle` (dt_object.h) is
not among the sources; these are the fields `update_trans.c` reads and writes.
`th_sync` and `th_local` are one-bit fields. -/
structure thandle where
  th_dev : Dev
  th_top : Nat
  th_result : Int
  th_sync : Bool
  th_local : Bool
deriving DecidableEq, Repr

/-- Modelled from the spec: the declaration of `struct sub_thandle`
(lustre_update.h) is not among the sources.  `st_sub_th` is the pointer to the
device-local handle; `st_self` is the address of the wrapper itself (what
`OBD_ALLOC_PTR` returned and `OBD_FREE_PTR` receives); the list linkage
`st_sub_list` is the position in `tt_sub_thandle_list`. -/
structure sub_thandle where
  st_self : Nat
  st_sub_th : Nat
deriving DecidableEq, Repr

/-- Modelled from the spec: the declaration of `struct top_thandle`
(lustre_update.h) is not among the sources.  `tt_super` is the embedded generic
handle (`th` is `&top_th->tt_super`), `tt_self` the address of the structure,
and `tt_sub_thandle_list` the list in head-to-tail order, which is the order
`list_for_each_entry` visits. -/
structure top_thandle where
  tt_self : Nat
  tt_super : thandle
  tt_magic : Nat
  tt_master_sub_thandle : Nat
  tt_sub_thandle_list : List sub_thandle
deriving DecidableEq, Repr

/-- Modelled from the spec: the type tag of a top handle; the `#define` is in
lustre_update.h, which is not among the sources. -/
def TOP_THANDLE_MAGIC : Nat := 0x20140917

/-- The errno of an allocation failure. -/
def ENOMEM : Int := 12

/-- A `struct thandle *` return value: a valid pointer, or `ERR_PTR(errno)`
(what `IS_ERR` recognises). -/
inductive ErrPtr where
  | ptr (p : Nat)
  | err (errno : Int)
deriving DecidableEq, Repr

/-- One interaction of the file with the outside, with its arguments and the
answer it got.  For `trans_start` and `trans_stop`, `h` is the content of the
handle at the moment of the call. -/
inductive Event where
  | obd_alloc (p : Nat)
  | obd_free (p : Nat)
  | trans_create (dev : Dev) (res : ErrPtr)
  | trans_start (dev : Dev) (th : Nat) (h : thandle) (rc : Int)
  | trans_stop (dev : Dev) (th : Nat) (h : thandle) (rc : Int)
deriving DecidableEq, Repr

/-- The behaviour of the allocator and of the device transaction backend, as a
script: the argument `n` is the number of events logged before the interaction,
so that from a world `w` the next interaction is answered at `w.trace.length`,
the one after it at `w.trace.length + 1`, and so on; every sequence of answers
is the script of some `Env`.  `trans_create n d` is the handle a successful
`dt_trans_create` on device `d` hands out (its initial content), or the errno
of its `ERR_PTR`. -/
structure Env where
  alloc_ok : Nat → Bool
  trans_create : Nat → Dev → Except Int thandle
  trans_start : Nat → Int
  trans_stop : Nat → Int

/-- The memory holding the device-local handles, the allocation frontier (every
address above `brk` is unused), and the log of interactions. -/
structure World where
  mem : Nat → thandle
  brk : Nat
  trace : List Event

/-- The assignment `p->field = v`, as an update `f` of the handle at `p`. -/
def World.store (w : World) (p : Nat) (f : thandle → thandle) : World :=
  { w with mem := fun q => if q = p then f (w.mem q) else w.mem q }

/-- Append one event to the log. -/
def World.log (w : World) (e : Event) : World :=
  { w with trace := w.trace ++ [e] }

/-- Modelled from the spec: `OBD_ALLOC_GFP` / `OBD_ALLOC_PTR` (macros absent from
the sources) return `NULL` or a fresh zero-filled object; the address is the
next one above the frontier. -/
def obd_alloc (E : Env) (w : World) : Nat × World :=
  if E.alloc_ok w.trace.length then
    (w.brk + 1, { w with brk := w.brk + 1, trace := w.trace ++ [Event.obd_alloc (w.brk + 1)] })
  else
    (0, w.log (Event.obd_alloc 0))

/-- Modelled from the spec: `OBD_FREE_PTR` (macro absent from the sources)
releases the object at `p`. -/
def obd_free (p : Nat) (w : World) : World :=
  w.log (Event.obd_free p)

/-- Modelled from the spec: `dt_trans_create` (dt_object.h, absent from the
sources) is the backend's `createLocal(device) -> Handle | Error`: it returns an
`ERR_PTR`, or a pointer to a new handle that the backend has allocated and
filled in. -/
def dt_trans_create (E : Env) (d : Dev) (w : World) : ErrPtr × World :=
  match E.trans_create w.trace.length d with
  | Except.error e => (ErrPtr.err e, w.log (Event.trans_create d (ErrPtr.err e)))
  | Except.ok h =>
    (ErrPtr.ptr (w.brk + 1),
     { mem := fun q => if q = w.brk + 1 then h else w.mem q,
       brk := w.brk + 1,
       trace := w.trace ++ [Event.trans_create d (ErrPtr.ptr (w.brk + 1))] })

/-- Modelled from the spec: `dt_trans_start` (dt_object.h, absent from the
sources) is the backend's `startLocal`, returning `0` or an error code.  The
call is logged with the content of the handle at that moment; what the backend
does to its own handle is not modelled, the fields this file reads being left
as they are. -/
def dt_trans_start (E : Env) (d : Dev) (th : Nat) (w : World) : Int × World :=
  (E.trans_start w.trace.length,
   w.log (Event.trans_start d th (w.mem th) (E.trans_start w.trace.length)))

/-- Modelled from the spec: `dt_trans_stop` (dt_object.h, absent from the
sources) is the backend's `stopLocal`, returning `0` or an error code.  The
call is logged with the content of the handle at that moment; what the backend
does to its own handle is not modelled, the fields this file reads being left
as they are. -/
def dt_trans_stop (E : Env) (d : Dev) (th : Nat) (w : World) : Int × World :=
  (E.trans_stop w.trace.length,
   w.log (Event.trans_stop d th (w.mem th) (E.trans_stop w.trace.length)))

/-- The handle content of a zero-filled allocation. -/
def thandle_zero : thandle :=
  { th_dev := 0, th_top := 0, th_result := 0, th_sync := false, th_local := false }

/-- `top_trans_create(env, master_dev)`: the new top handle or the errno of the
returned `ERR_PTR`. -/
def top_trans_create (E : Env) (master_dev : Dev) (w : World) :
    Except Int top_thandle × World :=
  let a := obd_alloc E w
  if a.1 = 0 then
    (Except.error (-ENOMEM), a.2)
  else
    match dt_trans_create E master_dev a.2 with
    | (ErrPtr.err e, w2) => (Except.error e, obd_free a.1 w2)
    | (ErrPtr.ptr child_th, w2) =>
      (Except.ok
        { tt_self := a.1,
          tt_super := { thandle_zero with th_top := a.1 },
          tt_magic := TOP_THANDLE_MAGIC,
          tt_master_sub_thandle := child_th,
          tt_sub_thandle_list := [] },
       w2.store child_th (fun h => { h with th_top := a.1 }))

/-- The body of the `list_for_each_entry` loop of `top_trans_start` for the
entry `lst`, up to and including the `dt_trans_start` call: its return code and
the world after it. -/
def top_trans_start_sub (E : Env) (th : thandle) (lst : sub_thandle) (w : World) :
    Int × World :=
  let w1 := w.store lst.st_sub_th (fun h => { h with th_sync := th.th_sync })
  let w2 := w1.store lst.st_sub_th (fun h => { h with th_local := th.th_local })
  dt_trans_start E (w2.mem lst.st_sub_th).th_dev lst.st_sub_th w2

/-- The `list_for_each_entry` loop of `top_trans_start`; `some rc` is the
`return rc` taken inside the loop, `none` is the loop running to its end. -/
def top_trans_start_subs (E : Env) (th : thandle) :
    List sub_thandle → World → Option Int × World
  | [], w => (none, w)
  | lst :: rest, w =>
    let r := top_trans_start_sub E th lst w
    if r.1 ≠ 0 then (some r.1, r.2) else top_trans_start_subs E th rest r.2

/-- `top_trans_start(env, master_dev, th)`; `none` is a failed `LASSERT`. -/
def top_trans_start (E : Env) (master_dev : Dev) (top_th : top_thandle) (w : World) :
    Option (Int × World) :=
  if top_th.tt_magic ≠ TOP_THANDLE_MAGIC then none
  else
    match top_trans_start_subs E top_th.tt_super top_th.tt_sub_thandle_list w with
    | (some rc, w1) => some (rc, w1)
    | (none, w1) =>
      let w2 := w1.store top_th.tt_master_sub_thandle
        (fun h => { h with th_local := top_th.tt_super.th_local })
      let w3 := w2.store top_th.tt_master_sub_thandle
        (fun h => { h with th_sync := top_th.tt_super.th_sync })
      some (dt_trans_start E master_dev top_th.tt_master_sub_thandle w3)

/-- `top_thandle_destroy(top_th)`; `none` is a failed `LASSERT`. -/
def top_thandle_destroy (top_th : top_thandle) (w : World) : Option World :=
  if top_th.tt_magic ≠ TOP_THANDLE_MAGIC then none
  else
    some (obd_free top_th.tt_self
      (top_th.tt_sub_thandle_list.foldl (fun w1 st => obd_free st.st_self w1) w))

/-- The body of the `list_for_each_entry` loop of `top_trans_stop` for the entry
`lst`, with `rc` the value of the variable `rc` before it: the value of `rc`
and the world after it. -/
def top_trans_stop_sub (E : Env) (th : thandle) (lst : sub_thandle) (rc : Int) (w : World) :
    Int × World :=
  let w1 := if rc ≠ 0 then w.store lst.st_sub_th (fun h => { h with th_result := rc }) else w
  let w2 := w1.store lst.st_sub_th (fun h => { h with th_sync := th.th_sync })
  let w3 := w2.store lst.st_sub_th (fun h => { h with th_local := th.th_local })
  let r := dt_trans_stop E (w3.mem lst.st_sub_th).th_dev lst.st_sub_th w3
  (if r.1 < 0 ∧ rc = 0 then r.1 else rc, r.2)

/-- The `list_for_each_entry` loop of `top_trans_stop`, with `rc` the value of
the variable `rc` on entry. -/
def top_trans_stop_subs (E : Env) (th : thandle) :
    List sub_thandle → Int → World → Int × World
  | [], rc, w => (rc, w)
  | lst :: rest, rc, w =>
    let r := top_trans_stop_sub E th lst rc w
    top_trans_stop_subs E th rest r.1 r.2

/-- `top_trans_stop(env, master_dev, th)`; `none` is a failed `LASSERT`. -/
def top_trans_stop (E : Env) (master_dev : Dev) (top_th : top_thandle) (w : World) :
    Option (Int × World) :=
  if top_th.tt_magic ≠ TOP_THANDLE_MAGIC then none
  else
    let w1 := w.store top_th.tt_master_sub_thandle
      (fun h => { h with th_local := top_th.tt_super.th_local })
    let w2 := w1.store top_th.tt_master_sub_thandle
      (fun h => { h with th_sync := top_th.tt_super.th_sync })
    let m := dt_trans_stop E master_dev top_th.tt_master_sub_thandle w2
    let r := top_trans_stop_subs E top_th.tt_super top_th.tt_sub_thandle_list m.1 m.2
    match top_thandle_destroy top_th r.2 with
    | none => none
    | some w3 => some (r.1, w3)

/-- `thandle_get_sub_by_dt(env, th, sub_dt)`: the returned pointer (or
`ERR_PTR`), the top handle and the world after the call; `none` is a failed
`LASSERT`.  `list_add` inserts the new wrapper at the head of the list. -/
def thandle_get_sub_by_dt (E : Env) (top_th : top_thandle) (sub_dt : Dev) (w : World) :
    Option (ErrPtr × top_thandle × World) :=
  if top_th.tt_magic ≠ TOP_THANDLE_MAGIC then none
  else if top_th.tt_master_sub_thandle = 0 then none
  else if sub_dt = (w.mem top_th.tt_master_sub_thandle).th_dev then
    some (ErrPtr.ptr top_th.tt_master_sub_thandle, top_th, w)
  else
    match top_th.tt_sub_thandle_list.find? (fun lst => (w.mem lst.st_sub_th).th_dev = sub_dt) with
    | some lst => some (ErrPtr.ptr lst.st_sub_th, top_th, w)
    | none =>
      match dt_trans_create E sub_dt w with
      | (ErrPtr.err e, w1) => some (ErrPtr.err e, top_th, w1)
      | (ErrPtr.ptr sub_th, w1) =>
        let top1 := { top_th with tt_super := { top_th.tt_super with th_sync := true } }
        let w2 := w1.store sub_th (fun h => { h with th_top := top_th.tt_self })
        let a := obd_alloc E w2
        if a.1 = 0 then
          some (ErrPtr.err (-ENOMEM), top1, (dt_trans_stop E sub_dt sub_th a.2).2)
        else
          some (ErrPtr.ptr sub_th,
                { top1 with tt_sub_thandle_list :=
                    { st_self := a.1, st_sub_th := sub_th } :: top1.tt_sub_thandle_list },
                a.2)

/-- A caller making the calls `thandle_get_sub_by_dt(env, th, d)` for the devices
of the list, in order; the results are collected in call order. -/
def attach_all (E : Env) : List Dev → top_thandle → World →
    Option (List ErrPtr × top_thandle × World)
  | [], top_th, w => some ([], top_th, w)
  | d :: ds, top_th, w =>
    match thandle_get_sub_by_dt E top_th d w with
    | none => none
    | some (r, top1, w1) =>
      match attach_all E ds top1 w1 with
      | none => none
      | some (rs, top2, w2) => some (r :: rs, top2, w2)

/-- The `dt_trans_start` calls of a log, in order: device argument and handle. -/
def start_calls : List Event → List (Dev × Nat)
  | [] => []
  | Event.trans_start d p _ _ :: es => (d, p) :: start_calls es
  | _ :: es => start_calls es

/-- The `dt_trans_stop` calls of a log, in order: device argument and handle. -/
def stop_calls : List Event → List (Dev × Nat)
  | [] => []
  | Event.trans_stop d p _ _ :: es => (d, p) :: stop_calls es
  | _ :: es => stop_calls es

/-- The number of `dt_trans_create` calls of a log. -/
def create_count : List Event → Nat
  | [] => 0
  | Event.trans_create _ _ :: es => create_count es + 1
  | _ :: es => create_count es

/-- The handles of the registry, in iteration order. -/
def top_thandle.sub_ptrs (top_th : top_thandle) : List Nat :=
  top_th.tt_sub_thandle_list.map (fun lst => lst.st_sub_th)

/-- An empty world: no handle allocated, nothing logged. -/
def World.init : World :=
  { mem := fun _ => thandle_zero, brk := 0, trace := [] }

/-- A backend and allocator that never fail to create or allocate, handing out
handles bound to the requested device, with the start and stop codes given by
the scripts `start` and `stop`. -/
def Env.ok (start stop : Nat → Int) : Env :=
  { alloc_ok := fun _ => true,
    trans_create := fun _ d => Except.ok { thandle_zero with th_dev := d },
    trans_start := start,
    trans_stop := stop }

/-- The events logged after the world `w0`. -/
def World.since (w : World) (w0 : World) : List Event :=
  w.trace.drop w0.trace.length

/-- The codes the script gives to `k` consecutive interactions that are
`dt_trans_stop` calls, the first of them at index `n`. -/
def Env.stop_codes (E : Env) : Nat → Nat → List Int
  | _, 0 => []
  | n, k + 1 => E.trans_stop n :: E.stop_codes (n + 1) k

/-- What the loop of `top_trans_stop` leaves in `rc`: the value on entry when
that is non-zero, otherwise the first negative code of the list, otherwise 0. -/
def keep_first (rc : Int) : List Int → Int
  | [] => rc
  | c :: cs => keep_first (if c < 0 ∧ rc = 0 then c else rc) cs

/-- The content of the handle behind each registry entry's device, in
iteration order. -/
def top_thandle.sub_devs (top_th : top_thandle) (w : World) : List Dev :=
  top_th.tt_sub_thandle_list.map (fun lst => (w.mem lst.st_sub_th).th_dev)

/-- The top handle after a successful attach of a new device whose handle is at `p`
and whose wrapper is at `a`. -/
def top_thandle.attached (top_th : top_thandle) (a p : Nat) : top_thandle :=
  { top_th with
    tt_super := { top_th.tt_super with th_sync := true },
    tt_sub_thandle_list := { st_self := a, st_sub_th := p } :: top_th.tt_sub_thandle_list }

/-- A top handle and a world as `top_trans_create` and `thandle_get_sub_by_dt`
leave them: the type tag is set, the master handle is not `NULL`, and the
master handle and the registry handles lie below the allocation frontier. -/
structure Wf (top_th : top_thandle) (w : World) : Prop where
  magic : top_th.tt_magic = TOP_THANDLE_MAGIC
  master_ne : top_th.tt_master_sub_thandle ≠ 0
  master_le : top_th.tt_master_sub_thandle ≤ w.brk
  subs_le : ∀ lst ∈ top_th.tt_sub_thandle_list, lst.st_sub_th ≤ w.brk

/-- The devices, among `ds`, whose attach call returned a handle (`rs` are the
results of the calls, in call order). -/
def attached : List Dev → List ErrPtr → List Dev
  | d :: ds, ErrPtr.ptr _ :: rs => d :: attached ds rs
  | _ :: ds, ErrPtr.err _ :: rs => attached ds rs
  | _, _ => []

/-- The handles the attach calls returned. -/
def returned : List ErrPtr → List Nat
  | ErrPtr.ptr p :: rs => p :: returned rs
  | ErrPtr.err _ :: rs => returned rs
  | [] => []

/-- The first non-zero code of a sequence of codes, 0 when there is none. -/
def first_nonzero (codes : List Int) : Int :=
  (codes.find? (fun c => c ≠ 0)).getD 0

/-- The result of a stop from the codes of the participants, the master's
first: the master's code when it is not 0, otherwise the first negative code
among the others, otherwise 0. -/
def first_error : List Int → Int
  | [] => 0
  | m :: subs => if m ≠ 0 then m else (subs.find? (fun c => c < 0)).getD 0

/-- A top handle with master handle at address 2 and a registry of two
entries, as `top_trans_create` on device 3 followed by attaches of devices 1
and 2 leave it. -/
def demo_top : top_thandle :=
  { tt_self := 1,
    tt_super := { thandle_zero with th_top := 1, th_sync := true },
    tt_magic := TOP_THANDLE_MAGIC,
    tt_master_sub_thandle := 2,
    tt_sub_thandle_list := [{ st_self := 6, st_sub_th := 5 }, { st_self := 4, st_sub_th := 3 }] }

/-- A caller creating a top transaction on `master_dev` in the empty world and
then attaching the devices `ds` in order: the results of the attach calls, the
top handle and the world. -/
def create_and_attach (E : Env) (master_dev : Dev) (ds : List Dev) :
    Option (List ErrPtr × top_thandle × World) :=
  match top_trans_create E master_dev World.init with
  | (Except.ok top_th, w) => attach_all E ds top_th w
  | (Except.error _, _) => none

/-- The world that goes with `demo_top`: the one `create_and_attach` leaves for
master device 3 and devices 1 and 2, with six events logged. -/
def demo_world : World :=
  match create_and_attach (Env.ok (fun _ => 0) (fun _ => 0)) 3 [1, 2] with
  | some (_, _, w) => w
  | none => World.init

/-- The top handle `top_trans_create` returns for master device 3 in the empty
world. -/
def demo_top0 : top_thandle :=
  { tt_self := 1,
    tt_super := { thandle_zero with th_top := 1 },
    tt_magic := TOP_THANDLE_MAGIC,
    tt_master_sub_thandle := 2,
    tt_sub_thandle_list := [] }

/-- The world `top_trans_create` leaves for master device 3 from the empty
world. -/
def demo_world0 : World :=
  (top_trans_create (Env.ok (fun _ => 0) (fun _ => 0)) 3 World.init).2

/-- The top handle after `demo_top0` has had device 1 attached. -/
def demo_top1 : top_thandle :=
  { demo_top0 with
    tt_super := { thandle_zero with th_top := 1, th_sync := true },
    tt_sub_thandle_list := [{ st_self := 4, st_sub_th := 3 }] }

/-- The world that goes with `demo_top1`. -/
def demo_world1 : World :=
  match create_and_attach (Env.ok (fun _ => 0) (fun _ => 0)) 3 [1] with
  | some (_, _, w) => w
  | none => World.init

/-- A backend that always succeeds, with an allocator that fails exactly at
interaction number `k`. -/
def Env.alloc_fail (k : Nat) : Env :=
  { alloc_ok := fun n => n != k,
    trans_create := fun _ d => Except.ok { thandle_zero with th_dev := d },
    trans_start := fun _ => 0,
    trans_stop := fun _ => 0 }

/-- The part of `top_trans_stop` before the loop: the two stores on the master
handle and the `dt_trans_stop` call on it. -/
def top_trans_stop_master (E : Env) (master_dev : Dev) (top_th : top_thandle) (w : World) :
    Int × World :=
  dt_trans_stop E master_dev top_th.tt_master_sub_thandle
    ((w.store top_th.tt_master_sub_thandle
      (fun h => { h with th_local := top_th.tt_super.th_local })).store
        top_th.tt_master_sub_thandle
      (fun h => { h with th_sync := top_th.tt_super.th_sync }))

/-- The `dt_trans_stop` calls of a log, in order: the handle and the value of
its `th_result` at the moment of the call. -/
def stop_results : List Event → List (Nat × Int)
  | [] => []
  | Event.trans_stop _ p h _ :: es => (p, h.th_result) :: stop_results es
  | _ :: es => stop_results es

/-- A backend whose `dt_trans_create` fails with `e` exactly at interaction
number `k`, everything else succeeding. -/
def Env.create_fail (k : Nat) (e : Int) : Env :=
  { alloc_ok := fun _ => true,
    trans_create := fun n d =>
      if n = k then Except.error e else Except.ok { thandle_zero with th_dev := d },
    trans_start := fun _ => 0,
    trans_stop := fun _ => 0 }

/-- The event is a `dt_trans_start` call on a handle whose `th_sync` and
`th_local` are `sync` and `loc` at the moment of the call. -/
def Event.start_with (sync loc : Bool) : Event → Prop
  | Event.trans_start _ _ h _ => h.th_sync = sync ∧ h.th_local = loc
  | _ => False

/-- One call of a caller between create and stop: an attach of a device, or a
start with the given master device. -/
inductive Op where
  | attach (d : Dev)
  | start (master_dev : Dev)
deriving DecidableEq, Repr

/-- A caller making the calls of the list in order, whatever they return; the
top handle and the world after the last one.  `top_trans_start` does not write
the top handle. -/
def run_ops (E : Env) : List Op → top_thandle → World → Option (top_thandle × World)
  | [], top_th, w => some (top_th, w)
  | Op.attach d :: ops, top_th, w =>
    match thandle_get_sub_by_dt E top_th d w with
    | none => none
    | some (_, top1, w1) => run_ops E ops top1 w1
  | Op.start master_dev :: ops, top_th, w =>
    match top_trans_start E master_dev top_th w with
    | none => none
    | some (_, w1) => run_ops E ops top_th w1

/-- The events of `top_thandle_destroy`: one `OBD_FREE_PTR` per registry
wrapper, in list order, then one for the top handle. -/
def destroy_events (top_th : top_thandle) : List Event :=
  top_th.tt_sub_thandle_list.map (fun st => Event.obd_free st.st_self)
    ++ [Event.obd_free top_th.tt_self]

/-- The addresses released by the events of a log, in order. -/
def freed : List Event → List Nat
  | [] => []
  | Event.obd_free p :: es => p :: freed es
  | _ :: es => freed es

/-- The registry invariant of a transaction whose master device is
`master_dev`: the state is well formed, the master handle is bound to
`master_dev`, no two registry entries have the same device, and no registry
entry has the master's device or wraps the master handle. -/
structure Reg (top_th : top_thandle) (w : World) (master_dev : Dev) : Prop where
  wf : Wf top_th w
  master_dev_eq : (w.mem top_th.tt_master_sub_thandle).th_dev = master_dev
  devs_nodup : (top_th.sub_devs w).Nodup
  master_dev_not_mem : master_dev ∉ top_th.sub_devs w
  master_not_mem : top_th.tt_master_sub_thandle ∉ top_th.sub_ptrs

/-- The allocation invariant of a transaction: the top handle and the registry
wrappers were allocated below the frontier, at addresses all different. -/
structure WfAlloc (top_th : top_thandle) (w : World) : Prop where
  self_le : top_th.tt_self ≤ w.brk
  wrappers_le : ∀ st ∈ top_th.tt_sub_thandle_list, st.st_self ≤ w.brk
  nodup : (freed (destroy_events top_th)).Nodup

/-- The handle at `p` is allocated and is neither the master handle nor the
handle of a registry entry. -/
structure Outside (p : Nat) (top_th : top_thandle) (w : World) : Prop where
  le : p ≤ w.brk
  ne_master : p ≠ top_th.tt_master_sub_thandle
  not_mem : p ∉ top_th.sub_ptrs

/-- The return codes of the `dt_trans_start` calls of a log, in order. -/
def start_codes : List Event → List Int
  | [] => []
  | Event.trans_start _ _ _ rc :: es => rc :: start_codes es
  | _ :: es => start_codes es

/-- The event is a `dt_trans_stop` call on a handle whose `th_sync` and
`th_local` are `sync` and `loc` at the moment of the call. -/
def Event.stop_with (sync loc : Bool) : Event → Prop
  | Event.trans_stop _ _ h _ => h.th_sync = sync ∧ h.th_local = loc
  | _ => False

/-- The world after `top_trans_start` on `demo_top0` in `demo_world0`, every
start returning 0. -/
def demo_world0_started : World :=
  match top_trans_start (Env.ok (fun _ => 0) (fun _ => 0)) 3 demo_top0 demo_world0 with
  | some r => r.2
  | none => World.init

/-- The world after device 1 has been attached to `demo_top0` in
`demo_world0_started`; the top handle is then `demo_top1`. -/
def demo_world1_late : World :=
  match thandle_get_sub_by_dt (Env.ok (fun _ => 0) (fun _ => 0)) demo_top0 1
      demo_world0_started with
  | some r => r.2.2
  | none => World.init

/-- A backend and allocator that never fail, the backend binding every handle
it creates to device `k`, whatever device it is asked for. -/
def Env.fixed_dev (k : Dev) : Env :=
  { alloc_ok := fun _ => true,
    trans_create := fun _ _ => Except.ok { thandle_zero with th_dev := k },
    trans_start := fun _ => 0,
    trans_stop := fun _ => 0 }

/-- The `dt_trans_start` calls of a log, in order: device argument, handle, and
the `th_sync` and `th_local` fields of the handle at the moment of the call. -/
def start_flags : List Event → List (Dev × Nat × Bool × Bool)
  | [] => []
  | Event.trans_start d p h _ :: es => (d, p, h.th_sync, h.th_local) :: start_flags es
  | _ :: es => start_flags es

/-- The participants of a transaction in the order `top_trans_start` visits
them: the registry entries from the head of the list, then the master. -/
def top_thandle.participants (top_th : top_thandle) (master_dev : Dev) (w : World) :
    List (Dev × Nat) :=
  top_th.tt_sub_thandle_list.map (fun lst => ((w.mem lst.st_sub_th).th_dev, lst.st_sub_th))
    ++ [(master_dev, top_th.tt_master_sub_thandle)]

/-! ## Lemmas -/

@[simp] theorem store_trace (w : World) (p : Nat) (f : thandle → thandle) :
    (w.store p f).trace = w.trace := rfl

@[simp] theorem store_brk (w : World) (p : Nat) (f : thandle → thandle) :
    (w.store p f).brk = w.brk := rfl

@[simp] theorem log_trace (w : World) (e : Event) : (w.log e).trace = w.trace ++ [e] := rfl

@[simp] theorem log_mem (w : World) (e : Event) : (w.log e).mem = w.mem := rfl

@[simp] theorem log_brk (w : World) (e : Event) : (w.log e).brk = w.brk := rfl

@[simp] theorem obd_free_trace (p : Nat) (w : World) :
    (obd_free p w).trace = w.trace ++ [Event.obd_free p] := rfl

@[simp] theorem obd_free_mem (p : Nat) (w : World) : (obd_free p w).mem = w.mem := rfl

@[simp] theorem obd_free_brk (p : Nat) (w : World) : (obd_free p w).brk = w.brk := rfl

theorem since_append (w w0 : World) (evs : List Event) (h : w.trace = w0.trace ++ evs) :
    w.since w0 = evs := by
  simp [World.since, h]

theorem stop_calls_append (a b : List Event) :
    stop_calls (a ++ b) = stop_calls a ++ stop_calls b := by
  induction a with
  | nil => rfl
  | cons e es ih => cases e <;> simp [stop_calls, ih]

theorem start_calls_append (a b : List Event) :
    start_calls (a ++ b) = start_calls a ++ start_calls b := by
  induction a with
  | nil => rfl
  | cons e es ih => cases e <;> simp [start_calls, ih]

/-- A store that keeps `th_dev` keeps the device of every handle. -/
theorem store_dev (w : World) (p q : Nat) (f : thandle → thandle)
    (hf : ∀ h, (f h).th_dev = h.th_dev) : ((w.store p f).mem q).th_dev = (w.mem q).th_dev := by
  unfold World.store
  by_cases hq : q = p <;> simp [hq, hf]

/-- One pass of the stop loop: the code kept, the single event logged, and the
parts of the world it leaves alone. -/
theorem stop_sub_spec (E : Env) (th : thandle) (lst : sub_thandle) (rc : Int) (w : World) :
    (top_trans_stop_sub E th lst rc w).1
        = (if E.trans_stop w.trace.length < 0 ∧ rc = 0 then E.trans_stop w.trace.length else rc)
      ∧ (∃ h, (top_trans_stop_sub E th lst rc w).2.trace
          = w.trace ++ [Event.trans_stop (w.mem lst.st_sub_th).th_dev lst.st_sub_th h
              (E.trans_stop w.trace.length)])
      ∧ (top_trans_stop_sub E th lst rc w).2.brk = w.brk
      ∧ ∀ q, ((top_trans_stop_sub E th lst rc w).2.mem q).th_dev = (w.mem q).th_dev := by
  by_cases hrc : rc = 0
  · simp [top_trans_stop_sub, dt_trans_stop, hrc, store_dev]
  · simp [top_trans_stop_sub, dt_trans_stop, hrc, store_dev]

/-- The stop loop returns the aggregate of the entry value and the scripted codes. -/
theorem stop_subs_rc (E : Env) (th : thandle) :
    ∀ (l : List sub_thandle) (rc : Int) (w : World),
      (top_trans_stop_subs E th l rc w).1
        = keep_first rc (E.stop_codes w.trace.length l.length) := by
  intro l
  induction l with
  | nil => intro rc w; rfl
  | cons lst rest ih =>
    intro rc w
    obtain ⟨h1, ⟨h, h2⟩, -, -⟩ := stop_sub_spec E th lst rc w
    simp only [top_trans_stop_subs, List.length_cons, Env.stop_codes, keep_first]
    rw [ih, h1, h2]
    simp

/-- The stop loop logs one `dt_trans_stop` per entry, in list order, and nothing else. -/
theorem stop_subs_trace (E : Env) (th : thandle) :
    ∀ (l : List sub_thandle) (rc : Int) (w : World),
      (∃ evs, (top_trans_stop_subs E th l rc w).2.trace = w.trace ++ evs
        ∧ evs.length = l.length
        ∧ stop_calls evs = l.map (fun lst => ((w.mem lst.st_sub_th).th_dev, lst.st_sub_th)))
      ∧ (top_trans_stop_subs E th l rc w).2.brk = w.brk
      ∧ ∀ q, ((top_trans_stop_subs E th l rc w).2.mem q).th_dev = (w.mem q).th_dev := by
  intro l
  induction l with
  | nil =>
    intro rc w
    exact ⟨⟨[], by simp [top_trans_stop_subs], rfl, rfl⟩, rfl, fun _ => rfl⟩
  | cons lst rest ih =>
    intro rc w
    obtain ⟨-, ⟨h, h2⟩, h3, h4⟩ := stop_sub_spec E th lst rc w
    obtain ⟨⟨evs, i1, i2, i3⟩, i4, i5⟩ :=
      ih (top_trans_stop_sub E th lst rc w).1 (top_trans_stop_sub E th lst rc w).2
    simp only [top_trans_stop_subs]
    refine ⟨⟨Event.trans_stop (w.mem lst.st_sub_th).th_dev lst.st_sub_th h
        (E.trans_stop w.trace.length) :: evs, ?_, ?_, ?_⟩, ?_, ?_⟩
    · rw [i1, h2]; simp
    · simp [i2]
    · simp [stop_calls, i3, h4]
    · rw [i4, h3]
    · intro q; rw [i5, h4]

theorem stop_calls_free (l : List sub_thandle) :
    stop_calls (l.map (fun st => Event.obd_free st.st_self)) = [] := by
  induction l with
  | nil => rfl
  | cons st rest ih => simpa [stop_calls] using ih

/-- The release loop of `top_thandle_destroy` logs one `OBD_FREE_PTR` per
wrapper, in list order. -/
theorem destroy_loop_spec :
    ∀ (l : List sub_thandle) (w : World),
      (l.foldl (fun w1 st => obd_free st.st_self w1) w).trace
          = w.trace ++ l.map (fun st => Event.obd_free st.st_self)
        ∧ (l.foldl (fun w1 st => obd_free st.st_self w1) w).mem = w.mem
        ∧ (l.foldl (fun w1 st => obd_free st.st_self w1) w).brk = w.brk := by
  intro l
  induction l with
  | nil => intro w; simp
  | cons st rest ih =>
    intro w
    obtain ⟨h1, h2, h3⟩ := ih (obd_free st.st_self w)
    simp only [List.foldl_cons, h1, h2, h3]
    simp

theorem stop_subs_trace_since (E : Env) (th : thandle) (l : List sub_thandle) (rc : Int)
    (w : World) :
    (top_trans_stop_subs E th l rc w).2.trace
      = w.trace ++ (top_trans_stop_subs E th l rc w).2.since w := by
  obtain ⟨⟨evs, h1, -, -⟩, -, -⟩ := stop_subs_trace E th l rc w
  rw [since_append _ _ _ h1, h1]

theorem stop_subs_calls (E : Env) (th : thandle) (l : List sub_thandle) (rc : Int)
    (w : World) :
    stop_calls ((top_trans_stop_subs E th l rc w).2.since w)
      = l.map (fun lst => ((w.mem lst.st_sub_th).th_dev, lst.st_sub_th)) := by
  obtain ⟨⟨evs, h1, -, h3⟩, -, -⟩ := stop_subs_trace E th l rc w
  rw [since_append _ _ _ h1, h3]

/-- What `top_trans_stop` returns and which `dt_trans_stop` calls it logs. -/
theorem top_trans_stop_spec (E : Env) (master_dev : Dev) (top_th : top_thandle) (w : World)
    (hmagic : top_th.tt_magic = TOP_THANDLE_MAGIC) :
    ∃ w', top_trans_stop E master_dev top_th w
        = some (keep_first (E.trans_stop w.trace.length)
            (E.stop_codes (w.trace.length + 1) top_th.tt_sub_thandle_list.length), w')
      ∧ stop_calls (w'.since w)
        = (master_dev, top_th.tt_master_sub_thandle)
            :: top_th.tt_sub_thandle_list.map
                (fun lst => ((w.mem lst.st_sub_th).th_dev, lst.st_sub_th)) := by
  simp only [top_trans_stop, top_thandle_destroy, hmagic, ne_eq, not_true_eq_false, if_false]
  refine ⟨_, congrArg some (Prod.ext ?_ rfl), ?_⟩
  · simp [stop_subs_rc, dt_trans_stop]
  · unfold World.since
    simp only [obd_free_trace, (destroy_loop_spec _ _).1,
      stop_subs_trace_since E, dt_trans_stop, log_trace, store_trace, List.append_assoc,
      List.drop_left', stop_calls_append, stop_subs_calls, stop_calls_free]
    simp [stop_calls, store_dev]

/-- One pass of the start loop: the code returned, the single event logged, and
the parts of the world it leaves alone. -/
theorem start_sub_spec (E : Env) (th : thandle) (lst : sub_thandle) (w : World) :
    (top_trans_start_sub E th lst w).1 = E.trans_start w.trace.length
      ∧ (∃ h, (top_trans_start_sub E th lst w).2.trace
          = w.trace ++ [Event.trans_start (w.mem lst.st_sub_th).th_dev lst.st_sub_th h
              (E.trans_start w.trace.length)])
      ∧ (top_trans_start_sub E th lst w).2.brk = w.brk
      ∧ ∀ q, ((top_trans_start_sub E th lst w).2.mem q).th_dev = (w.mem q).th_dev := by
  simp [top_trans_start_sub, dt_trans_start, store_dev]

/-- The start loop when the first `k` starts return 0 and start number `k`
(counted from 0) does not: it returns that code after `k + 1` calls. -/
theorem start_subs_fail (E : Env) (th : thandle) :
    ∀ (l : List sub_thandle) (w : World) (k : Nat), k < l.length →
      (∀ i, i < k → E.trans_start (w.trace.length + i) = 0) →
      E.trans_start (w.trace.length + k) ≠ 0 →
      (top_trans_start_subs E th l w).1 = some (E.trans_start (w.trace.length + k))
        ∧ ∃ evs, (top_trans_start_subs E th l w).2.trace = w.trace ++ evs
          ∧ evs.length = k + 1
          ∧ start_calls evs
            = (l.take (k + 1)).map (fun lst => ((w.mem lst.st_sub_th).th_dev, lst.st_sub_th)) := by
  intro l
  induction l with
  | nil => intro w k hk; simp at hk
  | cons lst rest ih =>
    intro w k hk h0 hne
    obtain ⟨h1, ⟨h, h2⟩, -, h4⟩ := start_sub_spec E th lst w
    simp only [top_trans_start_subs]
    cases k with
    | zero =>
      simp only [Nat.add_zero] at hne
      rw [h1, if_pos hne]
      exact ⟨by simp [h1], _, h2, rfl, by simp [start_calls]⟩
    | succ j =>
      have hz : E.trans_start w.trace.length = 0 := by simpa using h0 0 (Nat.succ_pos j)
      rw [h1, hz]
      simp only [ne_eq, not_true_eq_false, if_false]
      have hlen : (top_trans_start_sub E th lst w).2.trace.length = w.trace.length + 1 := by
        rw [h2]; simp
      obtain ⟨i1, evs, i2, i3, i4⟩ := ih (top_trans_start_sub E th lst w).2 j
        (by simpa using hk)
        (fun i hi => by rw [hlen, Nat.add_assoc, Nat.add_comm 1 i]; exact h0 (i + 1) (by omega))
        (by rw [hlen, Nat.add_assoc, Nat.add_comm 1 j]; exact hne)
      refine ⟨by rw [i1, hlen, Nat.add_assoc, Nat.add_comm 1 j], Event.trans_start
        (w.mem lst.st_sub_th).th_dev lst.st_sub_th h 0 :: evs, ?_, ?_, ?_⟩
      · rw [i2, h2, hz]; simp
      · simp [i3]
      · simp [start_calls, i4, h4]

/-- The start loop when every start returns 0: it runs to its end after one
call per entry. -/
theorem start_subs_ok (E : Env) (th : thandle) :
    ∀ (l : List sub_thandle) (w : World),
      (∀ i, i < l.length → E.trans_start (w.trace.length + i) = 0) →
      (top_trans_start_subs E th l w).1 = none
        ∧ (∃ evs, (top_trans_start_subs E th l w).2.trace = w.trace ++ evs
          ∧ evs.length = l.length
          ∧ start_calls evs
            = l.map (fun lst => ((w.mem lst.st_sub_th).th_dev, lst.st_sub_th)))
        ∧ ∀ q, ((top_trans_start_subs E th l w).2.mem q).th_dev = (w.mem q).th_dev := by
  intro l
  induction l with
  | nil =>
    intro w _
    exact ⟨rfl, ⟨[], by simp [top_trans_start_subs], rfl, rfl⟩, fun _ => rfl⟩
  | cons lst rest ih =>
    intro w h0
    obtain ⟨h1, ⟨h, h2⟩, -, h4⟩ := start_sub_spec E th lst w
    have hz : E.trans_start w.trace.length = 0 := by simpa using h0 0 (by simp)
    have hlen : (top_trans_start_sub E th lst w).2.trace.length = w.trace.length + 1 := by
      rw [h2]; simp
    obtain ⟨i1, ⟨evs, i2, i3, i4⟩, i5⟩ := ih (top_trans_start_sub E th lst w).2
      (fun i hi => by
        rw [hlen, Nat.add_assoc, Nat.add_comm 1 i]; exact h0 (i + 1) (by simpa using hi))
    simp only [top_trans_start_subs]
    rw [h1, hz]
    simp only [ne_eq, not_true_eq_false, if_false]
    refine ⟨i1, ⟨Event.trans_start (w.mem lst.st_sub_th).th_dev lst.st_sub_th h 0 :: evs,
      ?_, ?_, ?_⟩, ?_⟩
    · rw [i2, h2, hz]; simp
    · simp [i3]
    · simp [start_calls, i4, h4]
    · intro q; rw [i5, h4]

theorem attach_master (E : Env) (top_th : top_thandle) (d : Dev) (w : World)
    (hmagic : top_th.tt_magic = TOP_THANDLE_MAGIC) (hm : top_th.tt_master_sub_thandle ≠ 0)
    (hd : d = (w.mem top_th.tt_master_sub_thandle).th_dev) :
    thandle_get_sub_by_dt E top_th d w
      = some (ErrPtr.ptr top_th.tt_master_sub_thandle, top_th, w) := by
  simp [thandle_get_sub_by_dt, hmagic, hm, hd]

theorem attach_found (E : Env) (top_th : top_thandle) (d : Dev) (w : World) (lst : sub_thandle)
    (hmagic : top_th.tt_magic = TOP_THANDLE_MAGIC) (hm : top_th.tt_master_sub_thandle ≠ 0)
    (hd : d ≠ (w.mem top_th.tt_master_sub_thandle).th_dev)
    (hf : top_th.tt_sub_thandle_list.find? (fun lst => (w.mem lst.st_sub_th).th_dev = d)
      = some lst) :
    thandle_get_sub_by_dt E top_th d w = some (ErrPtr.ptr lst.st_sub_th, top_th, w) := by
  simp [thandle_get_sub_by_dt, hmagic, hm, hd, hf]

theorem attach_create_err (E : Env) (top_th : top_thandle) (d : Dev) (w : World) (e : Int)
    (hmagic : top_th.tt_magic = TOP_THANDLE_MAGIC) (hm : top_th.tt_master_sub_thandle ≠ 0)
    (hd : d ≠ (w.mem top_th.tt_master_sub_thandle).th_dev)
    (hf : top_th.tt_sub_thandle_list.find? (fun lst => (w.mem lst.st_sub_th).th_dev = d) = none)
    (hc : E.trans_create w.trace.length d = Except.error e) :
    thandle_get_sub_by_dt E top_th d w
      = some (ErrPtr.err e, top_th, w.log (Event.trans_create d (ErrPtr.err e))) := by
  simp [thandle_get_sub_by_dt, hmagic, hm, hd, hf, dt_trans_create, hc]

theorem attach_new (E : Env) (top_th : top_thandle) (d : Dev) (w : World) (h : thandle)
    (hmagic : top_th.tt_magic = TOP_THANDLE_MAGIC) (hm : top_th.tt_master_sub_thandle ≠ 0)
    (hd : d ≠ (w.mem top_th.tt_master_sub_thandle).th_dev)
    (hf : top_th.tt_sub_thandle_list.find? (fun lst => (w.mem lst.st_sub_th).th_dev = d) = none)
    (hc : E.trans_create w.trace.length d = Except.ok h)
    (ha : E.alloc_ok (w.trace.length + 1) = true) :
    thandle_get_sub_by_dt E top_th d w
      = some (ErrPtr.ptr (w.brk + 1), top_th.attached (w.brk + 2) (w.brk + 1),
          { mem := fun q => if q = w.brk + 1 then { h with th_top := top_th.tt_self } else w.mem q,
            brk := w.brk + 2,
            trace := w.trace ++ [Event.trans_create d (ErrPtr.ptr (w.brk + 1)),
              Event.obd_alloc (w.brk + 2)] }) := by
  simp [thandle_get_sub_by_dt, hmagic, hm, hd, hf, dt_trans_create, hc, obd_alloc, ha,
    World.store, top_thandle.attached]
  funext q
  by_cases hq : q = w.brk + 1 <;> simp [hq]

theorem attach_alloc_fail (E : Env) (top_th : top_thandle) (d : Dev) (w : World) (h : thandle)
    (hmagic : top_th.tt_magic = TOP_THANDLE_MAGIC) (hm : top_th.tt_master_sub_thandle ≠ 0)
    (hd : d ≠ (w.mem top_th.tt_master_sub_thandle).th_dev)
    (hf : top_th.tt_sub_thandle_list.find? (fun lst => (w.mem lst.st_sub_th).th_dev = d) = none)
    (hc : E.trans_create w.trace.length d = Except.ok h)
    (ha : E.alloc_ok (w.trace.length + 1) = false) :
    thandle_get_sub_by_dt E top_th d w
      = some (ErrPtr.err (-ENOMEM),
          { top_th with tt_super := { top_th.tt_super with th_sync := true } },
          { mem := fun q => if q = w.brk + 1 then { h with th_top := top_th.tt_self } else w.mem q,
            brk := w.brk + 1,
            trace := w.trace ++ [Event.trans_create d (ErrPtr.ptr (w.brk + 1)),
              Event.obd_alloc 0,
              Event.trans_stop d (w.brk + 1) { h with th_top := top_th.tt_self }
                (E.trans_stop (w.trace.length + 2))] }) := by
  simp [thandle_get_sub_by_dt, hmagic, hm, hd, hf, dt_trans_create, hc, obd_alloc, ha,
    World.store, dt_trans_stop, World.log]
  funext q
  by_cases hq : q = w.brk + 1 <;> simp [hq]

theorem find_none_of_not_mem (top_th : top_thandle) (w : World) (d : Dev)
    (h : d ∉ top_th.sub_devs w) :
    top_th.tt_sub_thandle_list.find? (fun lst => (w.mem lst.st_sub_th).th_dev = d) = none := by
  rw [List.find?_eq_none]
  intro lst hl hp
  apply h
  simp only [top_thandle.sub_devs, List.mem_map]
  exact ⟨lst, hl, by simpa using hp⟩

/-- One attach call for a device that is neither the master's nor in the
registry, from a well-formed state. -/
theorem attach_step (E : Env) (top_th : top_thandle) (d : Dev) (w : World)
    (hdev : ∀ n d h, E.trans_create n d = Except.ok h → h.th_dev = d)
    (hwf : Wf top_th w)
    (hd : d ≠ (w.mem top_th.tt_master_sub_thandle).th_dev)
    (hnew : d ∉ top_th.sub_devs w) :
    ∃ r top1 w1, thandle_get_sub_by_dt E top_th d w = some (r, top1, w1)
      ∧ Wf top1 w1
      ∧ top1.tt_master_sub_thandle = top_th.tt_master_sub_thandle
      ∧ (w1.mem top1.tt_master_sub_thandle).th_dev = (w.mem top_th.tt_master_sub_thandle).th_dev
      ∧ top1.sub_devs w1 = attached [d] [r] ++ top_th.sub_devs w
      ∧ top1.sub_ptrs = returned [r] ++ top_th.sub_ptrs := by
  have hf := find_none_of_not_mem top_th w d hnew
  cases hc : E.trans_create w.trace.length d with
  | error e =>
    refine ⟨_, _, _, attach_create_err E top_th d w e hwf.magic hwf.master_ne hd hf hc,
      ⟨hwf.magic, hwf.master_ne, hwf.master_le, hwf.subs_le⟩, rfl, rfl, rfl, rfl⟩
  | ok h =>
    have hne : top_th.tt_master_sub_thandle ≠ w.brk + 1 := by
      have := hwf.master_le; omega
    have hsubs : ∀ lst ∈ top_th.tt_sub_thandle_list, lst.st_sub_th ≠ w.brk + 1 := by
      intro lst hl; have := hwf.subs_le lst hl; omega
    have hdevs : ∀ (x : thandle), ∀ lst ∈ top_th.tt_sub_thandle_list,
        ((if lst.st_sub_th = w.brk + 1 then x else w.mem lst.st_sub_th) : thandle).th_dev
          = (w.mem lst.st_sub_th).th_dev := by
      intro x lst hl
      simp [hsubs lst hl]
    cases ha : E.alloc_ok (w.trace.length + 1) with
    | true =>
      refine ⟨_, _, _, attach_new E top_th d w h hwf.magic hwf.master_ne hd hf hc ha,
        ⟨hwf.magic, hwf.master_ne, ?_, ?_⟩, rfl, ?_, ?_, rfl⟩
      · have := hwf.master_le
        show top_th.tt_master_sub_thandle ≤ w.brk + 2
        omega
      · intro lst hl
        show lst.st_sub_th ≤ w.brk + 2
        simp only [top_thandle.attached, List.mem_cons] at hl
        rcases hl with rfl | hl
        · simp
        · have := hwf.subs_le lst hl; omega
      · simp [top_thandle.attached, hne]
      · simp [top_thandle.sub_devs, top_thandle.attached, attached, hdev _ _ _ hc]
        exact hdevs _
    | false =>
      refine ⟨_, _, _, attach_alloc_fail E top_th d w h hwf.magic hwf.master_ne hd hf hc ha,
        ⟨hwf.magic, hwf.master_ne, ?_, ?_⟩, rfl, ?_, ?_, rfl⟩
      · have := hwf.master_le
        show top_th.tt_master_sub_thandle ≤ w.brk + 1
        omega
      · intro lst hl
        show lst.st_sub_th ≤ w.brk + 1
        have := hwf.subs_le lst hl; omega
      · simp [hne]
      · simp [top_thandle.sub_devs, attached]
        exact hdevs _

/-- What a successful `top_trans_create` returns: a well-formed top handle with an
empty registry and a clear sync flag, whose master handle is the one the backend
created for `master_dev`. -/
theorem create_spec (E : Env) (master_dev : Dev) (w0 : World) (top_th : top_thandle)
    (w1 : World) (hc : top_trans_create E master_dev w0 = (Except.ok top_th, w1)) :
    Wf top_th w1 ∧ top_th.tt_sub_thandle_list = [] ∧ top_th.tt_super.th_sync = false
      ∧ ∃ h, E.trans_create (w0.trace.length + 1) master_dev = Except.ok h
        ∧ (w1.mem top_th.tt_master_sub_thandle).th_dev = h.th_dev := by
  unfold top_trans_create obd_alloc at hc
  cases ha : E.alloc_ok w0.trace.length with
  | false => simp [ha] at hc
  | true =>
    simp only [ha, if_true, Nat.add_one_ne_zero, if_false, dt_trans_create,
      List.length_append, List.length_singleton] at hc
    cases hcr : E.trans_create (w0.trace.length + 1) master_dev with
    | error e => simp [hcr] at hc
    | ok h =>
      simp only [hcr, Prod.mk.injEq, Except.ok.injEq] at hc
      obtain ⟨rfl, rfl⟩ := hc
      exact ⟨⟨rfl, by simp, by simp, by simp⟩, rfl, rfl, h, rfl, by simp [World.store]⟩

theorem attached_subset : ∀ (ds : List Dev) (rs : List ErrPtr) (d : Dev),
    d ∈ attached ds rs → d ∈ ds := by
  intro ds
  induction ds with
  | nil => intro rs d h; cases rs <;> simp [attached] at h
  | cons x xs ih =>
    intro rs d h
    cases rs with
    | nil => simp [attached] at h
    | cons r rs =>
      cases r with
      | ptr p =>
        simp only [attached, List.mem_cons] at h
        rcases h with rfl | h
        · simp
        · exact List.mem_cons_of_mem _ (ih rs d h)
      | err e =>
        simp only [attached] at h
        exact List.mem_cons_of_mem _ (ih rs d h)

/-- A sequence of attach calls for distinct devices, none of them the master's
or in the registry, from a well-formed state: every call returns, and the
registry gains, at its head, one entry per call that returned a handle. -/
theorem attach_all_spec (E : Env)
    (hdev : ∀ n d h, E.trans_create n d = Except.ok h → h.th_dev = d) :
    ∀ (ds : List Dev) (top_th : top_thandle) (w : World), Wf top_th w → ds.Nodup →
      (w.mem top_th.tt_master_sub_thandle).th_dev ∉ ds →
      (∀ d ∈ ds, d ∉ top_th.sub_devs w) →
      ∃ rs top2 w2, attach_all E ds top_th w = some (rs, top2, w2)
        ∧ rs.length = ds.length
        ∧ Wf top2 w2
        ∧ top2.tt_master_sub_thandle = top_th.tt_master_sub_thandle
        ∧ (w2.mem top2.tt_master_sub_thandle).th_dev
            = (w.mem top_th.tt_master_sub_thandle).th_dev
        ∧ top2.sub_devs w2 = (attached ds rs).reverse ++ top_th.sub_devs w
        ∧ top2.sub_ptrs = (returned rs).reverse ++ top_th.sub_ptrs := by
  intro ds
  induction ds with
  | nil =>
    intro top_th w hwf _ _ _
    exact ⟨[], top_th, w, rfl, rfl, hwf, rfl, rfl, by simp [attached], by simp [returned]⟩
  | cons d ds ih =>
    intro top_th w hwf hnd hm hnew
    obtain ⟨r, top1, w1, h1, hwf1, hm1, hmd1, hd1, hp1⟩ :=
      attach_step E top_th d w hdev hwf
        (fun h => hm (by rw [← h]; simp)) (hnew d (by simp))
    have hnd' := List.nodup_cons.mp hnd
    obtain ⟨rs, top2, w2, h2, hl2, hwf2, hm2, hmd2, hd2, hp2⟩ := ih top1 w1 hwf1 hnd'.2
      (by rw [hmd1]; exact fun h => hm (List.mem_cons_of_mem _ h))
      (by
        intro x hx hin
        rw [hd1, List.mem_append] at hin
        rcases hin with hin | hin
        · have := attached_subset [d] [r] x hin
          simp only [List.mem_singleton] at this
          exact hnd'.1 (this ▸ hx)
        · exact hnew x (List.mem_cons_of_mem _ hx) hin)
    refine ⟨r :: rs, top2, w2, by simp [attach_all, h1, h2], by simp [hl2], hwf2,
      hm2.trans hm1, hmd2.trans hmd1, ?_, ?_⟩
    · rw [hd2, hd1]
      cases r <;> simp [attached]
    · rw [hp2, hp1]
      cases r <;> simp [returned]

theorem keep_first_eq : ∀ (cs : List Int) (rc : Int),
    keep_first rc cs = if rc ≠ 0 then rc else (cs.find? (fun c => c < 0)).getD 0 := by
  intro cs
  induction cs with
  | nil => intro rc; by_cases h : rc = 0 <;> simp [keep_first, h]
  | cons c cs ih =>
    intro rc
    rw [keep_first, ih]
    by_cases h : rc = 0
    · by_cases hc : c < 0
      · have : c ≠ 0 := by omega
        simp [h, hc, this]
      · simp [h, hc]
    · simp [h]

theorem keep_first_first_error (m : Int) (subs : List Int) :
    keep_first m subs = first_error (m :: subs) := by
  rw [keep_first_eq]; rfl

theorem stop_codes_find (E : Env) : ∀ (len k n : Nat), k < len →
    (∀ i, i < k → ¬ E.trans_stop (n + i) < 0) → E.trans_stop (n + k) < 0 →
    (E.stop_codes n len).find? (fun c => c < 0) = some (E.trans_stop (n + k)) := by
  intro len
  induction len with
  | zero => intro k n hk; omega
  | succ len ih =>
    intro k n hk h0 hneg
    cases k with
    | zero =>
      have hneg' : E.trans_stop n < 0 := by simpa using hneg
      simp [Env.stop_codes, hneg']
    | succ j =>
      have hz : ¬ E.trans_stop n < 0 := by simpa using h0 0 (Nat.succ_pos j)
      simp only [Env.stop_codes, List.find?_cons, hz, decide_False]
      rw [ih j (n + 1) (by omega)
        (fun i hi => by rw [Nat.add_assoc, Nat.add_comm 1 i]; exact h0 (i + 1) (by omega))
        (by rw [Nat.add_assoc, Nat.add_comm 1 j]; exact hneg)]
      rw [Nat.add_assoc, Nat.add_comm 1 j]

/-- What `top_trans_start` does when every registry start returns 0: one call
per entry, then the master's, whose code it returns. -/
theorem top_trans_start_ok_spec (E : Env) (master_dev : Dev) (top_th : top_thandle) (w : World)
    (hmagic : top_th.tt_magic = TOP_THANDLE_MAGIC)
    (hok : ∀ i, i < top_th.tt_sub_thandle_list.length →
      E.trans_start (w.trace.length + i) = 0) :
    ∃ w', top_trans_start E master_dev top_th w
        = some (E.trans_start (w.trace.length + top_th.tt_sub_thandle_list.length), w')
      ∧ (w'.since w).length = top_th.tt_sub_thandle_list.length + 1
      ∧ start_calls (w'.since w)
        = top_th.tt_sub_thandle_list.map
            (fun lst => ((w.mem lst.st_sub_th).th_dev, lst.st_sub_th))
          ++ [(master_dev, top_th.tt_master_sub_thandle)]
      ∧ ∀ q, (w'.mem q).th_dev = (w.mem q).th_dev := by
  obtain ⟨h1, ⟨evs, h2, h3, h4⟩, h5⟩ :=
    start_subs_ok E top_th.tt_super top_th.tt_sub_thandle_list w hok
  rcases hr : top_trans_start_subs E top_th.tt_super top_th.tt_sub_thandle_list w with ⟨o, w1⟩
  rw [hr] at h1 h2 h5
  simp only at h1 h2 h5
  subst h1
  simp only [top_trans_start, hmagic, ne_eq, not_true_eq_false, if_false, hr, dt_trans_start,
    store_trace, h2, List.length_append, h3]
  refine ⟨_, rfl, ?_, ?_, ?_⟩
  · simp [World.since, h2, h3]
  · simp [World.since, h2, start_calls_append, h4, start_calls]
  · intro q
    simp [store_dev, h5]

/-- What `top_trans_start` does when start number `k` of the registry (from 0)
is the first to return a non-zero code. -/
theorem top_trans_start_fail_spec (E : Env) (master_dev : Dev) (top_th : top_thandle)
    (w : World) (k : Nat) (hmagic : top_th.tt_magic = TOP_THANDLE_MAGIC)
    (hk : k < top_th.tt_sub_thandle_list.length)
    (h0 : ∀ i, i < k → E.trans_start (w.trace.length + i) = 0)
    (hne : E.trans_start (w.trace.length + k) ≠ 0) :
    ∃ w', top_trans_start E master_dev top_th w
        = some (E.trans_start (w.trace.length + k), w')
      ∧ (w'.since w).length = k + 1
      ∧ start_calls (w'.since w)
        = (top_th.tt_sub_thandle_list.take (k + 1)).map
            (fun lst => ((w.mem lst.st_sub_th).th_dev, lst.st_sub_th)) := by
  obtain ⟨h1, evs, h2, h3, h4⟩ :=
    start_subs_fail E top_th.tt_super top_th.tt_sub_thandle_list w k hk h0 hne
  rcases hr : top_trans_start_subs E top_th.tt_super top_th.tt_sub_thandle_list w with ⟨o, w1⟩
  rw [hr] at h1 h2
  simp only at h1 h2
  subst h1
  simp only [top_trans_start, hmagic, ne_eq, not_true_eq_false, if_false, hr]
  refine ⟨_, rfl, ?_, ?_⟩
  · rw [since_append _ w evs h2, h3]
  · rw [since_append _ w evs h2, h4]

theorem demo_reachable :
    create_and_attach (Env.ok (fun _ => 0) (fun _ => 0)) 3 [1, 2]
      = some ([ErrPtr.ptr 3, ErrPtr.ptr 5], demo_top, demo_world) := by
  rfl

theorem attached_all_ptr : ∀ (ds : List Dev) (rs : List ErrPtr), rs.length = ds.length →
    (∀ r ∈ rs, ∃ p, r = ErrPtr.ptr p) → attached ds rs = ds := by
  intro ds
  induction ds with
  | nil => intro rs _ _; cases rs <;> rfl
  | cons d ds ih =>
    intro rs hl hall
    cases rs with
    | nil => simp at hl
    | cons r rs =>
      obtain ⟨p, rfl⟩ := hall r (by simp)
      simp only [attached]
      rw [ih rs (by simpa using hl) (fun r hr => hall r (List.mem_cons_of_mem _ hr))]

theorem attached_sublist : ∀ (ds : List Dev) (rs : List ErrPtr),
    List.Sublist (attached ds rs) ds := by
  intro ds
  induction ds with
  | nil => intro rs; cases rs <;> simp [attached]
  | cons d ds ih =>
    intro rs
    cases rs with
    | nil => simp [attached]
    | cons r rs =>
      cases r with
      | ptr p => exact List.Sublist.cons₂ d (ih rs)
      | err e => exact List.Sublist.cons d (ih rs)

/-- The state after a successful create and a sequence of attach calls for
distinct devices other than the master's. -/
theorem create_attach_spec (E : Env)
    (hdev : ∀ n d h, E.trans_create n d = Except.ok h → h.th_dev = d)
    (master_dev : Dev) (ds : List Dev) (w0 : World) (top_th : top_thandle) (w1 : World)
    (hcreate : top_trans_create E master_dev w0 = (Except.ok top_th, w1))
    (hnd : ds.Nodup) (hnm : master_dev ∉ ds) :
    ∃ rs top2 w2, attach_all E ds top_th w1 = some (rs, top2, w2)
      ∧ rs.length = ds.length
      ∧ Wf top2 w2
      ∧ top2.tt_master_sub_thandle = top_th.tt_master_sub_thandle
      ∧ top2.sub_devs w2 = (attached ds rs).reverse
      ∧ top2.sub_ptrs = (returned rs).reverse := by
  obtain ⟨hwf, hnil, -, h, hh, hmd⟩ := create_spec E master_dev w0 top_th w1 hcreate
  have hmdev : (w1.mem top_th.tt_master_sub_thandle).th_dev = master_dev := by
    rw [hmd]; exact hdev _ _ _ hh
  obtain ⟨rs, top2, w2, h1, h2, h3, h4, -, h6, h7⟩ :=
    attach_all_spec E hdev ds top_th w1 hwf hnd (by rw [hmdev]; exact hnm)
      (by intro d _; simp [top_thandle.sub_devs, hnil])
  refine ⟨rs, top2, w2, h1, h2, h3, h4, ?_, ?_⟩
  · simpa [top_thandle.sub_devs, hnil] using h6
  · simpa [top_thandle.sub_ptrs, hnil] using h7

theorem stop_calls_fst (top_th : top_thandle) (w : World) :
    (top_th.tt_sub_thandle_list.map
      (fun lst => ((w.mem lst.st_sub_th).th_dev, lst.st_sub_th))).map Prod.fst
      = top_th.sub_devs w := by
  simp [top_thandle.sub_devs]

/-- The scripted backend `Env.ok` creates handles of the requested device. -/
theorem env_ok_dev (start stop : Nat → Int) :
    ∀ n d h, (Env.ok start stop).trans_create n d = Except.ok h → h.th_dev = d := by
  intro n d h hh
  simp only [Env.ok, Except.ok.injEq] at hh
  rw [← hh]

/-- One attach call for a device other than the master's, from a well-formed
state: it returns; the registry is unchanged or gains the device, which it did
not hold; and it holds the device when the call returned a handle. -/
theorem attach_step_any (E : Env) (top_th : top_thandle) (d : Dev) (w : World)
    (hdev : ∀ n d h, E.trans_create n d = Except.ok h → h.th_dev = d)
    (hwf : Wf top_th w)
    (hd : d ≠ (w.mem top_th.tt_master_sub_thandle).th_dev) :
    ∃ r top1 w1, thandle_get_sub_by_dt E top_th d w = some (r, top1, w1)
      ∧ Wf top1 w1
      ∧ top1.tt_master_sub_thandle = top_th.tt_master_sub_thandle
      ∧ (w1.mem top1.tt_master_sub_thandle).th_dev = (w.mem top_th.tt_master_sub_thandle).th_dev
      ∧ (top1.sub_devs w1 = top_th.sub_devs w
          ∨ d ∉ top_th.sub_devs w ∧ top1.sub_devs w1 = d :: top_th.sub_devs w)
      ∧ ((∃ p, r = ErrPtr.ptr p) → d ∈ top1.sub_devs w1) := by
  by_cases hin : d ∈ top_th.sub_devs w
  · cases hf : top_th.tt_sub_thandle_list.find? (fun lst => (w.mem lst.st_sub_th).th_dev = d) with
    | none =>
      exfalso
      rw [List.find?_eq_none] at hf
      simp only [top_thandle.sub_devs, List.mem_map] at hin
      obtain ⟨lst, hl, hdl⟩ := hin
      exact hf lst hl (by simpa using hdl)
    | some lst =>
      exact ⟨_, _, _, attach_found E top_th d w lst hwf.magic hwf.master_ne hd hf, hwf, rfl, rfl,
        Or.inl rfl, fun _ => hin⟩
  · obtain ⟨r, top1, w1, h1, h2, h3, h4, h5, -⟩ := attach_step E top_th d w hdev hwf hd hin
    refine ⟨r, top1, w1, h1, h2, h3, h4, ?_, ?_⟩
    · cases r with
      | ptr p => exact Or.inr ⟨hin, by simpa [attached] using h5⟩
      | err e => exact Or.inl (by simpa [attached] using h5)
    · rintro ⟨p, rfl⟩
      rw [h5]
      simp [attached]

/-- A sequence of attach calls for devices other than the master's, repeats
allowed, from a well-formed state whose registry holds no device twice: every
call returns, and the registry still holds no device twice, holds only devices
it held or that were named, and holds every device whose call returned a
handle. -/
theorem attach_all_any (E : Env)
    (hdev : ∀ n d h, E.trans_create n d = Except.ok h → h.th_dev = d) :
    ∀ (ds : List Dev) (top_th : top_thandle) (w : World), Wf top_th w →
      (top_th.sub_devs w).Nodup →
      (w.mem top_th.tt_master_sub_thandle).th_dev ∉ ds →
      ∃ rs top2 w2, attach_all E ds top_th w = some (rs, top2, w2)
        ∧ rs.length = ds.length
        ∧ Wf top2 w2
        ∧ top2.tt_master_sub_thandle = top_th.tt_master_sub_thandle
        ∧ (top2.sub_devs w2).Nodup
        ∧ (∀ d ∈ top2.sub_devs w2, d ∈ top_th.sub_devs w ∨ d ∈ ds)
        ∧ (∀ d ∈ top_th.sub_devs w, d ∈ top2.sub_devs w2)
        ∧ (∀ d ∈ attached ds rs, d ∈ top2.sub_devs w2) := by
  intro ds
  induction ds with
  | nil =>
    intro top_th w hwf hnd _
    exact ⟨[], top_th, w, rfl, rfl, hwf, rfl, hnd, fun d h => Or.inl h, fun d h => h,
      by simp [attached]⟩
  | cons d ds ih =>
    intro top_th w hwf hnd hm
    obtain ⟨r, top1, w1, h1, hwf1, hm1, hmd1, hd1, hr1⟩ :=
      attach_step_any E top_th d w hdev hwf (fun h => hm (by rw [← h]; simp))
    have hnd1 : (top1.sub_devs w1).Nodup := by
      rcases hd1 with h | ⟨hnew, h⟩
      · rw [h]; exact hnd
      · rw [h]; exact List.nodup_cons.mpr ⟨hnew, hnd⟩
    have hsub1 : ∀ x ∈ top1.sub_devs w1, x ∈ top_th.sub_devs w ∨ x = d := by
      intro x hx
      rcases hd1 with h | ⟨-, h⟩
      · rw [h] at hx; exact Or.inl hx
      · rw [h, List.mem_cons] at hx
        exact hx.symm.imp id id
    have hmono1 : ∀ x ∈ top_th.sub_devs w, x ∈ top1.sub_devs w1 := by
      intro x hx
      rcases hd1 with h | ⟨-, h⟩
      · rw [h]; exact hx
      · rw [h]; exact List.mem_cons_of_mem _ hx
    obtain ⟨rs, top2, w2, h2, hl2, hwf2, hm2, hnd2, hsub2, hmono2, hatt2⟩ :=
      ih top1 w1 hwf1 hnd1 (by rw [hmd1]; exact fun h => hm (List.mem_cons_of_mem _ h))
    refine ⟨r :: rs, top2, w2, by simp [attach_all, h1, h2], by simp [hl2], hwf2,
      hm2.trans hm1, hnd2, ?_, fun x hx => hmono2 x (hmono1 x hx), ?_⟩
    · intro x hx
      rcases hsub2 x hx with h | h
      · rcases hsub1 x h with h' | h'
        · exact Or.inl h'
        · exact Or.inr (by rw [h']; simp)
      · exact Or.inr (List.mem_cons_of_mem _ h)
    · intro x hx
      cases r with
      | ptr p =>
        simp only [attached, List.mem_cons] at hx
        rcases hx with rfl | hx
        · exact hmono2 x (hr1 ⟨p, rfl⟩)
        · exact hatt2 x hx
      | err e =>
        simp only [attached] at hx
        exact hatt2 x hx

/-- Every attach call on a top handle with the type tag set and a master
returns; it keeps the tag and the master, never clears the sync flag, and sets
it when it returns a handle for a device that was neither the master's nor in
the registry. -/
theorem attach_total (E : Env) (top_th : top_thandle) (d : Dev) (w : World)
    (hmagic : top_th.tt_magic = TOP_THANDLE_MAGIC) (hm : top_th.tt_master_sub_thandle ≠ 0) :
    ∃ r top1 w1, thandle_get_sub_by_dt E top_th d w = some (r, top1, w1)
      ∧ top1.tt_magic = TOP_THANDLE_MAGIC
      ∧ top1.tt_master_sub_thandle ≠ 0
      ∧ (top_th.tt_super.th_sync = true → top1.tt_super.th_sync = true)
      ∧ (d ≠ (w.mem top_th.tt_master_sub_thandle).th_dev → d ∉ top_th.sub_devs w →
          (∃ p, r = ErrPtr.ptr p) → top1.tt_super.th_sync = true) := by
  by_cases hd : d = (w.mem top_th.tt_master_sub_thandle).th_dev
  · exact ⟨_, _, _, attach_master E top_th d w hmagic hm hd, hmagic, hm, id,
      fun h => absurd hd h⟩
  · cases hf : top_th.tt_sub_thandle_list.find? (fun lst => (w.mem lst.st_sub_th).th_dev = d) with
    | some lst =>
      refine ⟨_, _, _, attach_found E top_th d w lst hmagic hm hd hf, hmagic, hm, id,
        fun _ hnew _ => ?_⟩
      rw [find_none_of_not_mem top_th w d hnew] at hf
      cases hf
    | none =>
      cases hc : E.trans_create w.trace.length d with
      | error e =>
        refine ⟨_, _, _, attach_create_err E top_th d w e hmagic hm hd hf hc, hmagic, hm, id,
          fun _ _ hp => ?_⟩
        obtain ⟨p, hp⟩ := hp
        cases hp
      | ok h =>
        cases ha : E.alloc_ok (w.trace.length + 1) with
        | false =>
          exact ⟨_, _, _, attach_alloc_fail E top_th d w h hmagic hm hd hf hc ha, hmagic, hm,
            fun _ => rfl, fun _ _ _ => rfl⟩
        | true =>
          exact ⟨_, _, _, attach_new E top_th d w h hmagic hm hd hf hc ha, hmagic, hm,
            fun _ => rfl, fun _ _ _ => rfl⟩

/-- Every sequence of attach calls on a top handle with the type tag set and a
master returns, and a sync flag that is set stays set. -/
theorem attach_all_total (E : Env) : ∀ (ds : List Dev) (top_th : top_thandle) (w : World),
    top_th.tt_magic = TOP_THANDLE_MAGIC → top_th.tt_master_sub_thandle ≠ 0 →
    ∃ rs top2 w2, attach_all E ds top_th w = some (rs, top2, w2)
      ∧ (top_th.tt_super.th_sync = true → top2.tt_super.th_sync = true) := by
  intro ds
  induction ds with
  | nil => intro top_th w _ _; exact ⟨[], top_th, w, rfl, id⟩
  | cons d ds ih =>
    intro top_th w hmagic hm
    obtain ⟨r, top1, w1, h1, hmagic1, hm1, hs1, -⟩ := attach_total E top_th d w hmagic hm
    obtain ⟨rs, top2, w2, h2, hs2⟩ := ih top1 w1 hmagic1 hm1
    exact ⟨r :: rs, top2, w2, by simp [attach_all, h1, h2], fun h => hs2 (hs1 h)⟩

/-- Attach calls that all name the master's device return the master handle and
change nothing. -/
theorem attach_all_master (E : Env) (top_th : top_thandle) (w : World)
    (hmagic : top_th.tt_magic = TOP_THANDLE_MAGIC) (hm : top_th.tt_master_sub_thandle ≠ 0) :
    ∀ (ds : List Dev), (∀ d ∈ ds, d = (w.mem top_th.tt_master_sub_thandle).th_dev) →
      attach_all E ds top_th w
        = some (ds.map (fun _ => ErrPtr.ptr top_th.tt_master_sub_thandle), top_th, w) := by
  intro ds
  induction ds with
  | nil => intro _; rfl
  | cons d ds ih =>
    intro h
    simp [attach_all, attach_master E top_th d w hmagic hm (h d (by simp)),
      ih (fun x hx => h x (List.mem_cons_of_mem _ hx))]

/-- One pass of the start loop logs one `dt_trans_start` on a handle that
carries the flags of `th`, and writes no other handle. -/
theorem start_sub_flags (E : Env) (th : thandle) (lst : sub_thandle) (w : World) :
    (∃ ev, (top_trans_start_sub E th lst w).2.trace = w.trace ++ [ev]
        ∧ Event.start_with th.th_sync th.th_local ev)
      ∧ ∀ q, q ≠ lst.st_sub_th → (top_trans_start_sub E th lst w).2.mem q = w.mem q := by
  refine ⟨⟨_, rfl, ?_⟩, ?_⟩
  · simp [Event.start_with, World.store]
  · intro q hq
    simp [top_trans_start_sub, dt_trans_start, World.store, hq]

/-- Every event the start loop logs is a `dt_trans_start` on a handle that
carries the flags of `th`. -/
theorem start_subs_flags (E : Env) (th : thandle) :
    ∀ (l : List sub_thandle) (w : World),
      ∃ evs, (top_trans_start_subs E th l w).2.trace = w.trace ++ evs
        ∧ ∀ ev ∈ evs, Event.start_with th.th_sync th.th_local ev := by
  intro l
  induction l with
  | nil => intro w; exact ⟨[], by simp [top_trans_start_subs], by simp⟩
  | cons lst rest ih =>
    intro w
    obtain ⟨⟨ev, h1, h2⟩, -⟩ := start_sub_flags E th lst w
    simp only [top_trans_start_subs]
    by_cases hrc : (top_trans_start_sub E th lst w).1 = 0
    · obtain ⟨evs, i1, i2⟩ := ih (top_trans_start_sub E th lst w).2
      refine ⟨ev :: evs, ?_, ?_⟩
      · simp [hrc, i1, h1]
      · intro e he
        rcases List.mem_cons.mp he with rfl | he
        · exact h2
        · exact i2 e he
    · refine ⟨[ev], ?_, ?_⟩
      · simp [hrc, h1]
      · intro e he
        rw [List.mem_singleton.mp he]
        exact h2

/-- Every event `top_trans_start` logs is a `dt_trans_start` on a handle that
carries the flags of the transaction, whatever the starts return. -/
theorem top_trans_start_flags (E : Env) (master_dev : Dev) (top_th : top_thandle) (w : World)
    (hmagic : top_th.tt_magic = TOP_THANDLE_MAGIC) :
    ∃ rc w', top_trans_start E master_dev top_th w = some (rc, w')
      ∧ ∀ ev ∈ w'.since w,
          Event.start_with top_th.tt_super.th_sync top_th.tt_super.th_local ev := by
  obtain ⟨evs, h1, h2⟩ := start_subs_flags E top_th.tt_super top_th.tt_sub_thandle_list w
  rcases hr : top_trans_start_subs E top_th.tt_super top_th.tt_sub_thandle_list w with ⟨o, w1⟩
  rw [hr] at h1
  simp only at h1
  cases o with
  | some rc =>
    refine ⟨rc, w1, by simp [top_trans_start, hmagic, hr], ?_⟩
    rw [since_append w1 w evs h1]
    exact h2
  | none =>
    refine ⟨(dt_trans_start E master_dev top_th.tt_master_sub_thandle
        ((w1.store top_th.tt_master_sub_thandle
          (fun h => { h with th_local := top_th.tt_super.th_local })).store
            top_th.tt_master_sub_thandle
          (fun h => { h with th_sync := top_th.tt_super.th_sync }))).1,
      (dt_trans_start E master_dev top_th.tt_master_sub_thandle
        ((w1.store top_th.tt_master_sub_thandle
          (fun h => { h with th_local := top_th.tt_super.th_local })).store
            top_th.tt_master_sub_thandle
          (fun h => { h with th_sync := top_th.tt_super.th_sync }))).2,
      by simp only [top_trans_start, hmagic, ne_eq, not_true_eq_false, if_false, hr], ?_⟩
    intro ev hev
    simp only [World.since, dt_trans_start, log_trace, store_trace, h1, List.append_assoc,
      List.drop_left', List.mem_append, List.mem_singleton] at hev
    rcases hev with hev | rfl
    · exact h2 ev hev
    · simp [Event.start_with, World.store]

theorem stop_results_append (a b : List Event) :
    stop_results (a ++ b) = stop_results a ++ stop_results b := by
  induction a with
  | nil => rfl
  | cons e es ih => cases e <;> simp [stop_results, ih]

theorem stop_results_free (l : List sub_thandle) :
    stop_results (l.map (fun st => Event.obd_free st.st_self)) = [] := by
  induction l with
  | nil => rfl
  | cons st rest ih => simpa [stop_results] using ih

/-- A store that keeps `th_result` keeps the result field of every handle. -/
theorem store_result (w : World) (p q : Nat) (f : thandle → thandle)
    (hf : ∀ h, (f h).th_result = h.th_result) :
    ((w.store p f).mem q).th_result = (w.mem q).th_result := by
  unfold World.store
  by_cases hq : q = p <;> simp [hq, hf]

/-- One pass of the stop loop logs one `dt_trans_stop` on its handle, whose
`th_result` is the entry value of `rc` when that is not 0 and is untouched
otherwise, and writes no other handle. -/
theorem stop_sub_result (E : Env) (th : thandle) (lst : sub_thandle) (rc : Int) (w : World) :
    (∃ d h c, (top_trans_stop_sub E th lst rc w).2.trace
          = w.trace ++ [Event.trans_stop d lst.st_sub_th h c]
        ∧ h.th_result = if rc ≠ 0 then rc else (w.mem lst.st_sub_th).th_result)
      ∧ ∀ q, q ≠ lst.st_sub_th → (top_trans_stop_sub E th lst rc w).2.mem q = w.mem q := by
  by_cases hrc : rc = 0
  · simp only [top_trans_stop_sub, dt_trans_stop, hrc, ne_eq, not_true_eq_false, if_false]
    refine ⟨⟨_, _, _, rfl, ?_⟩, ?_⟩
    · simp [World.store]
    · intro q hq
      simp [World.store, hq]
  · simp only [top_trans_stop_sub, dt_trans_stop, hrc, ne_eq, not_false_eq_true, if_true]
    refine ⟨⟨_, _, _, rfl, ?_⟩, ?_⟩
    · simp [World.store]
    · intro q hq
      simp [World.store, hq]

/-- In the stop loop over distinct handles, the call for entry `i` is made with
`th_result` set to the value `rc` has before that pass when it is not 0, and
left as it was on entry to the loop otherwise. -/
theorem stop_subs_results (E : Env) (th : thandle) :
    ∀ (l : List sub_thandle) (rc : Int) (w : World),
      (l.map (fun lst => lst.st_sub_th)).Nodup →
      ∀ (i : Nat) (lst : sub_thandle), l[i]? = some lst →
        (stop_results ((top_trans_stop_subs E th l rc w).2.since w))[i]?
          = some (lst.st_sub_th,
              if keep_first rc (E.stop_codes w.trace.length i) ≠ 0
              then keep_first rc (E.stop_codes w.trace.length i)
              else (w.mem lst.st_sub_th).th_result) := by
  intro l
  induction l with
  | nil => intro rc w _ i lst h; simp at h
  | cons x rest ih =>
    intro rc w hnd i lst hi
    obtain ⟨⟨d, h, c, h1, h2⟩, h3⟩ := stop_sub_result E th x rc w
    obtain ⟨hrc, -, -, -⟩ := stop_sub_spec E th x rc w
    have hsince : (top_trans_stop_subs E th (x :: rest) rc w).2.since w
        = Event.trans_stop d x.st_sub_th h c
          :: (top_trans_stop_subs E th rest (top_trans_stop_sub E th x rc w).1
              (top_trans_stop_sub E th x rc w).2).2.since (top_trans_stop_sub E th x rc w).2 := by
      simp only [top_trans_stop_subs]
      have := stop_subs_trace_since E th rest (top_trans_stop_sub E th x rc w).1
        (top_trans_stop_sub E th x rc w).2
      rw [h1] at this
      conv_lhs => rw [World.since, this]
      simp
    rw [hsince]
    simp only [List.map_cons, List.nodup_cons] at hnd
    cases i with
    | zero =>
      simp only [List.getElem?_cons_zero, Option.some.injEq] at hi
      subst hi
      simp [stop_results, Env.stop_codes, keep_first, h2]
    | succ j =>
      simp only [List.getElem?_cons_succ] at hi
      have hmem : lst ∈ rest := List.getElem?_mem hi
      have hne : lst.st_sub_th ≠ x.st_sub_th := by
        intro heq
        exact hnd.1 (List.mem_map.mpr ⟨lst, hmem, heq⟩)
      have hlen : (top_trans_stop_sub E th x rc w).2.trace.length = w.trace.length + 1 := by
        rw [h1]; simp
      have := ih (top_trans_stop_sub E th x rc w).1 (top_trans_stop_sub E th x rc w).2 hnd.2 j
        lst hi
      simp only [stop_results, List.getElem?_cons_succ]
      rw [this, hlen, h3 _ hne, hrc]
      simp [Env.stop_codes, keep_first]

/-- The master's part of `top_trans_stop`: the code returned, the single event
logged, and the fields it leaves alone. -/
theorem stop_master_spec (E : Env) (master_dev : Dev) (top_th : top_thandle) (w : World) :
    (top_trans_stop_master E master_dev top_th w).1 = E.trans_stop w.trace.length
      ∧ (∃ h, (top_trans_stop_master E master_dev top_th w).2.trace
          = w.trace ++ [Event.trans_stop master_dev top_th.tt_master_sub_thandle h
              (E.trans_stop w.trace.length)]
          ∧ h.th_sync = top_th.tt_super.th_sync ∧ h.th_local = top_th.tt_super.th_local)
      ∧ (∀ q, ((top_trans_stop_master E master_dev top_th w).2.mem q).th_result
          = (w.mem q).th_result)
      ∧ ∀ q, ((top_trans_stop_master E master_dev top_th w).2.mem q).th_dev
          = (w.mem q).th_dev := by
  refine ⟨rfl, ⟨_, rfl, ?_, ?_⟩, ?_, ?_⟩
  · simp [World.store]
  · simp [World.store]
  · intro q; simp [top_trans_stop_master, dt_trans_stop, store_result]
  · intro q; simp [top_trans_stop_master, dt_trans_stop, store_dev]

/-- The events of `top_trans_stop`: those of the master's stop, then those of
the loop over the registry, then the release of every wrapper and of the top
handle. -/
theorem top_trans_stop_since (E : Env) (master_dev : Dev) (top_th : top_thandle) (w : World)
    (hmagic : top_th.tt_magic = TOP_THANDLE_MAGIC) :
    ∃ w', top_trans_stop E master_dev top_th w
        = some ((top_trans_stop_subs E top_th.tt_super top_th.tt_sub_thandle_list
            (top_trans_stop_master E master_dev top_th w).1
            (top_trans_stop_master E master_dev top_th w).2).1, w')
      ∧ w'.since w
        = (top_trans_stop_master E master_dev top_th w).2.since w
          ++ (top_trans_stop_subs E top_th.tt_super top_th.tt_sub_thandle_list
                (top_trans_stop_master E master_dev top_th w).1
                (top_trans_stop_master E master_dev top_th w).2).2.since
              (top_trans_stop_master E master_dev top_th w).2
          ++ (top_th.tt_sub_thandle_list.map (fun st => Event.obd_free st.st_self)
                ++ [Event.obd_free top_th.tt_self]) := by
  obtain ⟨-, ⟨h, hm, -, -⟩, -, -⟩ := stop_master_spec E master_dev top_th w
  refine ⟨obd_free top_th.tt_self
    (top_th.tt_sub_thandle_list.foldl (fun w1 st => obd_free st.st_self w1)
      (top_trans_stop_subs E top_th.tt_super top_th.tt_sub_thandle_list
        (top_trans_stop_master E master_dev top_th w).1
        (top_trans_stop_master E master_dev top_th w).2).2), ?_, ?_⟩
  · simp only [top_trans_stop, top_thandle_destroy, hmagic, ne_eq, not_true_eq_false, if_false]
    rfl
  · have hs := stop_subs_trace_since E top_th.tt_super top_th.tt_sub_thandle_list
      (top_trans_stop_master E master_dev top_th w).1
      (top_trans_stop_master E master_dev top_th w).2
    have hm' : (top_trans_stop_master E master_dev top_th w).2.since w
        = [Event.trans_stop master_dev top_th.tt_master_sub_thandle h
            (E.trans_stop w.trace.length)] := since_append _ _ _ hm
    rw [hm']
    conv_lhs => rw [World.since, obd_free_trace, (destroy_loop_spec _ _).1, hs, hm]
    simp

/-- What every attach call on a top handle with the type tag set and a master
does to the top handle: it returns, keeps the tag, the master and the address of
the top handle, and leaves the registry as it was or adds at its head one
wrapper, freshly allocated, for a freshly created handle. -/
theorem attach_frame (E : Env) (top_th : top_thandle) (d : Dev) (w : World)
    (hmagic : top_th.tt_magic = TOP_THANDLE_MAGIC) (hm : top_th.tt_master_sub_thandle ≠ 0) :
    ∃ r top1 w1, thandle_get_sub_by_dt E top_th d w = some (r, top1, w1)
      ∧ top1.tt_magic = TOP_THANDLE_MAGIC
      ∧ top1.tt_master_sub_thandle = top_th.tt_master_sub_thandle
      ∧ top1.tt_self = top_th.tt_self
      ∧ w.brk ≤ w1.brk
      ∧ (top1.tt_sub_thandle_list = top_th.tt_sub_thandle_list
          ∨ top1.tt_sub_thandle_list
              = { st_self := w.brk + 2, st_sub_th := w.brk + 1 } :: top_th.tt_sub_thandle_list
            ∧ w1.brk = w.brk + 2) := by
  by_cases hd : d = (w.mem top_th.tt_master_sub_thandle).th_dev
  · exact ⟨_, _, _, attach_master E top_th d w hmagic hm hd, hmagic, rfl, rfl, Nat.le_refl _,
      Or.inl rfl⟩
  · cases hf : top_th.tt_sub_thandle_list.find? (fun lst => (w.mem lst.st_sub_th).th_dev = d) with
    | some lst =>
      exact ⟨_, _, _, attach_found E top_th d w lst hmagic hm hd hf, hmagic, rfl, rfl,
        Nat.le_refl _, Or.inl rfl⟩
    | none =>
      cases hc : E.trans_create w.trace.length d with
      | error e =>
        exact ⟨_, _, _, attach_create_err E top_th d w e hmagic hm hd hf hc, hmagic, rfl, rfl,
          Nat.le_refl _, Or.inl rfl⟩
      | ok h =>
        cases ha : E.alloc_ok (w.trace.length + 1) with
        | false =>
          exact ⟨_, _, _, attach_alloc_fail E top_th d w h hmagic hm hd hf hc ha, hmagic, rfl,
            rfl, Nat.le_succ _, Or.inl rfl⟩
        | true =>
          exact ⟨_, _, _, attach_new E top_th d w h hmagic hm hd hf hc ha, hmagic, rfl, rfl,
            Nat.le_add_right _ _, Or.inr ⟨rfl, rfl⟩⟩

/-- `top_trans_start` returns on every top handle with the type tag set. -/
theorem top_trans_start_total (E : Env) (master_dev : Dev) (top_th : top_thandle) (w : World)
    (hmagic : top_th.tt_magic = TOP_THANDLE_MAGIC) :
    ∃ rc w', top_trans_start E master_dev top_th w = some (rc, w') := by
  obtain ⟨rc, w', h, -⟩ := top_trans_start_flags E master_dev top_th w hmagic
  exact ⟨rc, w', h⟩

/-- Every sequence of attach and start calls on a top handle with the type tag
set and a master returns, and keeps the tag and the master. -/
theorem run_ops_total (E : Env) : ∀ (ops : List Op) (top_th : top_thandle) (w : World),
    top_th.tt_magic = TOP_THANDLE_MAGIC → top_th.tt_master_sub_thandle ≠ 0 →
    ∃ top2 w2, run_ops E ops top_th w = some (top2, w2)
      ∧ top2.tt_magic = TOP_THANDLE_MAGIC
      ∧ top2.tt_master_sub_thandle = top_th.tt_master_sub_thandle := by
  intro ops
  induction ops with
  | nil => intro top_th w hmagic _; exact ⟨top_th, w, rfl, hmagic, rfl⟩
  | cons op ops ih =>
    intro top_th w hmagic hm
    cases op with
    | attach d =>
      obtain ⟨r, top1, w1, h1, hmagic1, hm1, -, -, -⟩ := attach_frame E top_th d w hmagic hm
      obtain ⟨top2, w2, h2, hmagic2, hm2⟩ := ih top1 w1 hmagic1 (by rw [hm1]; exact hm)
      exact ⟨top2, w2, by simp [run_ops, h1, h2], hmagic2, hm2.trans hm1⟩
    | start master_dev =>
      obtain ⟨rc, w1, h1⟩ := top_trans_start_total E master_dev top_th w hmagic
      obtain ⟨top2, w2, h2, hmagic2, hm2⟩ := ih top_th w1 hmagic hm
      exact ⟨top2, w2, by simp [run_ops, h1, h2], hmagic2, hm2⟩

/-- The top handle and the events of a successful `top_trans_create`. -/
theorem create_ok_spec (E : Env) (master_dev : Dev) (w0 : World) (top_th : top_thandle)
    (w1 : World) (hc : top_trans_create E master_dev w0 = (Except.ok top_th, w1)) :
    top_th.tt_self = w0.brk + 1
      ∧ top_th.tt_master_sub_thandle = w0.brk + 2
      ∧ w1.brk = w0.brk + 2
      ∧ top_th.tt_super.th_top = top_th.tt_self
      ∧ (w1.mem top_th.tt_master_sub_thandle).th_top = top_th.tt_self
      ∧ w1.since w0
        = [Event.obd_alloc top_th.tt_self,
            Event.trans_create master_dev (ErrPtr.ptr top_th.tt_master_sub_thandle)] := by
  unfold top_trans_create obd_alloc at hc
  cases ha : E.alloc_ok w0.trace.length with
  | false => simp [ha] at hc
  | true =>
    simp only [ha, if_true, Nat.add_one_ne_zero, if_false, dt_trans_create,
      List.length_append, List.length_singleton] at hc
    cases hcr : E.trans_create (w0.trace.length + 1) master_dev with
    | error e => simp [hcr] at hc
    | ok h =>
      simp only [hcr, Prod.mk.injEq, Except.ok.injEq] at hc
      obtain ⟨rfl, rfl⟩ := hc
      exact ⟨rfl, rfl, rfl, rfl, by simp [World.store], by simp [World.since, World.store]⟩

/-- Every attach call keeps the registry invariant. -/
theorem attach_reg (E : Env)
    (hdev : ∀ n d h, E.trans_create n d = Except.ok h → h.th_dev = d)
    (top_th : top_thandle) (d : Dev) (w : World) (master_dev : Dev)
    (hreg : Reg top_th w master_dev) :
    ∃ r top1 w1, thandle_get_sub_by_dt E top_th d w = some (r, top1, w1)
      ∧ Reg top1 w1 master_dev := by
  by_cases hd : d = (w.mem top_th.tt_master_sub_thandle).th_dev
  · exact ⟨_, _, _, attach_master E top_th d w hreg.wf.magic hreg.wf.master_ne hd, hreg⟩
  · obtain ⟨r, top1, w1, h1, hwf1, hm1, hmd1, hdevs, -⟩ :=
      attach_step_any E top_th d w hdev hreg.wf hd
    obtain ⟨r', top1', w1', h1', -, -, -, -, hlist⟩ :=
      attach_frame E top_th d w hreg.wf.magic hreg.wf.master_ne
    rw [h1] at h1'
    simp only [Option.some.injEq, Prod.mk.injEq] at h1'
    obtain ⟨-, rfl, rfl⟩ := h1'
    refine ⟨r, top1, w1, h1, hwf1, by rw [hmd1]; exact hreg.master_dev_eq, ?_, ?_, ?_⟩
    · rcases hdevs with h | ⟨hnew, h⟩
      · rw [h]; exact hreg.devs_nodup
      · rw [h]; exact List.nodup_cons.mpr ⟨hnew, hreg.devs_nodup⟩
    · rcases hdevs with h | ⟨-, h⟩
      · rw [h]; exact hreg.master_dev_not_mem
      · rw [h, List.mem_cons, not_or]
        exact ⟨fun heq => hd (by rw [hreg.master_dev_eq]; exact heq.symm),
          hreg.master_dev_not_mem⟩
    · rw [hm1]
      rcases hlist with h | ⟨h, -⟩
      · simp only [top_thandle.sub_ptrs, h]
        exact hreg.master_not_mem
      · simp only [top_thandle.sub_ptrs, h, List.map_cons, List.mem_cons, not_or]
        refine ⟨?_, hreg.master_not_mem⟩
        have := hreg.wf.master_le
        omega

/-- Every sequence of attach calls returns and keeps the registry invariant. -/
theorem attach_all_reg (E : Env)
    (hdev : ∀ n d h, E.trans_create n d = Except.ok h → h.th_dev = d) (master_dev : Dev) :
    ∀ (ds : List Dev) (top_th : top_thandle) (w : World), Reg top_th w master_dev →
      ∃ rs top2 w2, attach_all E ds top_th w = some (rs, top2, w2)
        ∧ Reg top2 w2 master_dev := by
  intro ds
  induction ds with
  | nil => intro top_th w hreg; exact ⟨[], top_th, w, rfl, hreg⟩
  | cons d ds ih =>
    intro top_th w hreg
    obtain ⟨r, top1, w1, h1, hreg1⟩ := attach_reg E hdev top_th d w master_dev hreg
    obtain ⟨rs, top2, w2, h2, hreg2⟩ := ih top1 w1 hreg1
    exact ⟨r :: rs, top2, w2, by simp [attach_all, h1, h2], hreg2⟩

/-- The registry invariant holds after a successful `top_trans_create`. -/
theorem create_reg (E : Env)
    (hdev : ∀ n d h, E.trans_create n d = Except.ok h → h.th_dev = d)
    (master_dev : Dev) (w0 : World) (top_th : top_thandle) (w1 : World)
    (hc : top_trans_create E master_dev w0 = (Except.ok top_th, w1)) :
    Reg top_th w1 master_dev := by
  obtain ⟨hwf, hnil, -, h, hh, hmd⟩ := create_spec E master_dev w0 top_th w1 hc
  refine ⟨hwf, by rw [hmd]; exact hdev _ _ _ hh, ?_, ?_, ?_⟩
  · simp [top_thandle.sub_devs, hnil]
  · simp [top_thandle.sub_devs, hnil]
  · simp [top_thandle.sub_ptrs, hnil]

theorem freed_append (a b : List Event) : freed (a ++ b) = freed a ++ freed b := by
  induction a with
  | nil => rfl
  | cons e es ih => cases e <;> simp [freed, ih]

theorem freed_destroy_events (top_th : top_thandle) :
    freed (destroy_events top_th)
      = top_th.tt_sub_thandle_list.map (fun st => st.st_self) ++ [top_th.tt_self] := by
  unfold destroy_events
  rw [freed_append]
  congr 1
  induction top_th.tt_sub_thandle_list with
  | nil => rfl
  | cons st rest ih => simp [freed, ih]

/-- Every attach call keeps the allocation invariant. -/
theorem attach_alloc_inv (E : Env) (top_th : top_thandle) (d : Dev) (w : World)
    (hmagic : top_th.tt_magic = TOP_THANDLE_MAGIC) (hm : top_th.tt_master_sub_thandle ≠ 0)
    (hinv : WfAlloc top_th w) :
    ∃ r top1 w1, thandle_get_sub_by_dt E top_th d w = some (r, top1, w1)
      ∧ top1.tt_magic = TOP_THANDLE_MAGIC ∧ top1.tt_master_sub_thandle ≠ 0
      ∧ WfAlloc top1 w1 := by
  obtain ⟨r, top1, w1, h1, hmagic1, hm1, hself, hbrk, hlist⟩ :=
    attach_frame E top_th d w hmagic hm
  have hnd := hinv.nodup
  rw [freed_destroy_events] at hnd
  refine ⟨r, top1, w1, h1, hmagic1, by rw [hm1]; exact hm, ?_, ?_, ?_⟩
  · rw [hself]; exact Nat.le_trans hinv.self_le hbrk
  · intro st hst
    rcases hlist with h | ⟨h, hb⟩
    · rw [h] at hst
      exact Nat.le_trans (hinv.wrappers_le st hst) hbrk
    · rw [h, List.mem_cons] at hst
      rcases hst with rfl | hst
      · rw [hb]
      · exact Nat.le_trans (hinv.wrappers_le st hst) hbrk
  · rw [freed_destroy_events, hself]
    rcases hlist with h | ⟨h, -⟩
    · rw [h]; exact hnd
    · rw [h, List.map_cons, List.cons_append, List.nodup_cons]
      refine ⟨?_, hnd⟩
      intro hin
      rcases List.mem_append.mp hin with hin | hin
      · obtain ⟨st, hst, heq⟩ := List.mem_map.mp hin
        have := hinv.wrappers_le st hst
        simp only at heq
        omega
      · have := hinv.self_le
        simp only [List.mem_singleton] at hin
        omega

/-- Every sequence of attach calls returns and keeps the allocation invariant. -/
theorem attach_all_alloc_inv (E : Env) :
    ∀ (ds : List Dev) (top_th : top_thandle) (w : World),
      top_th.tt_magic = TOP_THANDLE_MAGIC → top_th.tt_master_sub_thandle ≠ 0 →
      WfAlloc top_th w →
      ∃ rs top2 w2, attach_all E ds top_th w = some (rs, top2, w2)
        ∧ top2.tt_magic = TOP_THANDLE_MAGIC ∧ WfAlloc top2 w2 := by
  intro ds
  induction ds with
  | nil => intro top_th w hmagic _ hinv; exact ⟨[], top_th, w, rfl, hmagic, hinv⟩
  | cons d ds ih =>
    intro top_th w hmagic hm hinv
    obtain ⟨r, top1, w1, h1, hmagic1, hm1, hinv1⟩ :=
      attach_alloc_inv E top_th d w hmagic hm hinv
    obtain ⟨rs, top2, w2, h2, hmagic2, hinv2⟩ := ih top1 w1 hmagic1 hm1 hinv1
    exact ⟨r :: rs, top2, w2, by simp [attach_all, h1, h2], hmagic2, hinv2⟩

/-- The allocation invariant holds after a successful `top_trans_create`. -/
theorem create_alloc_inv (E : Env) (master_dev : Dev) (w0 : World) (top_th : top_thandle)
    (w1 : World) (hc : top_trans_create E master_dev w0 = (Except.ok top_th, w1)) :
    WfAlloc top_th w1 := by
  obtain ⟨-, hnil, -, -⟩ := create_spec E master_dev w0 top_th w1 hc
  obtain ⟨h1, -, h3, -, -, -⟩ := create_ok_spec E master_dev w0 top_th w1 hc
  refine ⟨by rw [h1, h3]; omega, by simp [hnil], ?_⟩
  rw [freed_destroy_events, hnil]
  simp

/-- What `top_thandle_destroy` does: it releases every wrapper, then the top
handle, and nothing else. -/
theorem destroy_spec (top_th : top_thandle) (w : World)
    (hmagic : top_th.tt_magic = TOP_THANDLE_MAGIC) :
    ∃ w', top_thandle_destroy top_th w = some w'
      ∧ w'.since w = destroy_events top_th ∧ w'.mem = w.mem := by
  refine ⟨obd_free top_th.tt_self
    (top_th.tt_sub_thandle_list.foldl (fun w1 st => obd_free st.st_self w1) w), ?_, ?_, ?_⟩
  · simp [top_thandle_destroy, hmagic]
  · simp [World.since, (destroy_loop_spec _ _).1, destroy_events]
  · simp [(destroy_loop_spec _ _).2.1]

/-- An attach call never brings an already allocated handle into the registry. -/
theorem attach_outside (E : Env) (top_th : top_thandle) (d : Dev) (w : World) (p : Nat)
    (hmagic : top_th.tt_magic = TOP_THANDLE_MAGIC) (hm : top_th.tt_master_sub_thandle ≠ 0)
    (hout : Outside p top_th w) :
    ∃ r top1 w1, thandle_get_sub_by_dt E top_th d w = some (r, top1, w1)
      ∧ top1.tt_magic = TOP_THANDLE_MAGIC ∧ top1.tt_master_sub_thandle ≠ 0
      ∧ Outside p top1 w1 := by
  obtain ⟨r, top1, w1, h1, hmagic1, hm1, -, hbrk, hlist⟩ :=
    attach_frame E top_th d w hmagic hm
  refine ⟨r, top1, w1, h1, hmagic1, by rw [hm1]; exact hm,
    Nat.le_trans hout.le hbrk, by rw [hm1]; exact hout.ne_master, ?_⟩
  rcases hlist with h | ⟨h, -⟩
  · simp only [top_thandle.sub_ptrs, h]
    exact hout.not_mem
  · simp only [top_thandle.sub_ptrs, h, List.map_cons, List.mem_cons, not_or]
    refine ⟨?_, hout.not_mem⟩
    have := hout.le
    omega

/-- No sequence of attach calls brings an already allocated handle into the
registry. -/
theorem attach_all_outside (E : Env) (p : Nat) :
    ∀ (ds : List Dev) (top_th : top_thandle) (w : World),
      top_th.tt_magic = TOP_THANDLE_MAGIC → top_th.tt_master_sub_thandle ≠ 0 →
      Outside p top_th w →
      ∃ rs top2 w2, attach_all E ds top_th w = some (rs, top2, w2)
        ∧ top2.tt_magic = TOP_THANDLE_MAGIC ∧ Outside p top2 w2 := by
  intro ds
  induction ds with
  | nil => intro top_th w hmagic _ hout; exact ⟨[], top_th, w, rfl, hmagic, hout⟩
  | cons d ds ih =>
    intro top_th w hmagic hm hout
    obtain ⟨r, top1, w1, h1, hmagic1, hm1, hout1⟩ :=
      attach_outside E top_th d w p hmagic hm hout
    obtain ⟨rs, top2, w2, h2, hmagic2, hout2⟩ := ih top1 w1 hmagic1 hm1 hout1
    exact ⟨r :: rs, top2, w2, by simp [attach_all, h1, h2], hmagic2, hout2⟩

theorem start_codes_append (a b : List Event) :
    start_codes (a ++ b) = start_codes a ++ start_codes b := by
  induction a with
  | nil => rfl
  | cons e a ih => cases e <;> simp [start_codes, ih]

/-- The loop of `top_trans_start` either runs to its end, every start having
returned 0, or returns the first non-zero code, the starts before it having
returned 0. -/
theorem start_subs_codes (E : Env) (th : thandle) :
    ∀ (l : List sub_thandle) (w : World),
      ∃ evs, (top_trans_start_subs E th l w).2.trace = w.trace ++ evs
        ∧ (((top_trans_start_subs E th l w).1 = none ∧ evs.length = l.length
              ∧ start_codes evs = List.replicate l.length 0)
            ∨ ∃ rc k, (top_trans_start_subs E th l w).1 = some rc ∧ rc ≠ 0 ∧ k < l.length
                ∧ start_codes evs = List.replicate k 0 ++ [rc]
                ∧ rc = E.trans_start (w.trace.length + k)) := by
  intro l
  induction l with
  | nil => intro w; exact ⟨[], by simp [top_trans_start_subs], Or.inl ⟨rfl, rfl, rfl⟩⟩
  | cons lst rest ih =>
    intro w
    obtain ⟨hrc, ⟨h, htr⟩, -, -⟩ := start_sub_spec E th lst w
    by_cases h0 : (top_trans_start_sub E th lst w).1 = 0
    · obtain ⟨evs, he, hcases⟩ := ih (top_trans_start_sub E th lst w).2
      have hsub : top_trans_start_subs E th (lst :: rest) w
          = top_trans_start_subs E th rest (top_trans_start_sub E th lst w).2 := by
        simp [top_trans_start_subs, h0]
      have hz : E.trans_start w.trace.length = 0 := by rw [← hrc]; exact h0
      refine ⟨Event.trans_start (w.mem lst.st_sub_th).th_dev lst.st_sub_th h
        (E.trans_start w.trace.length) :: evs, ?_, ?_⟩
      · rw [hsub, he, htr]; simp
      · rw [hsub]
        rcases hcases with ⟨hn, hl, hcodes⟩ | ⟨rc, k, hs, hne, hk, hcodes, hrck⟩
        · refine Or.inl ⟨hn, by simp [hl], ?_⟩
          simp [start_codes, hcodes, hz, List.replicate_succ]
        · refine Or.inr ⟨rc, k + 1, hs, hne, by simp [hk], ?_, ?_⟩
          · simp [start_codes, hcodes, hz, List.replicate_succ]
          · rw [hrck, htr]
            simp only [List.length_append, List.length_singleton]
            congr 1
            omega
    · have hsub : top_trans_start_subs E th (lst :: rest) w
          = (some (top_trans_start_sub E th lst w).1, (top_trans_start_sub E th lst w).2) := by
        simp [top_trans_start_subs, h0]
      refine ⟨[Event.trans_start (w.mem lst.st_sub_th).th_dev lst.st_sub_th h
        (E.trans_start w.trace.length)], ?_, ?_⟩
      · rw [hsub, htr]
      · rw [hsub]
        refine Or.inr ⟨(top_trans_start_sub E th lst w).1, 0, rfl, h0, by simp, ?_, ?_⟩
        · simp [start_codes, hrc]
        · simpa using hrc

/-- One pass of the loop of `top_trans_stop` logs one `dt_trans_stop` call, made
on a handle that carries the flags of the transaction. -/
theorem stop_sub_flags (E : Env) (th : thandle) (lst : sub_thandle) (rc : Int) (w : World) :
    ∃ ev, (top_trans_stop_sub E th lst rc w).2.trace = w.trace ++ [ev]
      ∧ Event.stop_with th.th_sync th.th_local ev := by
  by_cases hrc : rc = 0
  · simp only [top_trans_stop_sub, dt_trans_stop, hrc, ne_eq, not_true_eq_false, if_false]
    refine ⟨_, rfl, ?_⟩
    simp [Event.stop_with, World.store]
  · simp only [top_trans_stop_sub, dt_trans_stop, hrc, ne_eq, not_false_eq_true, if_true]
    refine ⟨_, rfl, ?_⟩
    simp [Event.stop_with, World.store]

/-- Every call logged by the loop of `top_trans_stop` is a `dt_trans_stop` call
on a handle that carries the flags of the transaction. -/
theorem stop_subs_flags (E : Env) (th : thandle) :
    ∀ (l : List sub_thandle) (rc : Int) (w : World),
      ∃ evs, (top_trans_stop_subs E th l rc w).2.trace = w.trace ++ evs
        ∧ evs.length = l.length
        ∧ ∀ ev ∈ evs, Event.stop_with th.th_sync th.th_local ev := by
  intro l
  induction l with
  | nil => intro rc w; exact ⟨[], by simp [top_trans_stop_subs], rfl, by simp⟩
  | cons lst rest ih =>
    intro rc w
    obtain ⟨ev, htr, hev⟩ := stop_sub_flags E th lst rc w
    obtain ⟨evs, he, hl, hall⟩ :=
      ih (top_trans_stop_sub E th lst rc w).1 (top_trans_stop_sub E th lst rc w).2
    refine ⟨ev :: evs, ?_, by simp [hl], ?_⟩
    · simp only [top_trans_stop_subs]
      rw [he, htr]
      simp
    · intro e he'
      rcases List.mem_cons.mp he' with rfl | h
      · exact hev
      · exact hall e h

/-- The calls of `top_trans_stop` before the releases: one `dt_trans_stop` call
per participant, each on a handle that carries the flags of the transaction. -/
theorem top_trans_stop_flags (E : Env) (master_dev : Dev) (top_th : top_thandle) (w : World)
    (hmagic : top_th.tt_magic = TOP_THANDLE_MAGIC) :
    ∃ rc w' evs, top_trans_stop E master_dev top_th w = some (rc, w')
      ∧ w'.since w = evs ++ destroy_events top_th
      ∧ evs.length = top_th.tt_sub_thandle_list.length + 1
      ∧ ∀ ev ∈ evs, Event.stop_with top_th.tt_super.th_sync top_th.tt_super.th_local ev := by
  obtain ⟨w', h1, h2⟩ := top_trans_stop_since E master_dev top_th w hmagic
  obtain ⟨-, ⟨h, hm, hs, hl⟩, -, -⟩ := stop_master_spec E master_dev top_th w
  obtain ⟨evs, he, hlen, hall⟩ :=
    stop_subs_flags E top_th.tt_super top_th.tt_sub_thandle_list
      (top_trans_stop_master E master_dev top_th w).1
      (top_trans_stop_master E master_dev top_th w).2
  refine ⟨_, w', Event.trans_stop master_dev top_th.tt_master_sub_thandle h
    (E.trans_stop w.trace.length) :: evs, h1, ?_, by simp [hlen], ?_⟩
  · rw [h2, since_append _ _ _ hm, since_append _ _ _ he]
    simp [destroy_events]
  · intro ev hev
    rcases List.mem_cons.mp hev with rfl | h'
    · exact ⟨hs, hl⟩
    · exact hall ev h'

/-- When the allocator and the backend's create succeed, an attach call returns
a handle. -/
theorem attach_ok (E : Env) (top_th : top_thandle) (d : Dev) (w : World)
    (hmagic : top_th.tt_magic = TOP_THANDLE_MAGIC) (hm : top_th.tt_master_sub_thandle ≠ 0)
    (halloc : ∀ n, E.alloc_ok n = true)
    (hcr : ∀ n d, ∃ h, E.trans_create n d = Except.ok h) :
    ∃ p top1 w1, thandle_get_sub_by_dt E top_th d w = some (ErrPtr.ptr p, top1, w1)
      ∧ top1.tt_magic = TOP_THANDLE_MAGIC ∧ top1.tt_master_sub_thandle ≠ 0 := by
  by_cases hd : d = (w.mem top_th.tt_master_sub_thandle).th_dev
  · exact ⟨_, _, _, attach_master E top_th d w hmagic hm hd, hmagic, hm⟩
  cases hf : top_th.tt_sub_thandle_list.find? (fun lst => (w.mem lst.st_sub_th).th_dev = d) with
  | some lst => exact ⟨_, _, _, attach_found E top_th d w lst hmagic hm hd hf, hmagic, hm⟩
  | none =>
    obtain ⟨h, hc⟩ := hcr w.trace.length d
    exact ⟨_, _, _, attach_new E top_th d w h hmagic hm hd hf hc (halloc _), hmagic, hm⟩

/-- When the allocator and the backend's create succeed, every attach call of a
sequence returns a handle. -/
theorem attach_all_ok (E : Env) (halloc : ∀ n, E.alloc_ok n = true)
    (hcr : ∀ n d, ∃ h, E.trans_create n d = Except.ok h) :
    ∀ (ds : List Dev) (top_th : top_thandle) (w : World),
      top_th.tt_magic = TOP_THANDLE_MAGIC → top_th.tt_master_sub_thandle ≠ 0 →
      ∃ rs top2 w2, attach_all E ds top_th w = some (rs, top2, w2)
        ∧ ∀ r ∈ rs, ∃ p, r = ErrPtr.ptr p := by
  intro ds
  induction ds with
  | nil => intro top_th w _ _; exact ⟨[], top_th, w, rfl, by simp⟩
  | cons d ds ih =>
    intro top_th w hmagic hm
    obtain ⟨p, top1, w1, h1, hmagic1, hm1⟩ := attach_ok E top_th d w hmagic hm halloc hcr
    obtain ⟨rs, top2, w2, h2, hall⟩ := ih top1 w1 hmagic1 hm1
    refine ⟨ErrPtr.ptr p :: rs, top2, w2, by simp [attach_all, h1, h2], ?_⟩
    intro r hr
    rcases List.mem_cons.mp hr with rfl | h
    · exact ⟨p, rfl⟩
    · exact hall r h

/-- A log made only of start calls on handles that carry the flags `s` and `l`
is determined by its calls. -/
theorem start_flags_of_start_with (s l : Bool) :
    ∀ (evs : List Event), (∀ ev ∈ evs, Event.start_with s l ev) →
      start_flags evs = (start_calls evs).map (fun c => (c.1, c.2, s, l)) := by
  intro evs
  induction evs with
  | nil => intro _; rfl
  | cons e es ih =>
    intro hall
    have he := hall e (List.mem_cons_self _ _)
    have hes := ih (fun ev hev => hall ev (List.mem_cons_of_mem _ hev))
    cases e with
    | trans_start d p h c =>
      simp only [Event.start_with] at he
      simp [start_flags, start_calls, hes, he.1, he.2]
    | _ => simp [Event.start_with] at he

/-- The calls of `top_trans_start`: it starts the participants in order up to
and including the first whose start does not return 0, all of them when every
registry start returns 0, each on a handle that carries the flags of the
transaction. -/
theorem top_trans_start_calls (E : Env) (master_dev : Dev) (top_th : top_thandle) (w : World)
    (hmagic : top_th.tt_magic = TOP_THANDLE_MAGIC) :
    ∃ rc w' k, top_trans_start E master_dev top_th w = some (rc, w')
      ∧ k ≤ top_th.tt_sub_thandle_list.length
      ∧ ((∀ i, i < top_th.tt_sub_thandle_list.length →
            E.trans_start (w.trace.length + i) = 0) → k = top_th.tt_sub_thandle_list.length)
      ∧ (w'.since w).length = k + 1
      ∧ (∀ ev ∈ w'.since w,
          Event.start_with top_th.tt_super.th_sync top_th.tt_super.th_local ev)
      ∧ start_calls (w'.since w) = (top_th.participants master_dev w).take (k + 1) := by
  obtain ⟨rc, w', h1, hflags⟩ := top_trans_start_flags E master_dev top_th w hmagic
  by_cases hok : ∀ i, i < top_th.tt_sub_thandle_list.length →
      E.trans_start (w.trace.length + i) = 0
  · obtain ⟨w'', h2, hlen, hcalls, -⟩ :=
      top_trans_start_ok_spec E master_dev top_th w hmagic hok
    rw [h1] at h2
    simp only [Option.some.injEq, Prod.mk.injEq] at h2
    obtain ⟨-, rfl⟩ := h2
    refine ⟨rc, w', top_th.tt_sub_thandle_list.length, h1, Nat.le_refl _, fun _ => rfl, hlen,
      hflags, ?_⟩
    rw [hcalls, top_thandle.participants, List.take_of_length_le]
    simp
  · have hex : ∃ i, i < top_th.tt_sub_thandle_list.length
        ∧ E.trans_start (w.trace.length + i) ≠ 0 := by
      by_contra hne
      apply hok
      intro i hi
      by_contra h0
      exact hne ⟨i, hi, h0⟩
    obtain ⟨hk, hne⟩ := Nat.find_spec hex
    have h0 : ∀ i, i < Nat.find hex → E.trans_start (w.trace.length + i) = 0 := by
      intro i hi
      by_contra hc
      exact Nat.find_min hex hi ⟨Nat.lt_trans hi hk, hc⟩
    obtain ⟨w'', h2, hlen, hcalls⟩ :=
      top_trans_start_fail_spec E master_dev top_th w (Nat.find hex) hmagic hk h0 hne
    rw [h1] at h2
    simp only [Option.some.injEq, Prod.mk.injEq] at h2
    obtain ⟨-, rfl⟩ := h2
    refine ⟨rc, w', Nat.find hex, h1, Nat.le_of_lt hk, fun h => absurd h hok, hlen, hflags, ?_⟩
    rw [hcalls, top_thandle.participants, List.take_append_of_le_length, List.map_take]
    simp only [List.length_map]
    exact hk

/-! ## The claims -/

/-- C1: for every top transaction (any registry, any codes returned by the
backend), `top_trans_stop` returns, its first `dt_trans_stop` call is on the
master sub-transaction with `master_dev`, and the remaining stop calls are
those on the registry sub-transactions, in iteration order, all after it. -/
theorem top_trans_stop_master_first (E : Env) (master_dev : Dev) (top_th : top_thandle)
    (w : World) (hmagic : top_th.tt_magic = TOP_THANDLE_MAGIC) :
    ∃ rc w', top_trans_stop E master_dev top_th w = some (rc, w')
      ∧ stop_calls (w'.since w)
        = (master_dev, top_th.tt_master_sub_thandle)
            :: top_th.tt_sub_thandle_list.map
                (fun lst => ((w.mem lst.st_sub_th).th_dev, lst.st_sub_th)) := by
  obtain ⟨w', h1, h2⟩ := top_trans_stop_spec E master_dev top_th w hmagic
  exact ⟨_, w', h1, h2⟩

/-- Master device 3 with devices 1 and 2 attached, every stop returning 0. -/
theorem top_trans_stop_master_first_witness :
    demo_top.tt_magic = TOP_THANDLE_MAGIC
      ∧ ∃ rc w', top_trans_stop (Env.ok (fun _ => 0) (fun _ => 0)) 3 demo_top demo_world
          = some (rc, w')
        ∧ stop_calls (w'.since demo_world)
          = (3, demo_top.tt_master_sub_thandle)
              :: demo_top.tt_sub_thandle_list.map
                  (fun lst => ((demo_world.mem lst.st_sub_th).th_dev, lst.st_sub_th)) :=
  ⟨rfl,
    top_trans_stop_master_first (Env.ok (fun _ => 0) (fun _ => 0)) 3 demo_top demo_world rfl⟩

/-- C2: when the start of every registry sub-transaction returns 0,
`top_trans_start` issues exactly one `dt_trans_start` per registry entry, in
iteration order, then exactly one on the master, which is the last call, and
returns what that call returned; nothing else is logged. -/
theorem top_trans_start_master_last (E : Env) (master_dev : Dev) (top_th : top_thandle)
    (w : World) (hmagic : top_th.tt_magic = TOP_THANDLE_MAGIC)
    (hok : ∀ i, i < top_th.tt_sub_thandle_list.length →
      E.trans_start (w.trace.length + i) = 0) :
    ∃ rc w', top_trans_start E master_dev top_th w = some (rc, w')
      ∧ (w'.since w).length = top_th.tt_sub_thandle_list.length + 1
      ∧ start_calls (w'.since w)
        = top_th.tt_sub_thandle_list.map
            (fun lst => ((w.mem lst.st_sub_th).th_dev, lst.st_sub_th))
          ++ [(master_dev, top_th.tt_master_sub_thandle)] := by
  obtain ⟨w', h1, h2, h3, -⟩ := top_trans_start_ok_spec E master_dev top_th w hmagic hok
  exact ⟨_, w', h1, h2, h3⟩

/-- Master device 3 with devices 1 and 2 attached, every start returning 0. -/
theorem top_trans_start_master_last_witness :
    demo_top.tt_magic = TOP_THANDLE_MAGIC
      ∧ (∀ i, i < demo_top.tt_sub_thandle_list.length →
          (Env.ok (fun _ => 0) (fun _ => 0)).trans_start (demo_world.trace.length + i) = 0)
      ∧ ∃ rc w', top_trans_start (Env.ok (fun _ => 0) (fun _ => 0)) 3 demo_top demo_world
          = some (rc, w')
        ∧ (w'.since demo_world).length = demo_top.tt_sub_thandle_list.length + 1
        ∧ start_calls (w'.since demo_world)
          = demo_top.tt_sub_thandle_list.map
              (fun lst => ((demo_world.mem lst.st_sub_th).th_dev, lst.st_sub_th))
            ++ [(3, demo_top.tt_master_sub_thandle)] :=
  ⟨rfl, fun _ _ => rfl,
    top_trans_start_master_last (Env.ok (fun _ => 0) (fun _ => 0)) 3 demo_top demo_world rfl
      (fun _ _ => rfl)⟩

/-- C3 as stated fails: the backend binds every handle it creates to device 9.
The transaction is created on master device 3 and the two distinct non-master
devices 1 and 9 are attached, both calls returning a handle; the registry has
one entry, and `top_trans_stop` makes 2 `dt_trans_stop` calls, not 3. -/
theorem top_trans_stop_not_once_each :
    3 ∉ [1, 9] ∧ [1, 9].Nodup
      ∧ (create_and_attach (Env.fixed_dev 9) 3 [1, 9]).map
          (fun r => (r.1, r.2.1.tt_sub_thandle_list.length))
        = some ([ErrPtr.ptr 3, ErrPtr.ptr 2], 1)
      ∧ (create_and_attach (Env.fixed_dev 9) 3 [1, 9]).bind
          (fun r => (top_trans_stop (Env.fixed_dev 9) 3 r.2.1 r.2.2).map
            (fun s => stop_calls (s.2.since r.2.2)))
        = some [(3, 2), (9, 3)] := by
  refine ⟨by decide, by decide, by decide, by decide⟩

/-- C3, as amended: the backend creates handles of the device it is asked for.
For a transaction built by `top_trans_create` followed by any sequence of
attach calls naming devices other than the master's, repeats allowed, and for
every assignment of stop codes, `top_trans_stop` returns and its
`dt_trans_stop` calls are one for the master followed by one for each registry
entry; no device is stopped twice, every stopped device is the master's or was
named, and every device whose attach returned a handle is stopped.  When the
allocator and the backend's create never fail, every attach call returns a
handle and the devices stopped are exactly the master's and the devices named,
once each: `N + 1` calls for `N` distinct devices. -/
theorem top_trans_stop_once_each (E : Env)
    (hdev : ∀ n d h, E.trans_create n d = Except.ok h → h.th_dev = d)
    (master_dev : Dev) (ds : List Dev) (w0 : World) (top_th : top_thandle) (w1 : World)
    (hcreate : top_trans_create E master_dev w0 = (Except.ok top_th, w1))
    (hnm : master_dev ∉ ds) :
    ∃ rs top2 w2 rc w3, attach_all E ds top_th w1 = some (rs, top2, w2)
      ∧ top_trans_stop E master_dev top2 w2 = some (rc, w3)
      ∧ stop_calls (w3.since w2)
          = (master_dev, top_th.tt_master_sub_thandle)
              :: top2.tt_sub_thandle_list.map
                  (fun lst => ((w2.mem lst.st_sub_th).th_dev, lst.st_sub_th))
      ∧ ((stop_calls (w3.since w2)).map Prod.fst).Nodup
      ∧ (∀ d ∈ (stop_calls (w3.since w2)).map Prod.fst, d = master_dev ∨ d ∈ ds)
      ∧ (∀ d ∈ attached ds rs, d ∈ (stop_calls (w3.since w2)).map Prod.fst)
      ∧ ((∀ r ∈ rs, ∃ p, r = ErrPtr.ptr p) →
          (∀ d, d ∈ (stop_calls (w3.since w2)).map Prod.fst ↔ d = master_dev ∨ d ∈ ds)
            ∧ (stop_calls (w3.since w2)).length = ds.dedup.length + 1)
      ∧ ((∀ n, E.alloc_ok n = true) → (∀ n d, ∃ h, E.trans_create n d = Except.ok h) →
          (∀ r ∈ rs, ∃ p, r = ErrPtr.ptr p)
            ∧ (∀ d,
                d ∈ (stop_calls (w3.since w2)).map Prod.fst ↔ d = master_dev ∨ d ∈ ds)
            ∧ (stop_calls (w3.since w2)).length = ds.dedup.length + 1) := by
  obtain ⟨hwf, hnil, -, h, hh, hmd⟩ := create_spec E master_dev w0 top_th w1 hcreate
  have hmdev : (w1.mem top_th.tt_master_sub_thandle).th_dev = master_dev := by
    rw [hmd]; exact hdev _ _ _ hh
  have hempty : top_th.sub_devs w1 = [] := by simp [top_thandle.sub_devs, hnil]
  obtain ⟨rs, top2, w2, h1, h2, h3, h4, h5, h6, -, h8⟩ :=
    attach_all_any E hdev ds top_th w1 hwf (by rw [hempty]; exact List.nodup_nil)
      (by rw [hmdev]; exact hnm)
  obtain ⟨w3, s1, s2⟩ := top_trans_stop_spec E master_dev top2 w2 h3.magic
  have hsub : ∀ d ∈ top2.sub_devs w2, d ∈ ds := by
    intro d hd
    rcases h6 d hd with h | h
    · rw [hempty] at h; cases h
    · exact h
  have hfst : (stop_calls (w3.since w2)).map Prod.fst = master_dev :: top2.sub_devs w2 := by
    rw [s2, List.map_cons, stop_calls_fst]
  have hfull : (∀ r ∈ rs, ∃ p, r = ErrPtr.ptr p) →
      (∀ d, d ∈ (stop_calls (w3.since w2)).map Prod.fst ↔ d = master_dev ∨ d ∈ ds)
        ∧ (stop_calls (w3.since w2)).length = ds.dedup.length + 1 := by
    intro hall
    have hiff : ∀ d, d ∈ top2.sub_devs w2 ↔ d ∈ ds := by
      intro d
      refine ⟨hsub d, fun hd => h8 d ?_⟩
      rw [attached_all_ptr ds rs h2 hall]
      exact hd
    refine ⟨fun d => by rw [hfst, List.mem_cons, hiff d], ?_⟩
    have hperm : List.Perm (top2.sub_devs w2) ds.dedup :=
      (List.perm_ext_iff_of_nodup h5 (List.nodup_dedup ds)).mpr
        (fun d => by rw [hiff d, List.mem_dedup])
    have hlen := congrArg List.length hfst
    simp only [List.length_map, List.length_cons] at hlen
    rw [hlen, hperm.length_eq]
  refine ⟨rs, top2, w2, _, w3, h1, s1, by rw [s2, h4], ?_, ?_, ?_, hfull, ?_⟩
  · rw [hfst]
    exact List.nodup_cons.mpr ⟨fun hin => hnm (hsub _ hin), h5⟩
  · intro d hd
    rw [hfst, List.mem_cons] at hd
    exact hd.imp id (hsub d)
  · intro d hd
    rw [hfst]
    exact List.mem_cons_of_mem _ (h8 d hd)
  · intro halloc hcr
    obtain ⟨rs', top2', w2', h1', hall⟩ :=
      attach_all_ok E halloc hcr ds top_th w1 hwf.magic hwf.master_ne
    rw [h1] at h1'
    simp only [Option.some.injEq, Prod.mk.injEq] at h1'
    obtain ⟨rfl, -, -⟩ := h1'
    exact ⟨hall, hfull hall⟩

/-- Master device 3 with the attach calls 1, 2, 1, nothing failing: the three
calls return the handles at 3, 5 and 3, and the stop calls are the master's
then those of devices 2 and 1. -/
theorem top_trans_stop_once_each_witness :
    (∀ n d h, (Env.ok (fun _ => 0) (fun _ => 0)).trans_create n d = Except.ok h → h.th_dev = d)
      ∧ top_trans_create (Env.ok (fun _ => 0) (fun _ => 0)) 3 World.init
          = (Except.ok demo_top0, demo_world0)
      ∧ 3 ∉ [1, 2, 1]
      ∧ (∀ n, (Env.ok (fun _ => 0) (fun _ => 0)).alloc_ok n = true)
      ∧ (∀ n d, ∃ h, (Env.ok (fun _ => 0) (fun _ => 0)).trans_create n d = Except.ok h)
      ∧ attach_all (Env.ok (fun _ => 0) (fun _ => 0)) [1, 2, 1] demo_top0 demo_world0
          = some ([ErrPtr.ptr 3, ErrPtr.ptr 5, ErrPtr.ptr 3], demo_top, demo_world)
      ∧ ∃ rc w3, top_trans_stop (Env.ok (fun _ => 0) (fun _ => 0)) 3 demo_top demo_world
            = some (rc, w3)
        ∧ stop_calls (w3.since demo_world) = [(3, 2), (2, 5), (1, 3)]
        ∧ ((stop_calls (w3.since demo_world)).map Prod.fst).Nodup
        ∧ (∀ d,
            d ∈ (stop_calls (w3.since demo_world)).map Prod.fst ↔ d = 3 ∨ d ∈ [1, 2, 1])
        ∧ (stop_calls (w3.since demo_world)).length = [1, 2, 1].dedup.length + 1 := by
  have hat : attach_all (Env.ok (fun _ => 0) (fun _ => 0)) [1, 2, 1] demo_top0 demo_world0
      = some ([ErrPtr.ptr 3, ErrPtr.ptr 5, ErrPtr.ptr 3], demo_top, demo_world) := rfl
  obtain ⟨rs, top2, w2, rc, w3, h1, h2, h3, h4, -, -, -, h8⟩ :=
    top_trans_stop_once_each (Env.ok (fun _ => 0) (fun _ => 0)) (env_ok_dev _ _) 3 [1, 2, 1]
      World.init demo_top0 demo_world0 rfl (by decide)
  rw [hat] at h1
  simp only [Option.some.injEq, Prod.mk.injEq] at h1
  obtain ⟨rfl, rfl, rfl⟩ := h1
  obtain ⟨-, h9, h10⟩ := h8 (fun _ => rfl) (fun _ d => ⟨_, rfl⟩)
  exact ⟨env_ok_dev _ _, rfl, by decide, fun _ => rfl, fun _ d => ⟨_, rfl⟩, hat, rc, w3, h2,
    h3, h4, h9, h10⟩

/-- C4 as stated fails: with the master's stop returning 0, the first registry
sub-transaction's stop returning 5 and the second's returning 0, the first
non-zero code of the sequence is 5 but `top_trans_stop` returns 0. -/
theorem top_trans_stop_not_first_nonzero :
    (Env.ok (fun _ => 0) (fun n => if n = 7 then 5 else 0)).stop_codes
        demo_world.trace.length (demo_top.tt_sub_thandle_list.length + 1) = [0, 5, 0]
      ∧ first_nonzero [0, 5, 0] = 5
      ∧ (top_trans_stop (Env.ok (fun _ => 0) (fun n => if n = 7 then 5 else 0)) 3
          demo_top demo_world).map Prod.fst = some 0
      ∧ (top_trans_stop (Env.ok (fun _ => 0) (fun n => if n = 7 then 5 else 0)) 3
          demo_top demo_world).map Prod.fst
        ≠ some (first_nonzero
            ((Env.ok (fun _ => 0) (fun n => if n = 7 then 5 else 0)).stop_codes
              demo_world.trace.length (demo_top.tt_sub_thandle_list.length + 1))) := by
  refine ⟨rfl, by decide, by decide, by decide⟩

/-- C4, as amended: for every top transaction and every assignment of codes to
the stop calls, `top_trans_stop` returns the master's code when that is not 0,
otherwise the first negative code among the registry sub-transactions in
iteration order, otherwise 0 (a positive code of a registry sub-transaction is
not kept). -/
theorem top_trans_stop_result (E : Env) (master_dev : Dev) (top_th : top_thandle)
    (w : World) (hmagic : top_th.tt_magic = TOP_THANDLE_MAGIC) :
    ∃ w', top_trans_stop E master_dev top_th w
      = some (first_error
          (E.stop_codes w.trace.length (top_th.tt_sub_thandle_list.length + 1)), w') := by
  obtain ⟨w', h1, -⟩ := top_trans_stop_spec E master_dev top_th w hmagic
  exact ⟨w', by rw [h1, keep_first_first_error]; rfl⟩

/-- Master device 3 with devices 1 and 2 attached; the stops return -7, 5 and -7. -/
theorem top_trans_stop_result_witness :
    demo_top.tt_magic = TOP_THANDLE_MAGIC
      ∧ ∃ w', top_trans_stop (Env.ok (fun _ => 0) (fun n => if n = 7 then 5 else -7)) 3
            demo_top demo_world
        = some (first_error
            ((Env.ok (fun _ => 0) (fun n => if n = 7 then 5 else -7)).stop_codes
              demo_world.trace.length (demo_top.tt_sub_thandle_list.length + 1)), w') :=
  ⟨rfl, top_trans_stop_result (Env.ok (fun _ => 0) (fun n => if n = 7 then 5 else -7)) 3
    demo_top demo_world rfl⟩

/-- C5: if the master's stop returns a non-zero code `A`, `top_trans_stop`
returns `A`, whatever the stops of the registry sub-transactions return. -/
theorem top_trans_stop_master_error (E : Env) (master_dev : Dev) (top_th : top_thandle)
    (w : World) (A : Int) (hmagic : top_th.tt_magic = TOP_THANDLE_MAGIC)
    (hA : E.trans_stop w.trace.length = A) (hne : A ≠ 0) :
    ∃ w', top_trans_stop E master_dev top_th w = some (A, w') := by
  obtain ⟨w', h1, -⟩ := top_trans_stop_spec E master_dev top_th w hmagic
  refine ⟨w', ?_⟩
  rw [h1, keep_first_eq, hA, if_pos hne]

/-- Master device 3 with devices 1 and 2 attached; the master's stop returns -2 and
the others -5. -/
theorem top_trans_stop_master_error_witness :
    demo_top.tt_magic = TOP_THANDLE_MAGIC
      ∧ (Env.ok (fun _ => 0) (fun n => if n = 6 then -2 else -5)).trans_stop
          demo_world.trace.length = -2
      ∧ (-2 : Int) ≠ 0
      ∧ ∃ w', top_trans_stop (Env.ok (fun _ => 0) (fun n => if n = 6 then -2 else -5)) 3
          demo_top demo_world = some (-2, w') :=
  ⟨rfl, rfl, by decide,
    top_trans_stop_master_error (Env.ok (fun _ => 0) (fun n => if n = 6 then -2 else -5)) 3
      demo_top demo_world (-2) rfl rfl (by decide)⟩

/-- C6: if the master's stop returns 0 and the stop of registry entry number
`k + 1` in iteration order is the first to return a negative code,
`top_trans_stop` returns that code; in particular, with two registry entries,
one of whose stops returns -5 while the other's and the master's return 0, it
returns -5. -/
theorem top_trans_stop_first_sub_error (E : Env) (master_dev : Dev) (top_th : top_thandle)
    (w : World) (hmagic : top_th.tt_magic = TOP_THANDLE_MAGIC)
    (hm : E.trans_stop w.trace.length = 0) :
    (∀ k, k < top_th.tt_sub_thandle_list.length →
        (∀ i, i < k → ¬ E.trans_stop (w.trace.length + 1 + i) < 0) →
        E.trans_stop (w.trace.length + 1 + k) < 0 →
        ∃ w', top_trans_stop E master_dev top_th w
          = some (E.trans_stop (w.trace.length + 1 + k), w'))
      ∧ (top_th.tt_sub_thandle_list.length = 2 →
          (E.trans_stop (w.trace.length + 1) = -5 ∧ E.trans_stop (w.trace.length + 2) = 0
            ∨ E.trans_stop (w.trace.length + 1) = 0
              ∧ E.trans_stop (w.trace.length + 2) = -5) →
          ∃ w', top_trans_stop E master_dev top_th w = some (-5, w')) := by
  obtain ⟨w', h1, -⟩ := top_trans_stop_spec E master_dev top_th w hmagic
  have key : ∀ k, k < top_th.tt_sub_thandle_list.length →
      (∀ i, i < k → ¬ E.trans_stop (w.trace.length + 1 + i) < 0) →
      E.trans_stop (w.trace.length + 1 + k) < 0 →
      ∃ w', top_trans_stop E master_dev top_th w
        = some (E.trans_stop (w.trace.length + 1 + k), w') := by
    intro k hk h0 hneg
    refine ⟨w', ?_⟩
    rw [h1, keep_first_eq, hm, stop_codes_find E _ k _ hk h0 hneg]
    simp
  refine ⟨key, ?_⟩
  intro h2 hcodes
  rcases hcodes with ⟨ha, -⟩ | ⟨hb, ha⟩
  · have := key 0 (by omega) (fun i hi => by omega) (by rw [Nat.add_zero, ha]; decide)
    rwa [Nat.add_zero, ha] at this
  · have := key 1 (by omega)
      (fun i hi => by
        have hi0 : i = 0 := by omega
        rw [hi0, Nat.add_zero, hb]; decide)
      (by rw [ha]; decide)
    rwa [ha] at this

/-- Master device 3 with device 1 attached, then device 2; the stop of device 1
returns -5, the stops of device 2 and of the master return 0, and the result
is -5. -/
theorem top_trans_stop_first_sub_error_witness :
    demo_top.tt_magic = TOP_THANDLE_MAGIC
      ∧ (Env.ok (fun _ => 0) (fun n => if n = 8 then -5 else 0)).trans_stop
          demo_world.trace.length = 0
      ∧ 1 < demo_top.tt_sub_thandle_list.length
      ∧ (∀ i, i < 1 → ¬ (Env.ok (fun _ => 0) (fun n => if n = 8 then -5 else 0)).trans_stop
          (demo_world.trace.length + 1 + i) < 0)
      ∧ (Env.ok (fun _ => 0) (fun n => if n = 8 then -5 else 0)).trans_stop
          (demo_world.trace.length + 1 + 1) < 0
      ∧ ∃ w', top_trans_stop (Env.ok (fun _ => 0) (fun n => if n = 8 then -5 else 0)) 3
          demo_top demo_world = some (-5, w') :=
  ⟨rfl, rfl, by decide, by decide, by decide,
    (top_trans_stop_first_sub_error (Env.ok (fun _ => 0) (fun n => if n = 8 then -5 else 0)) 3
      demo_top demo_world rfl rfl).1 1 (by decide) (by decide) (by decide)⟩

/-- C7 as stated fails: with master device 3 and devices 1 then 2 attached,
`top_trans_start` calls the backend on devices 2, 1, 3 (not 1, 2, 3) and
`top_trans_stop` on devices 3, 2, 1 (not 3, 1, 2). -/
theorem start_stop_order_not_insertion :
    create_and_attach (Env.ok (fun _ => 0) (fun _ => 0)) 3 [1, 2]
        = some ([ErrPtr.ptr 3, ErrPtr.ptr 5], demo_top, demo_world)
      ∧ (top_trans_start (Env.ok (fun _ => 0) (fun _ => 0)) 3 demo_top demo_world).map
          (fun r => (start_calls (r.2.since demo_world)).map Prod.fst) = some [2, 1, 3]
      ∧ ((top_trans_start (Env.ok (fun _ => 0) (fun _ => 0)) 3 demo_top demo_world).bind
          (fun r => (top_trans_stop (Env.ok (fun _ => 0) (fun _ => 0)) 3 demo_top r.2).map
            (fun r' => (stop_calls (r'.2.since r.2)).map Prod.fst))) = some [3, 2, 1]
      ∧ (top_trans_start (Env.ok (fun _ => 0) (fun _ => 0)) 3 demo_top demo_world).map
          (fun r => (start_calls (r.2.since demo_world)).map Prod.fst) ≠ some [1, 2, 3]
      ∧ ((top_trans_start (Env.ok (fun _ => 0) (fun _ => 0)) 3 demo_top demo_world).bind
          (fun r => (top_trans_stop (Env.ok (fun _ => 0) (fun _ => 0)) 3 demo_top r.2).map
            (fun r' => (stop_calls (r'.2.since r.2)).map Prod.fst))) ≠ some [3, 1, 2] := by
  refine ⟨rfl, by decide, by decide, by decide, by decide⟩

/-- C7, as amended: after `top_trans_create` and successful attaches of distinct
non-master devices `d_1, ..., d_n` in that order (the backend creating handles
of the requested device), the registry is iterated most recently attached
first: `top_trans_start`, all starts succeeding, calls the backend on
`d_n, ..., d_1`, master, and `top_trans_stop` then calls it on master,
`d_n, ..., d_1`. -/
theorem start_stop_order (E : Env)
    (hdev : ∀ n d h, E.trans_create n d = Except.ok h → h.th_dev = d)
    (master_dev : Dev) (ds : List Dev) (w0 : World) (top_th : top_thandle) (w1 : World)
    (rs : List ErrPtr) (top2 : top_thandle) (w2 : World)
    (hcreate : top_trans_create E master_dev w0 = (Except.ok top_th, w1))
    (hnd : ds.Nodup) (hnm : master_dev ∉ ds)
    (hatt : attach_all E ds top_th w1 = some (rs, top2, w2))
    (hall : ∀ r ∈ rs, ∃ p, r = ErrPtr.ptr p)
    (hstart : ∀ i, i < ds.length → E.trans_start (w2.trace.length + i) = 0) :
    ∃ rc w3 rc' w4, top_trans_start E master_dev top2 w2 = some (rc, w3)
      ∧ (start_calls (w3.since w2)).map Prod.fst = ds.reverse ++ [master_dev]
      ∧ top_trans_stop E master_dev top2 w3 = some (rc', w4)
      ∧ (stop_calls (w4.since w3)).map Prod.fst = master_dev :: ds.reverse := by
  obtain ⟨rs', top2', w2', h1, h2, h3, -, h5, -⟩ :=
    create_attach_spec E hdev master_dev ds w0 top_th w1 hcreate hnd hnm
  rw [hatt] at h1
  simp only [Option.some.injEq, Prod.mk.injEq] at h1
  obtain ⟨rfl, rfl, rfl⟩ := h1
  rw [attached_all_ptr ds rs h2 hall] at h5
  have hlen : top2.tt_sub_thandle_list.length = ds.length := by
    have := congrArg List.length h5
    simpa [top_thandle.sub_devs] using this
  obtain ⟨w3, s1, -, s3, s4⟩ := top_trans_start_ok_spec E master_dev top2 w2 h3.magic
    (by rw [hlen]; exact hstart)
  obtain ⟨w4, t1, t2⟩ := top_trans_stop_spec E master_dev top2 w3 h3.magic
  have hsame : top2.sub_devs w3 = top2.sub_devs w2 := by
    simp [top_thandle.sub_devs, s4]
  refine ⟨_, w3, _, w4, s1, ?_, t1, ?_⟩
  · rw [s3, List.map_append, stop_calls_fst, h5]; rfl
  · rw [t2, List.map_cons, stop_calls_fst, hsame, h5]

/-- Master device 3 with device 1 attached, then device 2: started as 2, 1, 3 and
stopped as 3, 2, 1. -/
theorem start_stop_order_witness :
    (∀ n d h, (Env.ok (fun _ => 0) (fun _ => 0)).trans_create n d = Except.ok h → h.th_dev = d)
      ∧ top_trans_create (Env.ok (fun _ => 0) (fun _ => 0)) 3 World.init
          = (Except.ok demo_top0, demo_world0)
      ∧ [1, 2].Nodup ∧ 3 ∉ [1, 2]
      ∧ attach_all (Env.ok (fun _ => 0) (fun _ => 0)) [1, 2] demo_top0 demo_world0
          = some ([ErrPtr.ptr 3, ErrPtr.ptr 5], demo_top, demo_world)
      ∧ ∃ rc w3 rc' w4,
          top_trans_start (Env.ok (fun _ => 0) (fun _ => 0)) 3 demo_top demo_world = some (rc, w3)
        ∧ (start_calls (w3.since demo_world)).map Prod.fst = [1, 2].reverse ++ [3]
        ∧ top_trans_stop (Env.ok (fun _ => 0) (fun _ => 0)) 3 demo_top w3 = some (rc', w4)
        ∧ (stop_calls (w4.since w3)).map Prod.fst = 3 :: [1, 2].reverse :=
  ⟨env_ok_dev _ _, rfl, by decide, by decide, rfl,
    start_stop_order (Env.ok (fun _ => 0) (fun _ => 0)) (env_ok_dev _ _) 3 [1, 2]
      World.init demo_top0 demo_world0 [ErrPtr.ptr 3, ErrPtr.ptr 5] demo_top demo_world
      rfl (by decide) (by decide) rfl
      (by
        intro r hr
        simp only [List.mem_cons, List.mem_singleton, List.not_mem_nil, or_false] at hr
        rcases hr with rfl | rfl
        · exact ⟨3, rfl⟩
        · exact ⟨5, rfl⟩)
      (fun _ _ => rfl)⟩

/-- C8 as stated fails: the backend's create succeeds, returning a handle of
device 1, but the allocation of the registry entry fails in the first call.
The first call returns `ERR_PTR(-ENOMEM)`; the second call makes another
`dt_trans_create` call (two in total for device 1), returns a handle, and adds
an entry to the registry, which was empty. -/
theorem attach_twice_alloc_failure :
    top_trans_create (Env.alloc_fail 3) 3 World.init = (Except.ok demo_top0, demo_world0)
      ∧ (Env.alloc_fail 3).trans_create 2 1 = Except.ok { thandle_zero with th_dev := 1 }
      ∧ (thandle_get_sub_by_dt (Env.alloc_fail 3) demo_top0 1 demo_world0).map
          (fun r => (r.1, r.2.1.tt_sub_thandle_list)) = some (ErrPtr.err (-ENOMEM), [])
      ∧ ((thandle_get_sub_by_dt (Env.alloc_fail 3) demo_top0 1 demo_world0).bind
          (fun r => (thandle_get_sub_by_dt (Env.alloc_fail 3) r.2.1 1 r.2.2).map
            (fun r' => (r'.1, r'.2.1.tt_sub_thandle_list,
              create_count (r'.2.2.since r.2.2), create_count (r'.2.2.since demo_world0)))))
          = some (ErrPtr.ptr 4, [{ st_self := 5, st_sub_th := 4 }], 1, 2) := by
  refine ⟨rfl, rfl, by decide, by decide⟩

/-- C8, as amended: if a call `thandle_get_sub_by_dt(th, d)` returns a handle
(so that, when it had to create one, both the backend's create and the
allocation of the registry entry succeeded) and that handle's device is `d`,
then a second call returns the same handle and changes nothing: no
`dt_trans_create` call, same registry, same sync flag.  The two calls together
make at most one `dt_trans_create` call, and exactly one when `d` was neither
the master's device nor in the registry. -/
theorem attach_twice_same (E : Env) (top_th : top_thandle) (d : Dev) (w : World) (p : Nat)
    (top1 : top_thandle) (w1 : World)
    (h1 : thandle_get_sub_by_dt E top_th d w = some (ErrPtr.ptr p, top1, w1))
    (hp : (w1.mem p).th_dev = d) :
    thandle_get_sub_by_dt E top1 d w1 = some (ErrPtr.ptr p, top1, w1)
      ∧ create_count (w1.since w) ≤ 1
      ∧ (d ≠ (w.mem top_th.tt_master_sub_thandle).th_dev → d ∉ top_th.sub_devs w →
          create_count (w1.since w) = 1) := by
  have hmagic : top_th.tt_magic = TOP_THANDLE_MAGIC := by
    by_contra hc
    simp [thandle_get_sub_by_dt, hc] at h1
  have hm : top_th.tt_master_sub_thandle ≠ 0 := by
    intro hc
    simp [thandle_get_sub_by_dt, hmagic, hc] at h1
  by_cases hd : d = (w.mem top_th.tt_master_sub_thandle).th_dev
  · rw [attach_master E top_th d w hmagic hm hd] at h1
    simp only [Option.some.injEq, Prod.mk.injEq, ErrPtr.ptr.injEq] at h1
    obtain ⟨rfl, rfl, rfl⟩ := h1
    exact ⟨attach_master E top_th d w hmagic hm hd, by simp [World.since, create_count],
      fun h => absurd hd h⟩
  · cases hf : top_th.tt_sub_thandle_list.find? (fun lst => (w.mem lst.st_sub_th).th_dev = d) with
    | some lst =>
      rw [attach_found E top_th d w lst hmagic hm hd hf] at h1
      simp only [Option.some.injEq, Prod.mk.injEq, ErrPtr.ptr.injEq] at h1
      obtain ⟨rfl, rfl, rfl⟩ := h1
      refine ⟨attach_found E top_th d w lst hmagic hm hd hf,
        by simp [World.since, create_count], fun _ hnew => ?_⟩
      rw [find_none_of_not_mem top_th w d hnew] at hf
      cases hf
    | none =>
      cases hc : E.trans_create w.trace.length d with
      | error e =>
        rw [attach_create_err E top_th d w e hmagic hm hd hf hc] at h1
        simp at h1
      | ok h =>
        cases ha : E.alloc_ok (w.trace.length + 1) with
        | false =>
          rw [attach_alloc_fail E top_th d w h hmagic hm hd hf hc ha] at h1
          simp at h1
        | true =>
          rw [attach_new E top_th d w h hmagic hm hd hf hc ha] at h1
          simp only [Option.some.injEq, Prod.mk.injEq, ErrPtr.ptr.injEq] at h1
          obtain ⟨rfl, rfl, rfl⟩ := h1
          have hcount : create_count (World.since
              { mem := fun q => if q = w.brk + 1 then { h with th_top := top_th.tt_self }
                  else w.mem q,
                brk := w.brk + 2,
                trace := w.trace ++ [Event.trans_create d (ErrPtr.ptr (w.brk + 1)),
                  Event.obd_alloc (w.brk + 2)] } w) = 1 := by
            simp [World.since, create_count]
          refine ⟨?_, by rw [hcount], fun _ _ => hcount⟩
          by_cases hmp : top_th.tt_master_sub_thandle = w.brk + 1
          · have := attach_master E (top_th.attached (w.brk + 2) (w.brk + 1)) d
              { mem := fun q => if q = w.brk + 1 then { h with th_top := top_th.tt_self }
                  else w.mem q,
                brk := w.brk + 2,
                trace := w.trace ++ [Event.trans_create d (ErrPtr.ptr (w.brk + 1)),
                  Event.obd_alloc (w.brk + 2)] } hmagic hm
              (by simp only [top_thandle.attached]; rw [hmp]; exact hp.symm)
            simpa [top_thandle.attached, hmp] using this
          · exact attach_found E (top_th.attached (w.brk + 2) (w.brk + 1)) d _
              { st_self := w.brk + 2, st_sub_th := w.brk + 1 } hmagic hm
              (by simpa [top_thandle.attached, hmp] using hd)
              (by
                simp only [top_thandle.attached, List.find?_cons]
                simp at hp
                simp [hp])

/-- Device 1 attached twice to the transaction just created on master device 3. -/
theorem attach_twice_same_witness :
    thandle_get_sub_by_dt (Env.ok (fun _ => 0) (fun _ => 0)) demo_top0 1 demo_world0
        = some (ErrPtr.ptr 3, demo_top1, demo_world1)
      ∧ (demo_world1.mem 3).th_dev = 1
      ∧ thandle_get_sub_by_dt (Env.ok (fun _ => 0) (fun _ => 0)) demo_top1 1 demo_world1
          = some (ErrPtr.ptr 3, demo_top1, demo_world1)
      ∧ create_count (demo_world1.since demo_world0) ≤ 1
      ∧ (1 ≠ (demo_world0.mem demo_top0.tt_master_sub_thandle).th_dev →
          1 ∉ demo_top0.sub_devs demo_world0 →
          create_count (demo_world1.since demo_world0) = 1) :=
  ⟨rfl, rfl,
    attach_twice_same (Env.ok (fun _ => 0) (fun _ => 0)) demo_top0 1 demo_world0 3
      demo_top1 demo_world1 rfl rfl⟩

/-- C9: a transaction returned by `top_trans_create` has its sync flag clear,
and attach calls naming only the master's device (the device of the master
handle, which is `master_dev` when the backend creates handles of the requested
device) leave it, and everything else, unchanged.  An attach call for a device
that is neither the master's nor in the registry returns a handle exactly when
the backend's create and the allocation of the registry entry both succeed; it
then returns the new handle and leaves the sync flag set.  Once set, the flag is
still set after any further sequence of attach calls, which is the state
`top_trans_start` then runs on. -/
theorem sync_flag_forced (E : Env) :
    (∀ master_dev w0 top_th w1,
        top_trans_create E master_dev w0 = (Except.ok top_th, w1) →
        top_th.tt_super.th_sync = false
          ∧ ((∀ n d h, E.trans_create n d = Except.ok h → h.th_dev = d) →
              (w1.mem top_th.tt_master_sub_thandle).th_dev = master_dev)
          ∧ ∀ ds, (∀ d ∈ ds, d = (w1.mem top_th.tt_master_sub_thandle).th_dev) →
              ∃ rs, attach_all E ds top_th w1 = some (rs, top_th, w1))
      ∧ (∀ top_th d w, top_th.tt_magic = TOP_THANDLE_MAGIC →
          top_th.tt_master_sub_thandle ≠ 0 →
          d ≠ (w.mem top_th.tt_master_sub_thandle).th_dev → d ∉ top_th.sub_devs w →
          ∃ r top1 w1, thandle_get_sub_by_dt E top_th d w = some (r, top1, w1)
            ∧ ((∃ p, r = ErrPtr.ptr p) → top1.tt_super.th_sync = true)
            ∧ ((∃ p, r = ErrPtr.ptr p) ↔
                (∃ h, E.trans_create w.trace.length d = Except.ok h)
                  ∧ E.alloc_ok (w.trace.length + 1) = true)
            ∧ ((∃ h, E.trans_create w.trace.length d = Except.ok h) →
                E.alloc_ok (w.trace.length + 1) = true →
                r = ErrPtr.ptr (w.brk + 1) ∧ top1.tt_super.th_sync = true
                  ∧ top1.tt_sub_thandle_list
                    = { st_self := w.brk + 2, st_sub_th := w.brk + 1 }
                        :: top_th.tt_sub_thandle_list))
      ∧ (∀ ds top_th w, top_th.tt_magic = TOP_THANDLE_MAGIC →
          top_th.tt_master_sub_thandle ≠ 0 → top_th.tt_super.th_sync = true →
          ∃ rs top2 w2, attach_all E ds top_th w = some (rs, top2, w2)
            ∧ top2.tt_super.th_sync = true) := by
  refine ⟨?_, ?_, ?_⟩
  · intro master_dev w0 top_th w1 hc
    obtain ⟨hwf, -, hs, h, hh, hmd⟩ := create_spec E master_dev w0 top_th w1 hc
    exact ⟨hs, fun hdev => by rw [hmd]; exact hdev _ _ _ hh,
      fun ds h => ⟨_, attach_all_master E top_th w1 hwf.magic hwf.master_ne ds h⟩⟩
  · intro top_th d w hmagic hm hd hnew
    have hf := find_none_of_not_mem top_th w d hnew
    cases hc : E.trans_create w.trace.length d with
    | error e =>
      refine ⟨_, _, _, attach_create_err E top_th d w e hmagic hm hd hf hc, ?_, ?_, ?_⟩
      · rintro ⟨p, hp⟩; cases hp
      · constructor
        · rintro ⟨p, hp⟩; cases hp
        · rintro ⟨⟨h, hh⟩, -⟩; cases hh
      · rintro ⟨h, hh⟩; cases hh
    | ok h =>
      cases ha : E.alloc_ok (w.trace.length + 1) with
      | false =>
        refine ⟨_, _, _, attach_alloc_fail E top_th d w h hmagic hm hd hf hc ha, ?_, ?_, ?_⟩
        · rintro ⟨p, hp⟩; cases hp
        · constructor
          · rintro ⟨p, hp⟩; cases hp
          · rintro ⟨-, hh⟩; cases hh
        · intro _ hh; cases hh
      | true =>
        refine ⟨_, _, _, attach_new E top_th d w h hmagic hm hd hf hc ha, ?_, ?_, ?_⟩
        · intro _; rfl
        · exact ⟨fun _ => ⟨⟨h, rfl⟩, rfl⟩, fun _ => ⟨_, rfl⟩⟩
        · intro _ _; exact ⟨rfl, rfl, rfl⟩
  · intro ds top_th w hmagic hm hs
    obtain ⟨rs, top2, w2, h1, h2⟩ := attach_all_total E ds top_th w hmagic hm
    exact ⟨rs, top2, w2, h1, h2 hs⟩

/-- The transaction created on master device 3: the sync flag is clear after
create and after two attaches of device 3; the attach of device 1 returns the
new handle at 3, adds the registry entry and sets the flag; and the flag is
still set after the attaches of devices 3, 2 and 1. -/
theorem sync_flag_forced_witness :
    top_trans_create (Env.ok (fun _ => 0) (fun _ => 0)) 3 World.init
        = (Except.ok demo_top0, demo_world0)
      ∧ demo_top0.tt_super.th_sync = false
      ∧ (demo_world0.mem demo_top0.tt_master_sub_thandle).th_dev = 3
      ∧ (∃ rs, attach_all (Env.ok (fun _ => 0) (fun _ => 0)) [3, 3] demo_top0 demo_world0
          = some (rs, demo_top0, demo_world0))
      ∧ thandle_get_sub_by_dt (Env.ok (fun _ => 0) (fun _ => 0)) demo_top0 1 demo_world0
          = some (ErrPtr.ptr 3, demo_top1, demo_world1)
      ∧ demo_top1.tt_super.th_sync = true
      ∧ demo_top1.tt_sub_thandle_list = [{ st_self := 4, st_sub_th := 3 }]
      ∧ (∃ rs top2 w2,
          attach_all (Env.ok (fun _ => 0) (fun _ => 0)) [3, 2, 1] demo_top1 demo_world1
            = some (rs, top2, w2)
          ∧ top2.tt_super.th_sync = true) := by
  have hat : thandle_get_sub_by_dt (Env.ok (fun _ => 0) (fun _ => 0)) demo_top0 1 demo_world0
      = some (ErrPtr.ptr 3, demo_top1, demo_world1) := rfl
  obtain ⟨r, top1, w1, h1, -, -, h4⟩ :=
    (sync_flag_forced (Env.ok (fun _ => 0) (fun _ => 0))).2.1 demo_top0 1 demo_world0 rfl
      (by decide) (by decide) (by decide)
  rw [hat] at h1
  simp only [Option.some.injEq, Prod.mk.injEq] at h1
  obtain ⟨rfl, rfl, rfl⟩ := h1
  obtain ⟨-, h5, h6⟩ := h4 ⟨_, rfl⟩ rfl
  exact ⟨rfl,
    ((sync_flag_forced (Env.ok (fun _ => 0) (fun _ => 0))).1 3 World.init demo_top0 demo_world0
      rfl).1,
    ((sync_flag_forced (Env.ok (fun _ => 0) (fun _ => 0))).1 3 World.init demo_top0 demo_world0
      rfl).2.1 (env_ok_dev _ _),
    ((sync_flag_forced (Env.ok (fun _ => 0) (fun _ => 0))).1 3 World.init demo_top0 demo_world0
      rfl).2.2 [3, 3] (by decide),
    hat, h5, h6,
    (sync_flag_forced (Env.ok (fun _ => 0) (fun _ => 0))).2.2 [3, 2, 1] demo_top1 demo_world1
      rfl (by decide) h5⟩

/-- C10: when the start of registry entry number `k + 1` in iteration order is
the first to return a non-zero code `e`, `top_trans_start` returns `e` having
made exactly `k + 1` calls, the starts of the first `k + 1` registry entries:
no start for a later entry and none for the master. -/
theorem top_trans_start_first_failure (E : Env) (master_dev : Dev) (top_th : top_thandle)
    (w : World) (k : Nat) (e : Int) (hmagic : top_th.tt_magic = TOP_THANDLE_MAGIC)
    (hk : k < top_th.tt_sub_thandle_list.length)
    (h0 : ∀ i, i < k → E.trans_start (w.trace.length + i) = 0)
    (he : E.trans_start (w.trace.length + k) = e) (hne : e ≠ 0) :
    ∃ w', top_trans_start E master_dev top_th w = some (e, w')
      ∧ (w'.since w).length = k + 1
      ∧ start_calls (w'.since w)
        = (top_th.tt_sub_thandle_list.take (k + 1)).map
            (fun lst => ((w.mem lst.st_sub_th).th_dev, lst.st_sub_th)) := by
  subst he
  exact top_trans_start_fail_spec E master_dev top_th w k hmagic hk h0 hne

/-- Master device 3 with devices 1 and 2 attached; the first start returns 0 and
the second -5. -/
theorem top_trans_start_first_failure_witness :
    demo_top.tt_magic = TOP_THANDLE_MAGIC
      ∧ 1 < demo_top.tt_sub_thandle_list.length
      ∧ (∀ i, i < 1 →
          (Env.ok (fun n => if n = 7 then -5 else 0) (fun _ => 0)).trans_start
            (demo_world.trace.length + i) = 0)
      ∧ (Env.ok (fun n => if n = 7 then -5 else 0) (fun _ => 0)).trans_start
          (demo_world.trace.length + 1) = -5
      ∧ (-5 : Int) ≠ 0
      ∧ ∃ w', top_trans_start (Env.ok (fun n => if n = 7 then -5 else 0) (fun _ => 0)) 3
            demo_top demo_world = some (-5, w')
        ∧ (w'.since demo_world).length = 1 + 1
        ∧ start_calls (w'.since demo_world)
          = (demo_top.tt_sub_thandle_list.take (1 + 1)).map
              (fun lst => ((demo_world.mem lst.st_sub_th).th_dev, lst.st_sub_th)) :=
  ⟨rfl, by decide, by decide, rfl, by decide,
    top_trans_start_first_failure (Env.ok (fun n => if n = 7 then -5 else 0) (fun _ => 0)) 3
      demo_top demo_world 1 (-5) rfl (by decide) (by decide) rfl (by decide)⟩

/-- C12 as stated fails: the master's stop returns 0 and the stop of the first
registry entry (the handle at 5) returns 5, so the first non-zero code seen
before the second entry is 5; yet the second entry (the handle at 3) is stopped
with its `th_result` still 0, not 5. -/
theorem top_trans_stop_th_result_positive :
    (Env.ok (fun _ => 0) (fun n => if n = 7 then 5 else 0)).stop_codes
        demo_world.trace.length 2 = [0, 5]
      ∧ first_nonzero [0, 5] = 5
      ∧ (demo_world.mem 3).th_result = 0
      ∧ (top_trans_stop (Env.ok (fun _ => 0) (fun n => if n = 7 then 5 else 0)) 3 demo_top
          demo_world).map (fun r => stop_results (r.2.since demo_world))
          = some [(2, 0), (5, 0), (3, 0)] := by
  refine ⟨rfl, by decide, by decide, by decide⟩

/-- C12, as amended: during `top_trans_stop` the provisional result is the
variable `rc`: the master's code if that is not 0, otherwise the first negative
code among the earlier registry sub-transactions, otherwise 0.  Each pass of
the loop sets the handle's `th_result` to `rc` before the `dt_trans_stop` call
when `rc` is not 0, leaves it as it was when `rc` is 0, and stops the handle in
both cases; so, for a registry of distinct handles, the call after the master's
for entry `i` is made with `th_result` equal to the provisional result of the
master and the first `i` entries when that is not 0, and to the value the
handle had before `top_trans_stop` otherwise. -/
theorem top_trans_stop_th_result (E : Env) (master_dev : Dev) (top_th : top_thandle)
    (w : World) (hmagic : top_th.tt_magic = TOP_THANDLE_MAGIC) :
    (∀ (lst : sub_thandle) (rc : Int) (w1 : World),
        ∃ d h c, (top_trans_stop_sub E top_th.tt_super lst rc w1).2.trace
              = w1.trace ++ [Event.trans_stop d lst.st_sub_th h c]
          ∧ h.th_result = if rc ≠ 0 then rc else (w1.mem lst.st_sub_th).th_result)
      ∧ (top_th.sub_ptrs.Nodup →
          ∃ rc w', top_trans_stop E master_dev top_th w = some (rc, w')
            ∧ ∀ (i : Nat) (lst : sub_thandle), top_th.tt_sub_thandle_list[i]? = some lst →
                (stop_results (w'.since w))[i + 1]?
                  = some (lst.st_sub_th,
                      if first_error (E.stop_codes w.trace.length (i + 1)) ≠ 0
                      then first_error (E.stop_codes w.trace.length (i + 1))
                      else (w.mem lst.st_sub_th).th_result)) := by
  refine ⟨fun lst rc w1 => (stop_sub_result E top_th.tt_super lst rc w1).1, ?_⟩
  intro hnd
  obtain ⟨w', h1, h2⟩ := top_trans_stop_since E master_dev top_th w hmagic
  obtain ⟨m1, ⟨h, hm, -, -⟩, m3, -⟩ := stop_master_spec E master_dev top_th w
  refine ⟨_, w', h1, ?_⟩
  intro i lst hi
  have hloop := stop_subs_results E top_th.tt_super top_th.tt_sub_thandle_list
    (top_trans_stop_master E master_dev top_th w).1
    (top_trans_stop_master E master_dev top_th w).2 hnd i lst hi
  have hlt := (List.getElem?_eq_some.mp hloop).1
  have hlen : (top_trans_stop_master E master_dev top_th w).2.trace.length
      = w.trace.length + 1 := by rw [hm]; simp
  rw [h2, since_append _ _ _ hm, stop_results_append, stop_results_append, stop_results_append,
    stop_results_free]
  simp only [stop_results, List.singleton_append, List.getElem?_cons_succ, List.append_nil]
  rw [hloop, m1, m3, hlen, keep_first_first_error]
  rfl

/-- Master device 3 with devices 1 and 2 attached; the master's stop returns -2
and the others 0, so both registry handles are stopped with `th_result` -2. -/
theorem top_trans_stop_th_result_witness :
    demo_top.tt_magic = TOP_THANDLE_MAGIC
      ∧ demo_top.sub_ptrs.Nodup
      ∧ (top_trans_stop (Env.ok (fun _ => 0) (fun n => if n = 6 then -2 else 0)) 3 demo_top
          demo_world).map (fun r => stop_results (r.2.since demo_world))
          = some [(2, 0), (5, -2), (3, -2)]
      ∧ ∃ rc w', top_trans_stop (Env.ok (fun _ => 0) (fun n => if n = 6 then -2 else 0)) 3
            demo_top demo_world = some (rc, w')
        ∧ ∀ (i : Nat) (lst : sub_thandle), demo_top.tt_sub_thandle_list[i]? = some lst →
            (stop_results (w'.since demo_world))[i + 1]?
              = some (lst.st_sub_th,
                  if first_error ((Env.ok (fun _ => 0)
                      (fun n => if n = 6 then -2 else 0)).stop_codes
                      demo_world.trace.length (i + 1)) ≠ 0
                  then first_error ((Env.ok (fun _ => 0)
                      (fun n => if n = 6 then -2 else 0)).stop_codes
                      demo_world.trace.length (i + 1))
                  else (demo_world.mem lst.st_sub_th).th_result) :=
  ⟨rfl, by decide, by decide,
    (top_trans_stop_th_result (Env.ok (fun _ => 0) (fun n => if n = 6 then -2 else 0)) 3
      demo_top demo_world rfl).2 (by decide)⟩

/-- C13: if the allocation of the top handle fails, `top_trans_create` returns
`ERR_PTR(-ENOMEM)` and the failed allocation is all it does: no
`dt_trans_create` call, nor any other call on the backend, is made. -/
theorem top_trans_create_enomem (E : Env) (master_dev : Dev) (w : World)
    (ha : E.alloc_ok w.trace.length = false) :
    ∃ w', top_trans_create E master_dev w = (Except.error (-ENOMEM), w')
      ∧ w'.since w = [Event.obd_alloc 0]
      ∧ create_count (w'.since w) = 0
      ∧ w'.mem = w.mem := by
  refine ⟨w.log (Event.obd_alloc 0), ?_, ?_, ?_, rfl⟩
  · simp [top_trans_create, obd_alloc, ha]
  · simp [World.since]
  · simp [World.since, create_count]

/-- The empty world with an allocator that fails at once. -/
theorem top_trans_create_enomem_witness :
    (Env.alloc_fail 0).alloc_ok World.init.trace.length = false
      ∧ ∃ w', top_trans_create (Env.alloc_fail 0) 3 World.init = (Except.error (-ENOMEM), w')
        ∧ w'.since World.init = [Event.obd_alloc 0]
        ∧ create_count (w'.since World.init) = 0
        ∧ w'.mem = World.init.mem :=
  ⟨rfl, top_trans_create_enomem (Env.alloc_fail 0) 3 World.init rfl⟩

/-- C14: if the top handle is allocated but `dt_trans_create` on the master
device fails with error `e`, `top_trans_create` returns `ERR_PTR(e)`, no
transaction, having released the allocated top handle exactly once: the events
are the allocation, the failed create, and one `OBD_FREE_PTR` of the address
allocated. -/
theorem top_trans_create_device_error (E : Env) (master_dev : Dev) (w : World) (e : Int)
    (ha : E.alloc_ok w.trace.length = true)
    (hc : E.trans_create (w.trace.length + 1) master_dev = Except.error e) :
    ∃ w', top_trans_create E master_dev w = (Except.error e, w')
      ∧ w'.since w
        = [Event.obd_alloc (w.brk + 1), Event.trans_create master_dev (ErrPtr.err e),
            Event.obd_free (w.brk + 1)] := by
  refine ⟨(top_trans_create E master_dev w).2, Prod.ext ?_ rfl, ?_⟩
  · simp [top_trans_create, obd_alloc, ha, dt_trans_create, hc]
  · simp [top_trans_create, obd_alloc, ha, dt_trans_create, hc, World.since, World.log,
      obd_free]

/-- The empty world, with the allocation succeeding and the create on master
device 3 failing with -5. -/
theorem top_trans_create_device_error_witness :
    (Env.create_fail 1 (-5)).alloc_ok World.init.trace.length = true
      ∧ (Env.create_fail 1 (-5)).trans_create (World.init.trace.length + 1) 3
          = Except.error (-5)
      ∧ ∃ w', top_trans_create (Env.create_fail 1 (-5)) 3 World.init = (Except.error (-5), w')
        ∧ w'.since World.init
          = [Event.obd_alloc (World.init.brk + 1), Event.trans_create 3 (ErrPtr.err (-5)),
              Event.obd_free (World.init.brk + 1)] :=
  ⟨rfl, rfl, top_trans_create_device_error (Env.create_fail 1 (-5)) 3 World.init (-5) rfl rfl⟩

/-- C15: whenever `top_trans_create` succeeds, the returned transaction has the
type tag `TOP_THANDLE_MAGIC`; its master sub-transaction is the handle the
backend returned for the master device, the only call made on the backend; that
handle's `th_top` and the transaction's own `th_top` are the address of the
transaction; its registry is empty; and every sequence of attach and start
calls from there returns and leaves a transaction with the same, non-null,
master. -/
theorem top_trans_create_ok (E : Env) (master_dev : Dev) (w0 : World) (top_th : top_thandle)
    (w1 : World) (hc : top_trans_create E master_dev w0 = (Except.ok top_th, w1)) :
    top_th.tt_magic = TOP_THANDLE_MAGIC
      ∧ w1.since w0
        = [Event.obd_alloc top_th.tt_self,
            Event.trans_create master_dev (ErrPtr.ptr top_th.tt_master_sub_thandle)]
      ∧ top_th.tt_master_sub_thandle ≠ 0
      ∧ (w1.mem top_th.tt_master_sub_thandle).th_top = top_th.tt_self
      ∧ top_th.tt_super.th_top = top_th.tt_self
      ∧ top_th.tt_sub_thandle_list = []
      ∧ ∀ ops, ∃ top2 w2, run_ops E ops top_th w1 = some (top2, w2)
          ∧ top2.tt_master_sub_thandle = top_th.tt_master_sub_thandle
          ∧ top2.tt_master_sub_thandle ≠ 0 := by
  obtain ⟨hwf, hnil, -, -⟩ := create_spec E master_dev w0 top_th w1 hc
  obtain ⟨-, -, -, h4, h5, h6⟩ := create_ok_spec E master_dev w0 top_th w1 hc
  refine ⟨hwf.magic, h6, hwf.master_ne, h5, h4, hnil, ?_⟩
  intro ops
  obtain ⟨top2, w2, h1, -, h3⟩ := run_ops_total E ops top_th w1 hwf.magic hwf.master_ne
  exact ⟨top2, w2, h1, h3, by rw [h3]; exact hwf.master_ne⟩

/-- The transaction created on master device 3 in the empty world. -/
theorem top_trans_create_ok_witness :
    top_trans_create (Env.ok (fun _ => 0) (fun _ => 0)) 3 World.init
        = (Except.ok demo_top0, demo_world0)
      ∧ demo_top0.tt_magic = TOP_THANDLE_MAGIC
      ∧ demo_world0.since World.init
        = [Event.obd_alloc demo_top0.tt_self,
            Event.trans_create 3 (ErrPtr.ptr demo_top0.tt_master_sub_thandle)]
      ∧ demo_top0.tt_master_sub_thandle ≠ 0
      ∧ (demo_world0.mem demo_top0.tt_master_sub_thandle).th_top = demo_top0.tt_self
      ∧ demo_top0.tt_super.th_top = demo_top0.tt_self
      ∧ demo_top0.tt_sub_thandle_list = []
      ∧ ∀ ops, ∃ top2 w2,
          run_ops (Env.ok (fun _ => 0) (fun _ => 0)) ops demo_top0 demo_world0 = some (top2, w2)
          ∧ top2.tt_master_sub_thandle = demo_top0.tt_master_sub_thandle
          ∧ top2.tt_master_sub_thandle ≠ 0 :=
  ⟨rfl, top_trans_create_ok (Env.ok (fun _ => 0) (fun _ => 0)) 3 World.init demo_top0
    demo_world0 rfl⟩

/-- C16: on a top handle with the type tag set and a master,
`thandle_get_sub_by_dt` called with the device of the master handle returns the
master handle itself and leaves the world and the top handle as they were: no
event is logged (no call on the backend), the registry gains no entry, and the
sync flag keeps its value. -/
theorem attach_master_device (E : Env) (top_th : top_thandle) (w : World)
    (hmagic : top_th.tt_magic = TOP_THANDLE_MAGIC) (hm : top_th.tt_master_sub_thandle ≠ 0) :
    thandle_get_sub_by_dt E top_th (w.mem top_th.tt_master_sub_thandle).th_dev w
      = some (ErrPtr.ptr top_th.tt_master_sub_thandle, top_th, w) :=
  attach_master E top_th _ w hmagic hm rfl

/-- Master device 3 with devices 1 and 2 attached: the attach of device 3. -/
theorem attach_master_device_witness :
    demo_top.tt_magic = TOP_THANDLE_MAGIC ∧ demo_top.tt_master_sub_thandle ≠ 0
      ∧ (demo_world.mem demo_top.tt_master_sub_thandle).th_dev = 3
      ∧ thandle_get_sub_by_dt (Env.ok (fun _ => 0) (fun _ => 0)) demo_top
          (demo_world.mem demo_top.tt_master_sub_thandle).th_dev demo_world
        = some (ErrPtr.ptr demo_top.tt_master_sub_thandle, demo_top, demo_world) :=
  ⟨rfl, by decide, rfl,
    attach_master_device (Env.ok (fun _ => 0) (fun _ => 0)) demo_top demo_world rfl (by decide)⟩

/-- C17: assuming the backend's create for a device returns a handle of that
device, every transaction reached from a successful `top_trans_create` by any
sequence of attach calls (repeated devices and the master's device included,
whatever the calls return) has no two registry entries with the same device,
no registry entry with the master's device, and no registry entry wrapping the
master handle; and every such sequence of calls returns. -/
theorem registry_unique (E : Env)
    (hdev : ∀ n d h, E.trans_create n d = Except.ok h → h.th_dev = d)
    (master_dev : Dev) (ds : List Dev) (w0 : World) (top_th : top_thandle) (w1 : World)
    (hc : top_trans_create E master_dev w0 = (Except.ok top_th, w1)) :
    ∃ rs top2 w2, attach_all E ds top_th w1 = some (rs, top2, w2)
      ∧ (top2.sub_devs w2).Nodup
      ∧ master_dev ∉ top2.sub_devs w2
      ∧ (w2.mem top2.tt_master_sub_thandle).th_dev = master_dev
      ∧ top2.tt_master_sub_thandle ∉ top2.sub_ptrs := by
  obtain ⟨rs, top2, w2, h1, hreg⟩ :=
    attach_all_reg E hdev master_dev ds top_th w1 (create_reg E hdev master_dev w0 top_th w1 hc)
  exact ⟨rs, top2, w2, h1, hreg.devs_nodup, hreg.master_dev_not_mem, hreg.master_dev_eq,
    hreg.master_not_mem⟩

/-- Master device 3 with the attach calls 1, 3, 2, 1, 3. -/
theorem registry_unique_witness :
    (∀ n d h, (Env.ok (fun _ => 0) (fun _ => 0)).trans_create n d = Except.ok h → h.th_dev = d)
      ∧ top_trans_create (Env.ok (fun _ => 0) (fun _ => 0)) 3 World.init
          = (Except.ok demo_top0, demo_world0)
      ∧ ∃ rs top2 w2,
          attach_all (Env.ok (fun _ => 0) (fun _ => 0)) [1, 3, 2, 1, 3] demo_top0 demo_world0
            = some (rs, top2, w2)
        ∧ (top2.sub_devs w2).Nodup
        ∧ 3 ∉ top2.sub_devs w2
        ∧ (w2.mem top2.tt_master_sub_thandle).th_dev = 3
        ∧ top2.tt_master_sub_thandle ∉ top2.sub_ptrs :=
  ⟨env_ok_dev _ _, rfl,
    registry_unique (Env.ok (fun _ => 0) (fun _ => 0)) (env_ok_dev _ _) 3 [1, 3, 2, 1, 3]
      World.init demo_top0 demo_world0 rfl⟩

/-- C18: `top_thandle_destroy` releases each of the `N` registry wrappers once,
in list order, then the top handle once, which is all it does (`N + 1` events,
each an `OBD_FREE_PTR`, no call on the backend); `top_trans_stop`, whatever the
stops return, logs its `N + 1` `dt_trans_stop` calls and then exactly the
events of one `top_thandle_destroy`; and in a transaction reached from
`top_trans_create` by attach calls the addresses released are all different,
so that nothing is released twice. -/
theorem top_thandle_destroy_once (E : Env) :
    (∀ (top_th : top_thandle) (w : World), top_th.tt_magic = TOP_THANDLE_MAGIC →
        ∃ w', top_thandle_destroy top_th w = some w'
          ∧ w'.since w = destroy_events top_th
          ∧ freed (w'.since w)
            = top_th.tt_sub_thandle_list.map (fun st => st.st_self) ++ [top_th.tt_self]
          ∧ (w'.since w).length = top_th.tt_sub_thandle_list.length + 1
          ∧ (∀ ev ∈ w'.since w, ∃ p, ev = Event.obd_free p)
          ∧ w'.mem = w.mem)
      ∧ (∀ (master_dev : Dev) (top_th : top_thandle) (w : World),
          top_th.tt_magic = TOP_THANDLE_MAGIC →
          ∃ rc w' evs, top_trans_stop E master_dev top_th w = some (rc, w')
            ∧ w'.since w = evs ++ destroy_events top_th
            ∧ evs.length = top_th.tt_sub_thandle_list.length + 1
            ∧ stop_calls evs
              = (master_dev, top_th.tt_master_sub_thandle)
                  :: top_th.tt_sub_thandle_list.map
                      (fun lst => ((w.mem lst.st_sub_th).th_dev, lst.st_sub_th)))
      ∧ (∀ (master_dev : Dev) (w0 : World) (top_th : top_thandle) (w1 : World) (ds : List Dev),
          top_trans_create E master_dev w0 = (Except.ok top_th, w1) →
          ∃ rs top2 w2, attach_all E ds top_th w1 = some (rs, top2, w2)
            ∧ top2.tt_magic = TOP_THANDLE_MAGIC
            ∧ (freed (destroy_events top2)).Nodup) := by
  refine ⟨?_, ?_, ?_⟩
  · intro top_th w hmagic
    obtain ⟨w', h1, h2, h3⟩ := destroy_spec top_th w hmagic
    refine ⟨w', h1, h2, by rw [h2, freed_destroy_events], ?_, ?_, h3⟩
    · rw [h2]; simp [destroy_events]
    · intro ev hev
      rw [h2] at hev
      simp only [destroy_events, List.mem_append, List.mem_map, List.mem_singleton] at hev
      rcases hev with ⟨st, -, rfl⟩ | rfl
      · exact ⟨_, rfl⟩
      · exact ⟨_, rfl⟩
  · intro master_dev top_th w hmagic
    obtain ⟨w', h1, h2⟩ := top_trans_stop_since E master_dev top_th w hmagic
    obtain ⟨-, ⟨h, hm, -, -⟩, -, hmdev⟩ := stop_master_spec E master_dev top_th w
    obtain ⟨⟨evs, e1, e2, e3⟩, -, -⟩ :=
      stop_subs_trace E top_th.tt_super top_th.tt_sub_thandle_list
        (top_trans_stop_master E master_dev top_th w).1
        (top_trans_stop_master E master_dev top_th w).2
    rw [since_append _ _ _ hm, since_append _ _ _ e1] at h2
    refine ⟨_, w', _, h1, h2, by simp [e2], ?_⟩
    rw [stop_calls_append, e3]
    simp [stop_calls, hmdev]
  · intro master_dev w0 top_th w1 ds hc
    obtain ⟨hwf, -, -, -⟩ := create_spec E master_dev w0 top_th w1 hc
    obtain ⟨rs, top2, w2, h1, hmagic2, hinv⟩ :=
      attach_all_alloc_inv E ds top_th w1 hwf.magic hwf.master_ne
        (create_alloc_inv E master_dev w0 top_th w1 hc)
    exact ⟨rs, top2, w2, h1, hmagic2, hinv.nodup⟩

/-- Master device 3 with devices 1 and 2 attached: the destroy, the stop with
the master's stop failing, and the create and attaches that lead there. -/
theorem top_thandle_destroy_once_witness :
    demo_top.tt_magic = TOP_THANDLE_MAGIC
      ∧ (∃ w', top_thandle_destroy demo_top demo_world = some w'
          ∧ w'.since demo_world = destroy_events demo_top
          ∧ freed (w'.since demo_world)
            = demo_top.tt_sub_thandle_list.map (fun st => st.st_self) ++ [demo_top.tt_self]
          ∧ (w'.since demo_world).length = demo_top.tt_sub_thandle_list.length + 1
          ∧ (∀ ev ∈ w'.since demo_world, ∃ p, ev = Event.obd_free p)
          ∧ w'.mem = demo_world.mem)
      ∧ (∃ rc w' evs,
          top_trans_stop (Env.ok (fun _ => 0) (fun n => if n = 6 then -2 else 0)) 3 demo_top
            demo_world = some (rc, w')
          ∧ w'.since demo_world = evs ++ destroy_events demo_top
          ∧ evs.length = demo_top.tt_sub_thandle_list.length + 1
          ∧ stop_calls evs
            = (3, demo_top.tt_master_sub_thandle)
                :: demo_top.tt_sub_thandle_list.map
                    (fun lst => ((demo_world.mem lst.st_sub_th).th_dev, lst.st_sub_th)))
      ∧ top_trans_create (Env.ok (fun _ => 0) (fun n => if n = 6 then -2 else 0)) 3 World.init
          = (Except.ok demo_top0, demo_world0)
      ∧ (∃ rs top2 w2,
          attach_all (Env.ok (fun _ => 0) (fun n => if n = 6 then -2 else 0)) [1, 2] demo_top0
            demo_world0 = some (rs, top2, w2)
          ∧ top2.tt_magic = TOP_THANDLE_MAGIC
          ∧ (freed (destroy_events top2)).Nodup) :=
  ⟨rfl,
    (top_thandle_destroy_once (Env.ok (fun _ => 0) (fun n => if n = 6 then -2 else 0))).1
      demo_top demo_world rfl,
    (top_thandle_destroy_once (Env.ok (fun _ => 0) (fun n => if n = 6 then -2 else 0))).2.1 3
      demo_top demo_world rfl,
    rfl,
    (top_thandle_destroy_once (Env.ok (fun _ => 0) (fun n => if n = 6 then -2 else 0))).2.2 3
      World.init demo_top0 demo_world0 [1, 2] rfl⟩

/-- C19 as stated fails: on the transaction just created on master device 3,
with an empty registry and the sync flag clear, looking up device 1, which is
neither the master's nor in the registry, does not report NotFound and is not
read-only: it calls `dt_trans_create` on device 1, returns the new handle, adds
a registry entry and sets the sync flag. -/
theorem lookup_by_device_creates :
    1 ≠ (demo_world0.mem demo_top0.tt_master_sub_thandle).th_dev
      ∧ 1 ∉ demo_top0.sub_devs demo_world0
      ∧ demo_top0.tt_sub_thandle_list = []
      ∧ demo_top0.tt_super.th_sync = false
      ∧ (thandle_get_sub_by_dt (Env.ok (fun _ => 0) (fun _ => 0)) demo_top0 1 demo_world0).map
          (fun r => (r.1, r.2.1.tt_sub_thandle_list, r.2.1.tt_super.th_sync,
            r.2.2.since demo_world0))
          = some (ErrPtr.ptr 3, [{ st_self := 4, st_sub_th := 3 }], true,
              [Event.trans_create 1 (ErrPtr.ptr 3), Event.obd_alloc 4]) := by
  refine ⟨by decide, by decide, rfl, rfl, by decide⟩

/-- C19, as amended: the code has no read-only lookup that reports NotFound;
its lookup by device is `thandle_get_sub_by_dt`, which is read-only only for a
device it finds.  For a device in the registry (and not the master's) it
returns the handle of a registry entry with that device, logs no event and
leaves the top handle as it was; for a device that is neither the master's nor
in the registry it calls `dt_trans_create` on that device, once, as its first
action. -/
theorem lookup_by_device (E : Env) (top_th : top_thandle) (d : Dev) (w : World)
    (hmagic : top_th.tt_magic = TOP_THANDLE_MAGIC) (hm : top_th.tt_master_sub_thandle ≠ 0)
    (hd : d ≠ (w.mem top_th.tt_master_sub_thandle).th_dev) :
    (d ∈ top_th.sub_devs w →
        ∃ lst ∈ top_th.tt_sub_thandle_list, (w.mem lst.st_sub_th).th_dev = d
          ∧ thandle_get_sub_by_dt E top_th d w = some (ErrPtr.ptr lst.st_sub_th, top_th, w))
      ∧ (d ∉ top_th.sub_devs w →
          ∃ r top1 w1 res, thandle_get_sub_by_dt E top_th d w = some (r, top1, w1)
            ∧ (w1.since w).head? = some (Event.trans_create d res)
            ∧ create_count (w1.since w) = 1) := by
  refine ⟨?_, ?_⟩
  · intro hin
    cases hf : top_th.tt_sub_thandle_list.find? (fun lst => (w.mem lst.st_sub_th).th_dev = d) with
    | none =>
      exfalso
      rw [List.find?_eq_none] at hf
      simp only [top_thandle.sub_devs, List.mem_map] at hin
      obtain ⟨lst, hl, hdl⟩ := hin
      exact hf lst hl (by simpa using hdl)
    | some lst =>
      refine ⟨lst, List.mem_of_find?_eq_some hf, ?_,
        attach_found E top_th d w lst hmagic hm hd hf⟩
      simpa using List.find?_some hf
  · intro hnew
    have hf := find_none_of_not_mem top_th w d hnew
    cases hc : E.trans_create w.trace.length d with
    | error e =>
      exact ⟨_, _, _, ErrPtr.err e, attach_create_err E top_th d w e hmagic hm hd hf hc,
        by simp [World.since], by simp [World.since, create_count]⟩
    | ok h =>
      cases ha : E.alloc_ok (w.trace.length + 1) with
      | false =>
        exact ⟨_, _, _, ErrPtr.ptr (w.brk + 1),
          attach_alloc_fail E top_th d w h hmagic hm hd hf hc ha,
          by simp [World.since], by simp [World.since, create_count]⟩
      | true =>
        exact ⟨_, _, _, ErrPtr.ptr (w.brk + 1), attach_new E top_th d w h hmagic hm hd hf hc ha,
          by simp [World.since], by simp [World.since, create_count]⟩

/-- Master device 3 with devices 1 and 2 attached: device 1 is found, device 7
is created. -/
theorem lookup_by_device_witness :
    demo_top.tt_magic = TOP_THANDLE_MAGIC ∧ demo_top.tt_master_sub_thandle ≠ 0
      ∧ 1 ≠ (demo_world.mem demo_top.tt_master_sub_thandle).th_dev
      ∧ 1 ∈ demo_top.sub_devs demo_world
      ∧ (∃ lst ∈ demo_top.tt_sub_thandle_list, (demo_world.mem lst.st_sub_th).th_dev = 1
          ∧ thandle_get_sub_by_dt (Env.ok (fun _ => 0) (fun _ => 0)) demo_top 1 demo_world
            = some (ErrPtr.ptr lst.st_sub_th, demo_top, demo_world))
      ∧ 7 ≠ (demo_world.mem demo_top.tt_master_sub_thandle).th_dev
      ∧ 7 ∉ demo_top.sub_devs demo_world
      ∧ (∃ r top1 w1 res,
          thandle_get_sub_by_dt (Env.ok (fun _ => 0) (fun _ => 0)) demo_top 7 demo_world
            = some (r, top1, w1)
          ∧ (w1.since demo_world).head? = some (Event.trans_create 7 res)
          ∧ create_count (w1.since demo_world) = 1) :=
  ⟨rfl, by decide, by decide, by decide,
    (lookup_by_device (Env.ok (fun _ => 0) (fun _ => 0)) demo_top 1 demo_world rfl (by decide)
      (by decide)).1 (by decide),
    by decide, by decide,
    (lookup_by_device (Env.ok (fun _ => 0) (fun _ => 0)) demo_top 7 demo_world rfl (by decide)
      (by decide)).2 (by decide)⟩

/-- C20: for a device that is neither the master's nor in the registry, if the
backend's `dt_trans_create` fails with error `e`, `thandle_get_sub_by_dt`
returns `ERR_PTR(e)` and the same top handle: same registry entries in the same
order, same sync flag.  The failed create is the only event, and the memory of
the handles is unchanged. -/
theorem attach_create_failure (E : Env) (top_th : top_thandle) (d : Dev) (w : World) (e : Int)
    (hmagic : top_th.tt_magic = TOP_THANDLE_MAGIC) (hm : top_th.tt_master_sub_thandle ≠ 0)
    (hd : d ≠ (w.mem top_th.tt_master_sub_thandle).th_dev)
    (hnew : d ∉ top_th.sub_devs w)
    (hc : E.trans_create w.trace.length d = Except.error e) :
    ∃ w', thandle_get_sub_by_dt E top_th d w = some (ErrPtr.err e, top_th, w')
      ∧ w'.since w = [Event.trans_create d (ErrPtr.err e)]
      ∧ w'.mem = w.mem := by
  refine ⟨w.log (Event.trans_create d (ErrPtr.err e)),
    attach_create_err E top_th d w e hmagic hm hd (find_none_of_not_mem top_th w d hnew) hc,
    ?_, rfl⟩
  simp [World.since]

/-- Master device 3 with devices 1 and 2 attached; the create for device 7, at
interaction number 6, fails with -5. -/
theorem attach_create_failure_witness :
    demo_top.tt_magic = TOP_THANDLE_MAGIC ∧ demo_top.tt_master_sub_thandle ≠ 0
      ∧ 7 ≠ (demo_world.mem demo_top.tt_master_sub_thandle).th_dev
      ∧ 7 ∉ demo_top.sub_devs demo_world
      ∧ (Env.create_fail 6 (-5)).trans_create demo_world.trace.length 7 = Except.error (-5)
      ∧ ∃ w', thandle_get_sub_by_dt (Env.create_fail 6 (-5)) demo_top 7 demo_world
            = some (ErrPtr.err (-5), demo_top, w')
        ∧ w'.since demo_world = [Event.trans_create 7 (ErrPtr.err (-5))]
        ∧ w'.mem = demo_world.mem :=
  ⟨rfl, by decide, by decide, by decide, rfl,
    attach_create_failure (Env.create_fail 6 (-5)) demo_top 7 demo_world (-5) rfl (by decide)
      (by decide) (by decide) rfl⟩

/-- C21: for a device that is neither the master's nor in the registry, if the
backend creates the local transaction but the allocation of the registry entry
then fails, `thandle_get_sub_by_dt` returns `ERR_PTR(-ENOMEM)` having called
`dt_trans_stop` exactly once, on the handle just created; the registry has the
same entries in the same order; and, in a well-formed transaction, whatever
attach calls follow, the later `top_trans_stop` returns and makes no stop call
on that handle. -/
theorem attach_alloc_failure (E : Env) (top_th : top_thandle) (d : Dev) (w : World)
    (h : thandle) (hwf : Wf top_th w)
    (hd : d ≠ (w.mem top_th.tt_master_sub_thandle).th_dev)
    (hnew : d ∉ top_th.sub_devs w)
    (hc : E.trans_create w.trace.length d = Except.ok h)
    (ha : E.alloc_ok (w.trace.length + 1) = false) :
    ∃ top1 w1, thandle_get_sub_by_dt E top_th d w = some (ErrPtr.err (-ENOMEM), top1, w1)
      ∧ top1.tt_sub_thandle_list = top_th.tt_sub_thandle_list
      ∧ (∃ h1, w1.since w
          = [Event.trans_create d (ErrPtr.ptr (w.brk + 1)), Event.obd_alloc 0,
              Event.trans_stop d (w.brk + 1) h1 (E.trans_stop (w.trace.length + 2))])
      ∧ stop_calls (w1.since w) = [(d, w.brk + 1)]
      ∧ ∀ (ds : List Dev) (master_dev : Dev),
          ∃ rs top2 w2 rc w3, attach_all E ds top1 w1 = some (rs, top2, w2)
            ∧ top_trans_stop E master_dev top2 w2 = some (rc, w3)
            ∧ w.brk + 1 ∉ (stop_calls (w3.since w2)).map Prod.snd := by
  have hmagic := hwf.magic
  have hm := hwf.master_ne
  have hf := find_none_of_not_mem top_th w d hnew
  refine ⟨_, _, attach_alloc_fail E top_th d w h hmagic hm hd hf hc ha, rfl,
    ⟨{ h with th_top := top_th.tt_self }, ?_⟩, ?_, ?_⟩
  · simp [World.since]
  · simp [World.since, stop_calls]
  · intro ds master_dev
    have hout : Outside (w.brk + 1)
        { top_th with tt_super := { top_th.tt_super with th_sync := true } }
        { mem := fun q => if q = w.brk + 1 then { h with th_top := top_th.tt_self } else w.mem q,
          brk := w.brk + 1,
          trace := w.trace ++ [Event.trans_create d (ErrPtr.ptr (w.brk + 1)),
            Event.obd_alloc 0,
            Event.trans_stop d (w.brk + 1) { h with th_top := top_th.tt_self }
              (E.trans_stop (w.trace.length + 2))] } := by
      refine ⟨Nat.le_refl _, ?_, ?_⟩
      · have := hwf.master_le
        show w.brk + 1 ≠ top_th.tt_master_sub_thandle
        omega
      · intro hin
        simp only [top_thandle.sub_ptrs, List.mem_map] at hin
        obtain ⟨lst, hl, heq⟩ := hin
        have := hwf.subs_le lst hl
        omega
    obtain ⟨rs, top2, w2, h2, hmagic2, hout2⟩ :=
      attach_all_outside E (w.brk + 1) ds _ _ (by exact hmagic) (by exact hm) hout
    obtain ⟨w3, s1, s2⟩ := top_trans_stop_spec E master_dev top2 w2 hmagic2
    refine ⟨rs, top2, w2, _, w3, h2, s1, ?_⟩
    rw [s2, List.map_cons, List.mem_cons, not_or]
    refine ⟨hout2.ne_master, ?_⟩
    intro hin
    apply hout2.not_mem
    simpa [top_thandle.sub_ptrs] using hin

/-- Master device 3, empty registry; the create for device 1 succeeds and the
allocation of its registry entry, at interaction number 3, fails. -/
theorem attach_alloc_failure_witness :
    top_trans_create (Env.alloc_fail 3) 3 World.init = (Except.ok demo_top0, demo_world0)
      ∧ ∃ top1 w1, thandle_get_sub_by_dt (Env.alloc_fail 3) demo_top0 1 demo_world0
            = some (ErrPtr.err (-ENOMEM), top1, w1)
        ∧ top1.tt_sub_thandle_list = demo_top0.tt_sub_thandle_list
        ∧ (∃ h1, w1.since demo_world0
            = [Event.trans_create 1 (ErrPtr.ptr (demo_world0.brk + 1)), Event.obd_alloc 0,
                Event.trans_stop 1 (demo_world0.brk + 1) h1
                  ((Env.alloc_fail 3).trans_stop (demo_world0.trace.length + 2))])
        ∧ stop_calls (w1.since demo_world0) = [(1, demo_world0.brk + 1)]
        ∧ ∀ (ds : List Dev) (master_dev : Dev),
            ∃ rs top2 w2 rc w3, attach_all (Env.alloc_fail 3) ds top1 w1 = some (rs, top2, w2)
              ∧ top_trans_stop (Env.alloc_fail 3) master_dev top2 w2 = some (rc, w3)
              ∧ demo_world0.brk + 1 ∉ (stop_calls (w3.since w2)).map Prod.snd :=
  ⟨rfl, attach_alloc_failure (Env.alloc_fail 3) demo_top0 1 demo_world0
    { thandle_zero with th_dev := 1 }
    ⟨rfl, by decide, by decide, by simp [demo_top0]⟩ (by decide) (by decide) rfl rfl⟩

/-- C22 as stated fails: a transaction just created on master device 3 has its
sync flag clear and an empty registry.  The attach of device 1 gets a handle
from the backend, then the allocation of the registry entry fails: the call
returns `ERR_PTR(-ENOMEM)`, the registry is still empty, and the sync flag is
now set. -/
theorem sync_flag_set_on_alloc_failure :
    top_trans_create (Env.alloc_fail 3) 3 World.init = (Except.ok demo_top0, demo_world0)
      ∧ demo_top0.tt_super.th_sync = false
      ∧ (thandle_get_sub_by_dt (Env.alloc_fail 3) demo_top0 1 demo_world0).map
          (fun r => (r.1, r.2.1.tt_sub_thandle_list, r.2.1.tt_super.th_sync))
        = some (ErrPtr.err (-ENOMEM), [], true) := by
  refine ⟨rfl, rfl, by decide⟩

/-- C22, as amended: `thandle_get_sub_by_dt` sets the sync flag as soon as the
backend's create has succeeded, before it allocates the registry entry.  A call
that returns an error `e` is one of two cases: the backend's create failed with
`e`, and the top handle, sync flag included, is as before the call; or the
create succeeded and the allocation of the registry entry failed, `e` is
`-ENOMEM`, and the top handle is as before except that its sync flag is set. -/
theorem attach_failure_sync (E : Env) (top_th : top_thandle) (d : Dev) (w : World) (e : Int)
    (top1 : top_thandle)
    (h1 : (thandle_get_sub_by_dt E top_th d w).map (fun r => (r.1, r.2.1))
      = some (ErrPtr.err e, top1)) :
    (E.trans_create w.trace.length d = Except.error e ∧ top1 = top_th
        ∧ top1.tt_super.th_sync = top_th.tt_super.th_sync)
      ∨ ((∃ h, E.trans_create w.trace.length d = Except.ok h)
          ∧ E.alloc_ok (w.trace.length + 1) = false ∧ e = -ENOMEM
          ∧ top1 = { top_th with tt_super := { top_th.tt_super with th_sync := true } }
          ∧ top1.tt_super.th_sync = true) := by
  by_cases hmagic : top_th.tt_magic = TOP_THANDLE_MAGIC
  swap
  · simp [thandle_get_sub_by_dt, hmagic] at h1
  by_cases hm : top_th.tt_master_sub_thandle = 0
  · simp [thandle_get_sub_by_dt, hmagic, hm] at h1
  by_cases hd : d = (w.mem top_th.tt_master_sub_thandle).th_dev
  · rw [attach_master E top_th d w hmagic hm hd] at h1
    simp at h1
  cases hf : top_th.tt_sub_thandle_list.find? (fun lst => (w.mem lst.st_sub_th).th_dev = d) with
  | some lst =>
    rw [attach_found E top_th d w lst hmagic hm hd hf] at h1
    simp at h1
  | none =>
    cases hc : E.trans_create w.trace.length d with
    | error e1 =>
      rw [attach_create_err E top_th d w e1 hmagic hm hd hf hc] at h1
      simp only [Option.map_some', Option.some.injEq, Prod.mk.injEq, ErrPtr.err.injEq] at h1
      obtain ⟨rfl, rfl⟩ := h1
      exact Or.inl ⟨rfl, rfl, rfl⟩
    | ok h =>
      cases ha : E.alloc_ok (w.trace.length + 1) with
      | true =>
        rw [attach_new E top_th d w h hmagic hm hd hf hc ha] at h1
        simp at h1
      | false =>
        rw [attach_alloc_fail E top_th d w h hmagic hm hd hf hc ha] at h1
        simp only [Option.map_some', Option.some.injEq, Prod.mk.injEq, ErrPtr.err.injEq] at h1
        obtain ⟨rfl, rfl⟩ := h1
        exact Or.inr ⟨⟨h, rfl⟩, rfl, rfl, rfl, rfl⟩

/-- Master device 3, empty registry, sync flag clear; the allocation of the
registry entry for device 1 fails. -/
theorem attach_failure_sync_witness :
    (thandle_get_sub_by_dt (Env.alloc_fail 3) demo_top0 1 demo_world0).map
        (fun r => (r.1, r.2.1))
        = some (ErrPtr.err (-ENOMEM),
            { demo_top0 with tt_super := { demo_top0.tt_super with th_sync := true } })
      ∧ ((Env.alloc_fail 3).trans_create demo_world0.trace.length 1 = Except.error (-ENOMEM)
            ∧ { demo_top0 with tt_super := { demo_top0.tt_super with th_sync := true } }
              = demo_top0
            ∧ true = demo_top0.tt_super.th_sync
          ∨ (∃ h, (Env.alloc_fail 3).trans_create demo_world0.trace.length 1 = Except.ok h)
            ∧ (Env.alloc_fail 3).alloc_ok (demo_world0.trace.length + 1) = false
            ∧ -ENOMEM = -ENOMEM
            ∧ { demo_top0 with tt_super := { demo_top0.tt_super with th_sync := true } }
              = { demo_top0 with tt_super := { demo_top0.tt_super with th_sync := true } }
            ∧ true = true) :=
  ⟨by decide, attach_failure_sync (Env.alloc_fail 3) demo_top0 1 demo_world0 (-ENOMEM)
    { demo_top0 with tt_super := { demo_top0.tt_super with th_sync := true } } (by decide)⟩

/-- C23: `top_trans_start` returns, having started the participants in order
(registry entries, then the master) up to and including the first whose start
does not return 0: at least one call, and one per participant when every
registry start returns 0.  Every event it logs is a `dt_trans_start` call, and
each call is made on a handle whose `th_sync` and `th_local` are, at the moment
of the call, those of the transaction, whatever the world the call started in
held in those fields. -/
theorem top_trans_start_flags_each_call (E : Env) (master_dev : Dev) (top_th : top_thandle)
    (w : World) (hmagic : top_th.tt_magic = TOP_THANDLE_MAGIC) :
    ∃ rc w' k, top_trans_start E master_dev top_th w = some (rc, w')
      ∧ k ≤ top_th.tt_sub_thandle_list.length
      ∧ ((∀ i, i < top_th.tt_sub_thandle_list.length →
            E.trans_start (w.trace.length + i) = 0) → k = top_th.tt_sub_thandle_list.length)
      ∧ (w'.since w).length = k + 1
      ∧ (∀ ev ∈ w'.since w, ∃ d p h c, ev = Event.trans_start d p h c)
      ∧ (∀ d p h c, Event.trans_start d p h c ∈ w'.since w →
          h.th_sync = top_th.tt_super.th_sync ∧ h.th_local = top_th.tt_super.th_local)
      ∧ start_flags (w'.since w)
        = ((top_th.participants master_dev w).take (k + 1)).map
            (fun c => (c.1, c.2, top_th.tt_super.th_sync, top_th.tt_super.th_local)) := by
  obtain ⟨rc, w', k, h1, hk, hfull, hlen, hflags, hcalls⟩ :=
    top_trans_start_calls E master_dev top_th w hmagic
  refine ⟨rc, w', k, h1, hk, hfull, hlen, ?_, ?_, ?_⟩
  · intro ev hev
    have := hflags ev hev
    cases ev with
    | trans_start d p h c => exact ⟨d, p, h, c, rfl⟩
    | _ => exact absurd this (by simp [Event.start_with])
  · intro d p h c hev
    exact hflags _ hev
  · rw [start_flags_of_start_with _ _ _ hflags, hcalls]

/-- Master device 3 with devices 1 and 2 attached: the transaction's sync flag is
set while the three handles still hold a clear one; every start returns 0, and
the three start calls, on the handles at 5, 3 and 2, are made with the flag
set. -/
theorem top_trans_start_flags_each_call_witness :
    demo_top.tt_magic = TOP_THANDLE_MAGIC
      ∧ (demo_top.tt_super.th_sync, demo_top.tt_super.th_local) = (true, false)
      ∧ ((demo_world.mem 5).th_sync, (demo_world.mem 3).th_sync, (demo_world.mem 2).th_sync)
        = (false, false, false)
      ∧ demo_top.participants 3 demo_world = [(2, 5), (1, 3), (3, 2)]
      ∧ ∃ rc w', top_trans_start (Env.ok (fun _ => 0) (fun _ => 0)) 3 demo_top demo_world
          = some (rc, w')
        ∧ (w'.since demo_world).length = 3
        ∧ (∀ ev ∈ w'.since demo_world, ∃ d p h c, ev = Event.trans_start d p h c)
        ∧ start_flags (w'.since demo_world)
          = [(2, 5, true, false), (1, 3, true, false), (3, 2, true, false)] := by
  obtain ⟨rc, w', k, h1, -, hfull, hlen, hev, -, hsf⟩ :=
    top_trans_start_flags_each_call (Env.ok (fun _ => 0) (fun _ => 0)) 3 demo_top demo_world rfl
  have hk : k = 2 := hfull (fun _ _ => rfl)
  subst hk
  exact ⟨rfl, rfl, by decide, rfl, rc, w', h1, hlen, hev, hsf⟩

/-- C24: `top_trans_start` returns.  If the start of every registry entry
returns 0 (none at all for an empty registry), the value returned is the code
of the master's `dt_trans_start` call, which is the last call made.  In every
case the value returned is 0 exactly when a start call was made for every
participant, the master included, and every one of them returned 0. -/
theorem top_trans_start_master_code (E : Env) (master_dev : Dev) (top_th : top_thandle)
    (w : World) (hmagic : top_th.tt_magic = TOP_THANDLE_MAGIC) :
    ∃ rc w', top_trans_start E master_dev top_th w = some (rc, w')
      ∧ ((∀ i, i < top_th.tt_sub_thandle_list.length →
            E.trans_start (w.trace.length + i) = 0) →
          rc = E.trans_start (w.trace.length + top_th.tt_sub_thandle_list.length)
            ∧ ∃ h, (w'.since w).getLast?
                = some (Event.trans_start master_dev top_th.tt_master_sub_thandle h rc))
      ∧ (rc = 0 ↔ start_codes (w'.since w)
          = List.replicate (top_th.tt_sub_thandle_list.length + 1) 0) := by
  obtain ⟨evs, he, hcases⟩ :=
    start_subs_codes E top_th.tt_super top_th.tt_sub_thandle_list w
  rcases hcases with ⟨hn, hl, hcodes⟩ | ⟨rc, k, hs, hne, hk, hcodes, hrck⟩
  · cases hr : top_trans_start_subs E top_th.tt_super top_th.tt_sub_thandle_list w with
    | mk o w1 =>
      rw [hr] at hn he
      simp only at hn he
      subst hn
      have hlen : w1.trace.length = w.trace.length + top_th.tt_sub_thandle_list.length := by
        rw [he, List.length_append, hl]
      have hstart : top_trans_start E master_dev top_th w
          = some (dt_trans_start E master_dev top_th.tt_master_sub_thandle
              ((w1.store top_th.tt_master_sub_thandle
                (fun h => { h with th_local := top_th.tt_super.th_local })).store
                  top_th.tt_master_sub_thandle
                (fun h => { h with th_sync := top_th.tt_super.th_sync }))) := by
        simp only [top_trans_start, hmagic, ne_eq, not_true_eq_false, if_false, hr]
      generalize hw3 : (w1.store top_th.tt_master_sub_thandle
          (fun h => { h with th_local := top_th.tt_super.th_local })).store
            top_th.tt_master_sub_thandle
          (fun h => { h with th_sync := top_th.tt_super.th_sync }) = w3 at hstart
      have hw3t : w3.trace = w.trace ++ evs := by rw [← hw3]; exact he
      have hw3l : w3.trace.length = w.trace.length + top_th.tt_sub_thandle_list.length := by
        rw [hw3t, List.length_append, hl]
      have hrc : (dt_trans_start E master_dev top_th.tt_master_sub_thandle w3).1
          = E.trans_start (w.trace.length + top_th.tt_sub_thandle_list.length) := by
        simp only [dt_trans_start, hw3l]
      have hsince : (dt_trans_start E master_dev top_th.tt_master_sub_thandle w3).2.since w
          = evs ++ [Event.trans_start master_dev top_th.tt_master_sub_thandle
              (w3.mem top_th.tt_master_sub_thandle)
              (dt_trans_start E master_dev top_th.tt_master_sub_thandle w3).1] := by
        apply since_append
        simp only [dt_trans_start, log_trace, hw3t, List.append_assoc]
      simp only [dt_trans_start] at hsince hrc
      refine ⟨_, _, hstart, ?_, ?_⟩
      · intro _
        refine ⟨hrc, w3.mem top_th.tt_master_sub_thandle, ?_⟩
        rw [hsince]
        simp
      · rw [hsince, start_codes_append, hcodes, List.replicate_succ']
        simp only [start_codes]
        constructor
        · intro h0; rw [h0]
        · intro h0
          have := List.append_cancel_left h0
          simpa using this
  · cases hr : top_trans_start_subs E top_th.tt_super top_th.tt_sub_thandle_list w with
    | mk o w1 =>
      rw [hr] at hs he
      simp only at hs he
      subst hs
      refine ⟨rc, w1, ?_, ?_, ?_⟩
      · simp only [top_trans_start, hmagic, ne_eq, not_true_eq_false, if_false, hr]
      · intro hok
        exact absurd (hrck.trans (hok k hk)) hne
      · simp only [World.since, he, List.drop_left', hcodes]
        constructor
        · intro h0; exact absurd h0 hne
        · intro h0
          have hmem : rc ∈ List.replicate k 0 ++ [rc] := by simp
          rw [h0] at hmem
          exact absurd (List.eq_of_mem_replicate hmem) hne

/-- Master device 3 with devices 1 and 2 attached, every start returning 0. -/
theorem top_trans_start_master_code_witness :
    demo_top.tt_magic = TOP_THANDLE_MAGIC
      ∧ (∀ i, i < demo_top.tt_sub_thandle_list.length →
          (Env.ok (fun _ => 0) (fun _ => 0)).trans_start (demo_world.trace.length + i) = 0)
      ∧ ∃ rc w', top_trans_start (Env.ok (fun _ => 0) (fun _ => 0)) 3 demo_top demo_world
          = some (rc, w')
        ∧ ((∀ i, i < demo_top.tt_sub_thandle_list.length →
              (Env.ok (fun _ => 0) (fun _ => 0)).trans_start (demo_world.trace.length + i) = 0) →
            rc = (Env.ok (fun _ => 0) (fun _ => 0)).trans_start
                (demo_world.trace.length + demo_top.tt_sub_thandle_list.length)
              ∧ ∃ h, (w'.since demo_world).getLast?
                  = some (Event.trans_start 3 demo_top.tt_master_sub_thandle h rc))
        ∧ (rc = 0 ↔ start_codes (w'.since demo_world)
            = List.replicate (demo_top.tt_sub_thandle_list.length + 1) 0) :=
  ⟨rfl, fun _ _ => rfl,
    top_trans_start_master_code (Env.ok (fun _ => 0) (fun _ => 0)) 3 demo_top demo_world rfl⟩

/-- C25: `top_trans_stop` returns, and its calls before the releases are one
`dt_trans_stop` call per participant, the master and every registry entry, each
on a handle whose `th_sync` and `th_local` are, at the moment of the call,
those of the transaction.  In particular, when the transaction has been started
and a later attach of a new device returns a handle, having forced the sync
flag, every `dt_trans_stop` call of the stop that follows is made on a handle
whose `th_sync` is set, the handles started with a clear flag included. -/
theorem top_trans_stop_flags_each_call (E : Env) (master_dev : Dev) (top_th : top_thandle)
    (w : World) (hmagic : top_th.tt_magic = TOP_THANDLE_MAGIC) :
    (∃ rc w' evs, top_trans_stop E master_dev top_th w = some (rc, w')
        ∧ w'.since w = evs ++ destroy_events top_th
        ∧ evs.length = top_th.tt_sub_thandle_list.length + 1
        ∧ ∀ ev ∈ evs, Event.stop_with top_th.tt_super.th_sync top_th.tt_super.th_local ev)
      ∧ ∀ (d : Dev) (rc0 : Int) (w1 : World) (p : Nat) (top2 : top_thandle) (w2 : World),
          top_trans_start E master_dev top_th w = some (rc0, w1) →
          d ≠ (w1.mem top_th.tt_master_sub_thandle).th_dev → d ∉ top_th.sub_devs w1 →
          thandle_get_sub_by_dt E top_th d w1 = some (ErrPtr.ptr p, top2, w2) →
          ∃ rc w3 evs, top_trans_stop E master_dev top2 w2 = some (rc, w3)
            ∧ w3.since w2 = evs ++ destroy_events top2
            ∧ evs.length = top_th.tt_sub_thandle_list.length + 2
            ∧ ∀ ev ∈ evs, Event.stop_with true top_th.tt_super.th_local ev := by
  refine ⟨top_trans_stop_flags E master_dev top_th w hmagic, ?_⟩
  intro d rc0 w1 p top2 w2 _ hd hnew hat
  have hf := find_none_of_not_mem top_th w1 d hnew
  by_cases hm : top_th.tt_master_sub_thandle = 0
  · simp [thandle_get_sub_by_dt, hmagic, hm] at hat
  cases hc : E.trans_create w1.trace.length d with
  | error e =>
    rw [attach_create_err E top_th d w1 e hmagic hm hd hf hc] at hat
    simp at hat
  | ok h =>
    cases ha : E.alloc_ok (w1.trace.length + 1) with
    | false =>
      rw [attach_alloc_fail E top_th d w1 h hmagic hm hd hf hc ha] at hat
      simp at hat
    | true =>
      rw [attach_new E top_th d w1 h hmagic hm hd hf hc ha] at hat
      simp only [Option.some.injEq, Prod.mk.injEq, ErrPtr.ptr.injEq] at hat
      obtain ⟨-, htop, -⟩ := hat
      subst htop
      obtain ⟨rc, w3, evs, s1, s2, s3, s4⟩ :=
        top_trans_stop_flags E master_dev (top_th.attached (w1.brk + 2) (w1.brk + 1)) w2 hmagic
      exact ⟨rc, w3, evs, s1, s2, by simpa [top_thandle.attached] using s3, s4⟩

/-- Master device 3, sync flag clear, empty registry: the transaction is
started, device 1 is attached afterwards, and the transaction is stopped. -/
theorem top_trans_stop_flags_each_call_witness :
    demo_top0.tt_magic = TOP_THANDLE_MAGIC
      ∧ demo_top0.tt_super.th_sync = false
      ∧ (∃ rc w' evs, top_trans_stop (Env.ok (fun _ => 0) (fun _ => 0)) 3 demo_top0 demo_world0
            = some (rc, w')
          ∧ w'.since demo_world0 = evs ++ destroy_events demo_top0
          ∧ evs.length = demo_top0.tt_sub_thandle_list.length + 1
          ∧ ∀ ev ∈ evs,
              Event.stop_with demo_top0.tt_super.th_sync demo_top0.tt_super.th_local ev)
      ∧ top_trans_start (Env.ok (fun _ => 0) (fun _ => 0)) 3 demo_top0 demo_world0
          = some (0, demo_world0_started)
      ∧ thandle_get_sub_by_dt (Env.ok (fun _ => 0) (fun _ => 0)) demo_top0 1 demo_world0_started
          = some (ErrPtr.ptr 3, demo_top1, demo_world1_late)
      ∧ ∃ rc w3 evs, top_trans_stop (Env.ok (fun _ => 0) (fun _ => 0)) 3 demo_top1
            demo_world1_late = some (rc, w3)
          ∧ w3.since demo_world1_late = evs ++ destroy_events demo_top1
          ∧ evs.length = demo_top0.tt_sub_thandle_list.length + 2
          ∧ ∀ ev ∈ evs, Event.stop_with true demo_top0.tt_super.th_local ev :=
  ⟨rfl, rfl,
    (top_trans_stop_flags_each_call (Env.ok (fun _ => 0) (fun _ => 0)) 3 demo_top0 demo_world0
      rfl).1,
    rfl, rfl,
    (top_trans_stop_flags_each_call (Env.ok (fun _ => 0) (fun _ => 0)) 3 demo_top0 demo_world0
      rfl).2 1 0 demo_world0_started 3 demo_top1 demo_world1_late rfl (by decide) (by decide)
      rfl⟩

/-- C26: after a successful `top_trans_create`, every sequence of attach and
start calls runs to its end without a failed assertion, and leaves a top handle
whose type tag is `TOP_THANDLE_MAGIC` and whose master handle is not `NULL`; so
a further call of `thandle_get_sub_by_dt`, `top_trans_start`, `top_trans_stop`
or `top_thandle_destroy` on it passes its assertions and returns. -/
theorem lassert_never_fails (E : Env) (master_dev : Dev) (w0 : World) (top_th : top_thandle)
    (w1 : World) (hc : top_trans_create E master_dev w0 = (Except.ok top_th, w1))
    (ops : List Op) :
    ∃ top2 w2, run_ops E ops top_th w1 = some (top2, w2)
      ∧ top2.tt_magic = TOP_THANDLE_MAGIC
      ∧ top2.tt_master_sub_thandle ≠ 0
      ∧ (∀ d, ∃ r, thandle_get_sub_by_dt E top2 d w2 = some r)
      ∧ (∀ md, ∃ r, top_trans_start E md top2 w2 = some r)
      ∧ (∀ md, ∃ r, top_trans_stop E md top2 w2 = some r)
      ∧ ∃ w3, top_thandle_destroy top2 w2 = some w3 := by
  obtain ⟨hwf, -, -, -⟩ := create_spec E master_dev w0 top_th w1 hc
  obtain ⟨top2, w2, h1, hmagic, hm⟩ := run_ops_total E ops top_th w1 hwf.magic hwf.master_ne
  have hm2 : top2.tt_master_sub_thandle ≠ 0 := by rw [hm]; exact hwf.master_ne
  refine ⟨top2, w2, h1, hmagic, hm2, ?_, ?_, ?_, ?_⟩
  · intro d
    obtain ⟨r, t, x, h, -⟩ := attach_frame E top2 d w2 hmagic hm2
    exact ⟨_, h⟩
  · intro md
    obtain ⟨rc, x, h⟩ := top_trans_start_total E md top2 w2 hmagic
    exact ⟨_, h⟩
  · intro md
    obtain ⟨x, h, -⟩ := top_trans_stop_spec E md top2 w2 hmagic
    exact ⟨_, h⟩
  · obtain ⟨x, h, -⟩ := destroy_spec top2 w2 hmagic
    exact ⟨_, h⟩

/-- Master device 3 created in the empty world, then device 1 attached, the
transaction started, and devices 2 and 1 attached. -/
theorem lassert_never_fails_witness :
    top_trans_create (Env.ok (fun _ => 0) (fun _ => 0)) 3 World.init
        = (Except.ok demo_top0, demo_world0)
      ∧ ∃ top2 w2,
          run_ops (Env.ok (fun _ => 0) (fun _ => 0))
            [Op.attach 1, Op.start 3, Op.attach 2, Op.attach 1] demo_top0 demo_world0
            = some (top2, w2)
        ∧ top2.tt_magic = TOP_THANDLE_MAGIC
        ∧ top2.tt_master_sub_thandle ≠ 0
        ∧ (∀ d, ∃ r,
            thandle_get_sub_by_dt (Env.ok (fun _ => 0) (fun _ => 0)) top2 d w2 = some r)
        ∧ (∀ md, ∃ r, top_trans_start (Env.ok (fun _ => 0) (fun _ => 0)) md top2 w2 = some r)
        ∧ (∀ md, ∃ r, top_trans_stop (Env.ok (fun _ => 0) (fun _ => 0)) md top2 w2 = some r)
        ∧ ∃ w3, top_thandle_destroy top2 w2 = some w3 :=
  ⟨rfl, lassert_never_fails (Env.ok (fun _ => 0) (fun _ => 0)) 3 World.init demo_top0 demo_world0
    rfl [Op.attach 1, Op.start 3, Op.attach 2, Op.attach 1]⟩

end UpdateTrans
